import Mathlib

/-!
Verification of the grid-based flowchart edge router of `beautiful-mermaid`
(TypeScript sources under `src/ascii/`: `pathfinder.ts`, `edge-routing.ts`,
`grid.ts`, `canvas.ts`, `draw.ts`).

The development is a shallow embedding: each TypeScript function that the
claims depend on is translated into a Lean function of the same name and
shape.  JavaScript numbers that are always used as non-negative integers are
modelled as `Nat`; values that can be negative (coordinate deltas, grid
bounds, intermediate coordinates of the self-loop builder) are modelled as
`Int`.  `Uint8Array`/`Uint32Array` state is modelled as total functions
`Nat → Bool` / `Nat → Nat`; where the source can index out of range we
reproduce the TypedArray semantics explicitly (reads yield `undefined`,
i.e. "falsy"/"not the current stamp", writes are dropped).  The rolling
`stamp` mechanism of the A* context — `costStamp[i] == stamp` marks a cell
as discovered in the current search — is modelled by giving each search a
fresh `Option`-valued cost map (`none` = not discovered in this search).
-/

namespace BM

/-- Grid coordinate, `types.ts` `GridCoord`.  Components are `Int` because the
deterministic self-loop builder can form intermediate coordinates below zero
(they are rejected by its validity check). -/
structure GridCoord where
  x : Int
  y : Int
deriving DecidableEq, Repr

/-- Direction record, `types.ts` (file not under `src/`).  Modelled from the
spec: one of nine unit-offset constants, compared by value.  The concrete
offsets place a port on the corresponding border cell of a node's 3×3 block
(`gridCoordDirection` adds the offset to the node's top-left grid coordinate),
which matches the router's use of ports as blocked border cells that A* may
enter only as the exact target. -/
structure Direction where
  x : Int
  y : Int
deriving DecidableEq, Repr

/-- Modelled from the spec: the nine direction constants of `types.ts`. -/
def Up : Direction := ⟨1, 0⟩

def Down : Direction := ⟨1, 2⟩

def Left : Direction := ⟨0, 1⟩

def Right : Direction := ⟨2, 1⟩

def UpperLeft : Direction := ⟨0, 0⟩

def UpperRight : Direction := ⟨2, 0⟩

def LowerLeft : Direction := ⟨0, 2⟩

def LowerRight : Direction := ⟨2, 2⟩

def Middle : Direction := ⟨1, 1⟩

/-- Modelled from the spec: `types.ts` `gridCoordDirection` — the cell of a
node's 3×3 block (or its surroundings) selected by a direction offset. -/
def gridCoordDirection (c : GridCoord) (d : Direction) : GridCoord :=
  ⟨c.x + d.x, c.y + d.y⟩

/-- Modelled from the spec: `types.ts` `gridCoordEquals` (value comparison). -/
def gridCoordEquals (a b : GridCoord) : Bool :=
  a.x == b.x && a.y == b.y

/-- From `edge-routing.ts` `dirEquals`: compare directions by value. -/
def dirEquals (a b : Direction) : Bool :=
  a.x == b.x && a.y == b.y

/-- From `edge-routing.ts` `getOpposite`.  The source compares the argument
with the nine constants (which have pairwise distinct component values), so
value comparison is faithful. -/
def getOpposite (d : Direction) : Direction :=
  if dirEquals d Up then Down
  else if dirEquals d Down then Up
  else if dirEquals d Left then Right
  else if dirEquals d Right then Left
  else if dirEquals d UpperRight then LowerLeft
  else if dirEquals d UpperLeft then LowerRight
  else if dirEquals d LowerRight then UpperLeft
  else if dirEquals d LowerLeft then UpperRight
  else Middle

/-- From `edge-routing.ts` `determineDirection`. -/
def determineDirection (from_ to_ : GridCoord) : Direction :=
  if from_.x = to_.x then
    (if from_.y < to_.y then Down else Up)
  else if from_.y = to_.y then
    (if from_.x < to_.x then Right else Left)
  else if from_.x < to_.x then
    (if from_.y < to_.y then LowerRight else UpperRight)
  else
    (if from_.y < to_.y then LowerLeft else UpperLeft)

/-- From `pathfinder.ts` `gridCoordToIdx`: `c.x + c.y * stride`.  The result
is an `Int`; every coordinate that actually reaches the A* routines is
non-negative. -/
def gridCoordToIdx (stride : Nat) (c : GridCoord) : Int :=
  c.x + c.y * stride

/-- From `pathfinder.ts` `idxToGridCoord`. -/
def idxToGridCoord (stride : Nat) (idx : Nat) : GridCoord :=
  let y := idx / stride
  let x := idx - y * stride
  ⟨(x : Int), (y : Int)⟩

/-- From `pathfinder.ts` `mergePathLengthIdx`: inner loop, counting the turns
of the index path (`delta ≠ prevDelta`).  `prev` is `path[i-1]`, the list
argument is `path[i], …`. -/
def mergeLenAux (prevDelta : Int) (prev : Nat) : List Nat → Nat
  | [] => 0
  | c :: rest =>
    let delta : Int := (c : Int) - (prev : Int)
    if delta ≠ prevDelta then 1 + mergeLenAux delta c rest
    else mergeLenAux prevDelta c rest

/-- From `pathfinder.ts` `mergePathLengthIdx` (`stride` is unused in the
source as well): `2 + turns` for paths longer than two entries. -/
def mergePathLengthIdx (path : List Nat) (stride : Nat) : Nat :=
  match path with
  | a :: b :: c :: rest => 2 + mergeLenAux ((b : Int) - (a : Int)) b (c :: rest)
  | p => p.length

/-- From `pathfinder.ts` `mergePathIdx`: inner loop.  Emits `path[i-1]` when
the delta changes, and the final entry at the end. -/
def mergeIdxAux (prevDelta : Int) (prev : Nat) : List Nat → List Nat
  | [] => [prev]
  | c :: rest =>
    let delta : Int := (c : Int) - (prev : Int)
    if delta ≠ prevDelta then prev :: mergeIdxAux delta c rest
    else mergeIdxAux prevDelta c rest

/-- From `pathfinder.ts` `mergePathIdx`: collapse collinear runs of an index
path, keeping the two endpoints and every turn. -/
def mergePathIdx (path : List Nat) (stride : Nat) : List Nat :=
  match path with
  | a :: b :: c :: rest => a :: mergeIdxAux ((b : Int) - (a : Int)) b (c :: rest)
  | p => p

/-- From `pathfinder.ts` `mergePath`: the coordinate-level variant used for
`edge.path`.  The source marks interior indices whose surrounding deltas
agree and filters them out; this recursion removes exactly those points. -/
def mergePathAux (step0 step1 : GridCoord) : List GridCoord → List GridCoord
  | [] => [step1]
  | step2 :: rest =>
    if step1.x - step0.x = step2.x - step1.x ∧ step1.y - step0.y = step2.y - step1.y then
      mergePathAux step1 step2 rest
    else
      step1 :: mergePathAux step1 step2 rest

/-- From `pathfinder.ts` `mergePath`. -/
def mergePath (path : List GridCoord) : List GridCoord :=
  match path with
  | a :: b :: c :: rest => a :: mergePathAux a b (c :: rest)
  | p => p

/-- Connectivity bit `CONNECT_LEFT` (`pathfinder.ts` / `edge-routing.ts`). -/
def CONNECT_LEFT : Nat := 1

/-- Connectivity bit `CONNECT_RIGHT`. -/
def CONNECT_RIGHT : Nat := 2

/-- Connectivity bit `CONNECT_UP`. -/
def CONNECT_UP : Nat := 4

/-- Connectivity bit `CONNECT_DOWN`. -/
def CONNECT_DOWN : Nat := 8

/-- Mask of both horizontal bits (`H_MASK` in `getPathStrict`). -/
def H_MASK : Nat := CONNECT_LEFT ||| CONNECT_RIGHT

/-- Mask of both vertical bits (`V_MASK` in `getPathStrict`). -/
def V_MASK : Nat := CONNECT_UP ||| CONNECT_DOWN

/-- From `edge-routing.ts` `SegmentUsageMap` / `pathfinder.ts`
`SegmentUsageArrays`.  The TypedArrays (sized `cellCount * 2`) are modelled
as total functions; every key written or read by the router is in range.
`startSource`/`endTarget` store 1-based node ids, `0` = unset. -/
structure SegmentUsageMap where
  segmentUsed : Nat → Bool
  usedAsMiddle : Nat → Bool
  startSource : Nat → Nat
  startSourceMulti : Nat → Bool
  endTarget : Nat → Nat
  endTargetMulti : Nat → Bool
  usedCount : Nat

/-- From `edge-routing.ts` `makeSegmentUsageMap`: all-zero tables. -/
def makeSegmentUsageMap : SegmentUsageMap :=
  ⟨fun _ => false, fun _ => false, fun _ => 0, fun _ => false, fun _ => 0,
    fun _ => false, 0⟩

/-- From `edge-routing.ts`: `UsedPointSet` is a per-cell 4-bit connectivity
mask (`Uint8Array`, modelled as a total function). -/
def UsedPointSet : Type := Nat → Nat

/-- From `pathfinder.ts` `StrictPathConstraints`. -/
structure StrictPathConstraints where
  segmentUsage : SegmentUsageMap
  usedPoints : Option UsedPointSet
  routeFromIdx : Nat
  routeToIdx : Nat
  edgeFromId : Nat
  edgeToId : Nat

/-- From `pathfinder.ts` `AStarContext`.  The `stamp`/`costStamp`/`costSoFar`/
`cameFrom` caches are per-search state and are modelled inside each search
(`AStarState`); the context carries the geometry and the blocked bitmap. -/
structure AStarContext where
  stride : Nat
  height : Nat
  blocked : Nat → Bool

/-- Number of cells of the allocated grid (`stride * height`). -/
def AStarContext.cellCount (ctx : AStarContext) : Nat := ctx.stride * ctx.height

/-- Read of the `blocked` Uint8Array: out-of-range reads yield `undefined`,
which the source treats as "not blocked". -/
def AStarContext.blockedAt (ctx : AStarContext) (i : Nat) : Bool :=
  if i < ctx.cellCount then ctx.blocked i else false

/-- From `pathfinder.ts` `GridBounds`.  Components are `Int`: the source
guards `maxX < 0 || maxY < 0`. -/
structure GridBounds where
  maxX : Int
  maxY : Int

/-- One entry of the A* open heap: `(idx, priority, cost-at-push)`. -/
structure HeapEntry where
  idx : Nat
  priority : Nat
  cost : Nat
deriving DecidableEq, Repr

/-- Per-search A* state.  `cost i = some c` models
`costStamp[i] == stamp ∧ costSoFar[i] == c` (discovered in this search);
`cameFrom i = some p` models the parent pointer, `none` the `-1` sentinel. -/
structure AStarState where
  heap : List HeapEntry
  cost : Nat → Option Nat
  cameFrom : Nat → Option Nat

/-- Minimum extraction of the source's binary min-heap (`MinHeap.pop`),
modelled as removal of the first minimal-priority entry of the list of live
entries.  All theorems of this development are independent of how the heap
breaks priority ties. -/
def popMinAux (best : HeapEntry) : List HeapEntry → HeapEntry × List HeapEntry
  | [] => (best, [])
  | e :: rest =>
    if e.priority < best.priority then
      let r := popMinAux e rest
      (r.1, best :: r.2)
    else
      let r := popMinAux best rest
      (r.1, e :: r.2)

/-- Pop the minimum-priority entry, or `none` if the heap is empty. -/
def popMinHeap : List HeapEntry → Option (HeapEntry × List HeapEntry)
  | [] => none
  | e :: rest => some (popMinAux e rest)

/-- The `usedPoints` constraint of one neighbour step of `getPathStrict`
(the inline block "禁止形成 `┼` 四向交叉"): combining the recorded mask of a
touched endpoint with the new connection bit must not yield both horizontal
and both vertical bits. -/
def pointsAllowStep (usedPoints : Option UsedPointSet)
    (currentIdx nextIdx fromBit toBit : Nat) : Bool :=
  match usedPoints with
  | none => true
  | some up =>
    let fromMask := up currentIdx
    let okFrom : Bool :=
      if fromMask ≠ 0 then
        let nextMask := fromMask ||| fromBit
        ¬((nextMask &&& H_MASK) = H_MASK ∧ (nextMask &&& V_MASK) = V_MASK)
      else true
    if okFrom then
      let toMask := up nextIdx
      if toMask ≠ 0 then
        let nextMask := toMask ||| toBit
        ¬((nextMask &&& H_MASK) = H_MASK ∧ (nextMask &&& V_MASK) = V_MASK)
      else true
    else false

/-- The segment-sharing constraint of one neighbour step of `getPathStrict`
(the inline block "严格共线规则"): a used segment may be stepped on only
under the strict sharing rule. -/
def segAllowStep (u : SegmentUsageMap)
    (routeFromIdx routeToIdx edgeFromId edgeToId : Nat)
    (currentIdx nextIdx segKey : Nat) : Bool :=
  if u.segmentUsed segKey then
    if u.usedAsMiddle segKey then false
    else
      let isStartStep := currentIdx = routeFromIdx
      let isEndStep := nextIdx = routeToIdx
      let ss := u.startSource segKey
      let et := u.endTarget segKey
      let ssMulti := u.startSourceMulti segKey
      let etMulti := u.endTargetMulti segKey
      if isStartStep ∧ isEndStep then
        (!ssMulti && (ss == 0 || ss == edgeFromId))
          && (!etMulti && (et == 0 || et == edgeToId))
      else if isStartStep then
        !etMulti && et == 0 && !ssMulti && ss == edgeFromId
      else if isEndStep then
        !ssMulti && ss == 0 && !etMulti && et == edgeToId
      else false
  else true

/-- The heuristic of one neighbour push: `|dx| + |dy|`, plus a tie-breaking
`+1` when neither component is zero (identical in all four direction blocks
of the source). -/
def heuristicVal (toX toY nx ny : Nat) : Nat :=
  let absX := if nx ≥ toX then nx - toX else toX - nx
  let absY := if ny ≥ toY then ny - toY else toY - ny
  if absX = 0 ∨ absY = 0 then absX + absY else absX + absY + 1

/-- All constraint checks of one neighbour expansion of `getPathStrict`
(`none` = the unconstrained `getPath`, which performs no checks). -/
def strictStepOk (strictC : Option StrictPathConstraints)
    (currentIdx nextIdx fromBit toBit segKey : Nat) : Bool :=
  match strictC with
  | none => true
  | some c =>
    pointsAllowStep c.usedPoints currentIdx nextIdx fromBit toBit
      && segAllowStep c.segmentUsage c.routeFromIdx c.routeToIdx
          c.edgeFromId c.edgeToId currentIdx nextIdx segKey

/-- One neighbour expansion of the A* loop (one of the four direction blocks
of `getPath` / `getPathStrict`).  The caller has already checked the bounds
guard of the direction; `nextX`/`nextY` are the coordinates the source uses
for the heuristic (computed arithmetically from `currentX`/`currentY`).
TypedArray writes out of the allocated range are dropped; the heap push is a
plain JS array push and always happens. -/
def expandNeighbor (ctx : AStarContext) (strictC : Option StrictPathConstraints)
    (toIdx toX toY : Nat) (st : AStarState)
    (currentIdx currentCost nextIdx fromBit toBit segKey nextX nextY : Nat) :
    AStarState :=
  if !ctx.blockedAt nextIdx || nextIdx == toIdx then
    if strictStepOk strictC currentIdx nextIdx fromBit toBit segKey then
      let newCost := currentCost + 1
      let improves : Bool :=
        match st.cost nextIdx with
        | none => true
        | some c => newCost < c
      if improves then
        let cost' := if nextIdx < ctx.cellCount then
          Function.update st.cost nextIdx (some newCost) else st.cost
        let cameFrom' := if nextIdx < ctx.cellCount then
          Function.update st.cameFrom nextIdx (some currentIdx) else st.cameFrom
        { heap := st.heap ++
            [⟨nextIdx, newCost + heuristicVal toX toY nextX nextY, newCost⟩],
          cost := cost', cameFrom := cameFrom' }
      else st
    else st
  else st

/-- Path reconstruction (`while (c !== -1) { path.push(c); c = cameFrom[c] }`
followed by `reverse`).  The source loop is unbounded; along any reachable
`cameFrom` chain the stored costs strictly decrease, so the chain length is
at most `cost + 1` and the fuel below never runs out (proved where used). -/
def reconstructPath (cameFrom : Nat → Option Nat) : Nat → Nat → List Nat
  | 0, c => [c]
  | fuel + 1, c =>
    match cameFrom c with
    | none => [c]
    | some p => reconstructPath cameFrom fuel p ++ [c]

/-- The four guarded neighbour expansions of one popped cell (the loop body
of `getPath` / `getPathStrict` after the dequeue, staleness and target
checks): right, left, down, up, in the order of the source. -/
def expandCell (ctx : AStarContext) (strictC : Option StrictPathConstraints)
    (toIdx toX toY : Nat) (maxX maxY : Int) (st1 : AStarState)
    (currentIdx currentCost : Nat) : AStarState :=
  let currentY := currentIdx / ctx.stride
  let currentX := currentIdx - currentY * ctx.stride
  let st2 := if (currentX : Int) < maxX then
    expandNeighbor ctx strictC toIdx toX toY st1 currentIdx currentCost
      (currentIdx + 1) CONNECT_RIGHT CONNECT_LEFT (currentIdx * 2)
      (currentX + 1) currentY
    else st1
  let st3 := if currentX > 0 then
    expandNeighbor ctx strictC toIdx toX toY st2 currentIdx currentCost
      (currentIdx - 1) CONNECT_LEFT CONNECT_RIGHT ((currentIdx - 1) * 2)
      (currentX - 1) currentY
    else st2
  let st4 := if (currentY : Int) < maxY then
    expandNeighbor ctx strictC toIdx toX toY st3 currentIdx currentCost
      (currentIdx + ctx.stride) CONNECT_DOWN CONNECT_UP
      (currentIdx * 2 + 1) currentX (currentY + 1)
    else st3
  if currentY > 0 then
    expandNeighbor ctx strictC toIdx toX toY st4 currentIdx currentCost
      (currentIdx - ctx.stride) CONNECT_UP CONNECT_DOWN
      ((currentIdx - ctx.stride) * 2 + 1) currentX (currentY - 1)
    else st4

/-- The A* main loop, shared shape of `getPath` and `getPathStrict` (the
source maintains two specialised copies of the same loop; the strict copy
additionally runs the inline constraint checks, here `strictC = some _`).
Returns `some (some path)` on success, `some none` when the open heap is
exhausted (`null` in the source), and `none` if the fuel runs out — which
cannot happen for the fuel chosen by `astarRun` (proved separately). -/
def astarLoop (ctx : AStarContext) (strictC : Option StrictPathConstraints)
    (toIdx toX toY : Nat) (maxX maxY : Int) :
    Nat → AStarState → Option (Option (List Nat))
  | 0, _ => none
  | fuel + 1, st =>
    match popMinHeap st.heap with
    | none => some none
    | some (e, rest) =>
      let st1 : AStarState := { st with heap := rest }
      if st1.cost e.idx ≠ some e.cost then
        astarLoop ctx strictC toIdx toX toY maxX maxY fuel st1
      else if e.idx = toIdx then
        some (some (reconstructPath st1.cameFrom (e.cost + 1) e.idx))
      else
        astarLoop ctx strictC toIdx toX toY maxX maxY fuel
          (expandCell ctx strictC toIdx toX toY maxX maxY st1 e.idx
            ((st1.cost e.idx).getD 0))

/-- Fuel that is provably sufficient for `astarLoop` (the source loop is
bounded by the same measure argument; see the termination lemmas). -/
def astarFuel (ctx : AStarContext) : Nat :=
  (ctx.cellCount + 2) * (ctx.cellCount + 2)

/-- Initial search state: discover `fromIdx` at cost `0` with parent `-1`
and push it.  The TypedArray writes are dropped when `fromIdx` is out of the
allocated range; the push still happens. -/
def astarInit (ctx : AStarContext) (fromIdx : Nat) : AStarState :=
  { heap := [⟨fromIdx, 0, 0⟩],
    cost := fun i =>
      if i = fromIdx ∧ fromIdx < ctx.cellCount then some 0 else none,
    cameFrom := fun _ => none }

/-- Shared body of `getPath` and `getPathStrict` (`pathfinder.ts`): the
bounds guard, the per-search initialisation, and the main loop.  The native
fast path (`globalThis.__bm_getPath*`) is absent outside the Rust CLI; the
pure JS implementation is modelled. -/
def astarRun (ctx : AStarContext) (strictC : Option StrictPathConstraints)
    (fromIdx toIdx : Nat) (bounds : GridBounds) : Option (List Nat) :=
  if bounds.maxX < 0 ∨ bounds.maxY < 0 then none
  else
    let toY := toIdx / ctx.stride
    let toX := toIdx - toY * ctx.stride
    (astarLoop ctx strictC toIdx toX toY bounds.maxX bounds.maxY
      (astarFuel ctx) (astarInit ctx fromIdx)).getD none

/-- From `pathfinder.ts` `getPath`: unconstrained bounded A*. -/
def getPath (ctx : AStarContext) (fromIdx toIdx : Nat) (bounds : GridBounds) :
    Option (List Nat) :=
  astarRun ctx none fromIdx toIdx bounds

/-- From `pathfinder.ts` `getPathStrict`: A* with the `usedPoints` and
segment-sharing constraints inlined into the expansion. -/
def getPathStrict (ctx : AStarContext) (fromIdx toIdx : Nat)
    (bounds : GridBounds) (constraints : StrictPathConstraints) :
    Option (List Nat) :=
  astarRun ctx (some constraints) fromIdx toIdx bounds

/-- From `edge-routing.ts` `segmentKey`: stable undirected key of a unit
segment, `min(fromIdx,toIdx) * 2 + (isHorizontal ? 0 : 1)`. -/
def segmentKey (fromIdx toIdx : Nat) : Nat :=
  let diff : Int := (toIdx : Int) - (fromIdx : Int)
  let isHorizontal := diff = 1 ∨ diff = -1
  let smaller := if fromIdx < toIdx then fromIdx else toIdx
  smaller * 2 + (if isHorizontal then 0 else 1)

/-- The first block of one `recordPathSegments` iteration: mark the segment
used, counting it once. -/
def segMarkUsed (u : SegmentUsageMap) (key : Nat) : SegmentUsageMap :=
  if u.segmentUsed key then u
  else { u with segmentUsed := Function.update u.segmentUsed key true,
                usedCount := u.usedCount + 1 }

/-- The start-segment block of `recordPathSegments`: claim the segment's
start side for `edgeFromId`, or flag a conflict. -/
def segMarkStart (u : SegmentUsageMap) (key edgeFromId : Nat) :
    SegmentUsageMap :=
  if u.startSource key = 0 then
    { u with startSource := Function.update u.startSource key edgeFromId }
  else if u.startSource key ≠ edgeFromId then
    { u with startSourceMulti := Function.update u.startSourceMulti key true }
  else u

/-- The end-segment block of `recordPathSegments`: claim the segment's end
side for `edgeToId`, or flag a conflict. -/
def segMarkEnd (u : SegmentUsageMap) (key edgeToId : Nat) :
    SegmentUsageMap :=
  if u.endTarget key = 0 then
    { u with endTarget := Function.update u.endTarget key edgeToId }
  else if u.endTarget key ≠ edgeToId then
    { u with endTargetMulti := Function.update u.endTargetMulti key true }
  else u

/-- One iteration of the `recordPathSegments` loop: record the unit segment
`(fromIdx, toIdx)` with its start/end flags. -/
def recordSegStep (u : SegmentUsageMap) (edgeFromId edgeToId : Nat)
    (isStartSegment isEndSegment : Bool) (fromIdx toIdx : Nat) :
    SegmentUsageMap :=
  let key := segmentKey fromIdx toIdx
  let u1 := segMarkUsed u key
  let u2 := if isStartSegment then segMarkStart u1 key edgeFromId else u1
  let u3 := if isEndSegment then segMarkEnd u2 key edgeToId else u2
  if !isStartSegment && !isEndSegment then
    { u3 with usedAsMiddle := Function.update u3.usedAsMiddle key true }
  else u3

/-- The `recordPathSegments` loop over `i = 1 .. path.length - 1`:
`isFirst` tells whether the next step is `i = 1`; the last step is the one
whose tail ends the list. -/
def recordPathSegmentsAux (edgeFromId edgeToId : Nat) :
    Bool → SegmentUsageMap → List Nat → SegmentUsageMap
  | _, u, [] => u
  | _, u, [_] => u
  | isFirst, u, a :: b :: rest =>
    let isLast := rest.isEmpty
    let u' := recordSegStep u edgeFromId edgeToId isFirst isLast a b
    recordPathSegmentsAux edgeFromId edgeToId false u' (b :: rest)

/-- From `edge-routing.ts` `recordPathSegments`: record every unit segment of
a routed (un-merged) index path, tagging the first as start-segment, the
last as end-segment, every other as middle.  `edgeFromId`/`edgeToId` are the
1-based node ids (`edge.from.index + 1` / `edge.to.index + 1`). -/
def recordPathSegments (u : SegmentUsageMap) (edgeFromId edgeToId : Nat)
    (pathIdx : List Nat) : SegmentUsageMap :=
  if pathIdx.length < 2 then u
  else recordPathSegmentsAux edgeFromId edgeToId true u pathIdx

/-- From `edge-routing.ts` `stepToConnectionBits`: the connection bits a unit
step adds at its two endpoints. -/
def stepToConnectionBits (stepFromIdx stepToIdx : Nat) (stride : Nat) :
    Option (Nat × Nat) :=
  let diff : Int := (stepToIdx : Int) - (stepFromIdx : Int)
  if diff = 1 then some (CONNECT_RIGHT, CONNECT_LEFT)
  else if diff = -1 then some (CONNECT_LEFT, CONNECT_RIGHT)
  else if diff = (stride : Int) then some (CONNECT_DOWN, CONNECT_UP)
  else if diff = -(stride : Int) then some (CONNECT_UP, CONNECT_DOWN)
  else none

/-- One iteration of the `recordPathPoints` loop: OR the connection bits of
one step into the masks of its non-blocked endpoints. -/
def recordPointStep (ctx : AStarContext) (up : UsedPointSet)
    (fromIdx toIdx : Nat) : UsedPointSet :=
  match stepToConnectionBits fromIdx toIdx ctx.stride with
  | none => up
  | some bits =>
    let up1 := if !ctx.blockedAt fromIdx then
      Function.update up fromIdx (up fromIdx ||| bits.1) else up
    if !ctx.blockedAt toIdx then
      Function.update up1 toIdx (up1 toIdx ||| bits.2) else up1

/-- The `recordPathPoints` loop over consecutive path entries. -/
def recordPathPointsAux (ctx : AStarContext) :
    UsedPointSet → List Nat → UsedPointSet
  | up, [] => up
  | up, [_] => up
  | up, a :: b :: rest =>
    recordPathPointsAux ctx (recordPointStep ctx up a b) (b :: rest)

/-- From `edge-routing.ts` `recordPathPoints`: record the 4-bit connectivity
masks of all free cells along a routed path. -/
def recordPathPoints (up : UsedPointSet) (ctx : AStarContext)
    (pathIdx : List Nat) : UsedPointSet :=
  if pathIdx.length < 2 then up
  else recordPathPointsAux ctx up pathIdx

/-- From `edge-routing.ts` `wouldBecomeCrossAfterSetting`: would ORing `bit`
into `mask` produce a four-way crossing (both horizontal and both vertical
connection bits)? -/
def wouldBecomeCrossAfterSetting (mask bit : Nat) : Bool :=
  let next := mask ||| bit
  let hasHorizontalThrough :=
    (next &&& CONNECT_LEFT) ≠ 0 ∧ (next &&& CONNECT_RIGHT) ≠ 0
  let hasVerticalThrough :=
    (next &&& CONNECT_UP) ≠ 0 ∧ (next &&& CONNECT_DOWN) ≠ 0
  hasHorizontalThrough ∧ hasVerticalThrough

/-- From `edge-routing.ts` `isAllowedToEnterUsedPoint`: the four-way-crossing
check used by the deterministic self-loop validity test. -/
def isAllowedToEnterUsedPoint (ctx : AStarContext)
    (usedPoints : Option UsedPointSet) (stepFromIdx stepToIdx : Nat) : Bool :=
  match usedPoints with
  | none => true
  | some up =>
    match stepToConnectionBits stepFromIdx stepToIdx ctx.stride with
    | none => true
    | some bits =>
      if !ctx.blockedAt stepFromIdx
          && (up stepFromIdx ≠ 0
              && wouldBecomeCrossAfterSetting (up stepFromIdx) bits.1) then
        false
      else if !ctx.blockedAt stepToIdx
          && (up stepToIdx ≠ 0
              && wouldBecomeCrossAfterSetting (up stepToIdx) bits.2) then
        false
      else true

/-- From `edge-routing.ts` `isAllowedToShareSegmentStrict`: the segment
sharing rule used by the deterministic self-loop validity test (the caller
invokes it only when `segmentUsed[segKey]` holds). -/
def isAllowedToShareSegmentStrict (usageMap : SegmentUsageMap)
    (edgeFromId edgeToId routeFromIdx routeToIdx stepFromIdx stepToIdx segKey :
      Nat) : Bool :=
  if usageMap.usedAsMiddle segKey then false
  else
    let isStartStep := stepFromIdx = routeFromIdx
    let isEndStep := stepToIdx = routeToIdx
    let startSource := usageMap.startSource segKey
    let endTarget := usageMap.endTarget segKey
    let startSourceMulti := usageMap.startSourceMulti segKey
    let endTargetMulti := usageMap.endTargetMulti segKey
    if isStartStep ∧ isEndStep then
      (!startSourceMulti && (startSource == 0 || startSource == edgeFromId))
        && (!endTargetMulti && (endTarget == 0 || endTarget == edgeToId))
    else if isStartStep then
      !endTargetMulti && endTarget == 0
        && !startSourceMulti && startSource == edgeFromId
    else if isEndStep then
      !startSourceMulti && startSource == 0
        && !endTargetMulti && endTarget == edgeToId
    else false

/-- From `canvas.ts` `isCombiningMark`. -/
def isCombiningMark (cp : Nat) : Bool :=
  (0x0300 ≤ cp ∧ cp ≤ 0x036F) ∨ (0x1AB0 ≤ cp ∧ cp ≤ 0x1AFF)
    ∨ (0x1DC0 ≤ cp ∧ cp ≤ 0x1DFF) ∨ (0x20D0 ≤ cp ∧ cp ≤ 0x20FF)
    ∨ (0xFE20 ≤ cp ∧ cp ≤ 0xFE2F)

/-- From `canvas.ts` `isWideCodePoint`. -/
def isWideCodePoint (cp : Nat) : Bool :=
  (0x1100 ≤ cp ∧ cp ≤ 0x115F) ∨ (0x2E80 ≤ cp ∧ cp ≤ 0xA4CF)
    ∨ (0xAC00 ≤ cp ∧ cp ≤ 0xD7A3) ∨ (0xF900 ≤ cp ∧ cp ≤ 0xFAFF)
    ∨ (0xFE10 ≤ cp ∧ cp ≤ 0xFE19) ∨ (0xFE30 ≤ cp ∧ cp ≤ 0xFE6F)
    ∨ (0xFF00 ≤ cp ∧ cp ≤ 0xFF60) ∨ (0xFFE0 ≤ cp ∧ cp ≤ 0xFFE6)
    ∨ (0x1F300 ≤ cp ∧ cp ≤ 0x1FAFF) ∨ (0x1F900 ≤ cp ∧ cp ≤ 0x1F9FF)

/-- From `canvas.ts` `charDisplayWidth`: terminal display width of a single
code point. -/
def charDisplayWidth (c : Char) : Nat :=
  let cp := c.toNat
  if cp = 0 then 0
  else if cp < 32 ∨ (0x7F ≤ cp ∧ cp < 0xA0) then 0
  else if isCombiningMark cp then 0
  else if isWideCodePoint cp then 2
  else 1

/-- From `canvas.ts` `textDisplayWidth`. -/
def textDisplayWidth (text : String) : Nat :=
  text.toList.foldl (fun w ch => w + charDisplayWidth ch) 0

/-- From `canvas.ts`: the canvas is a column-major 2D array of
single-code-point cells, `canvas[x][y]`. -/
def Canvas : Type := List (List Char)

/-- From `canvas.ts` `mkCanvas`: a blank canvas with inclusive dimensions —
columns `0..x`, rows `0..y`, filled with spaces. -/
def mkCanvas (x y : Nat) : Canvas :=
  List.replicate (x + 1) (List.replicate (y + 1) ' ')

/-- From `canvas.ts` `getCanvasSize`: `(canvas.length - 1,
(canvas[0]?.length ?? 1) - 1)` — the highest valid indices (possibly `-1`
on a zero-column canvas). -/
def getCanvasSize (canvas : Canvas) : Int × Int :=
  ((canvas.length : Int) - 1,
   ((canvas.head?.elim 1 List.length : Nat) : Int) - 1)

/-- Read `canvas[x][y]`; out-of-range reads (not performed by the looping
source code on well-formed canvases) default to a space. -/
def cellRead (canvas : Canvas) (x y : Nat) : Char :=
  ((canvas.get? x).bind fun col => col.get? y).getD ' '

/-- Write `canvas[x][y] = v` (no-op out of range, mirroring that the source
only writes inside the iterated range). -/
def cellWrite (canvas : Canvas) (x y : Nat) (v : Char) : Canvas :=
  match canvas.get? x with
  | none => canvas
  | some col => canvas.set x (col.set y v)

/-- From `canvas.ts` `connectsLeft`. -/
def connectsLeft (c : Char) : Bool :=
  c = '─' ∨ c = '┼' ∨ c = '┬' ∨ c = '┴' ∨ c = '┤' ∨ c = '┐' ∨ c = '┘'

/-- From `canvas.ts` `connectsRight`. -/
def connectsRight (c : Char) : Bool :=
  c = '─' ∨ c = '┼' ∨ c = '┬' ∨ c = '┴' ∨ c = '├' ∨ c = '┌' ∨ c = '└'

/-- From `canvas.ts` `connectsUp`. -/
def connectsUp (c : Char) : Bool :=
  c = '│' ∨ c = '┼' ∨ c = '├' ∨ c = '┤' ∨ c = '┴' ∨ c = '└' ∨ c = '┘'

/-- From `canvas.ts` `connectsDown`. -/
def connectsDown (c : Char) : Bool :=
  c = '│' ∨ c = '┼' ∨ c = '├' ∨ c = '┤' ∨ c = '┬' ∨ c = '┌' ∨ c = '┐'

/-- One cell of the `deambiguateUnicodeCrossings` pass: a `┼` cell is
replaced by `│` when the vertical neighbour connectivity count exceeds the
horizontal one, by `─` otherwise; other cells are left alone. -/
def deambiguateCell (maxX maxY : Int) (canvas : Canvas) (x y : Nat) : Canvas :=
  if cellRead canvas x y ≠ '┼' then canvas
  else
    let leftC := if x > 0 then cellRead canvas (x - 1) y else ' '
    let rightC := if (x : Int) < maxX then cellRead canvas (x + 1) y else ' '
    let upC := if y > 0 then cellRead canvas x (y - 1) else ' '
    let downC := if (y : Int) < maxY then cellRead canvas x (y + 1) else ' '
    let hCount := (if connectsRight leftC then 1 else 0)
      + (if connectsLeft rightC then 1 else 0)
    let vCount := (if connectsDown upC then 1 else 0)
      + (if connectsUp downC then 1 else 0)
    cellWrite canvas x y (if vCount > hCount then '│' else '─')

/-- From `canvas.ts` `deambiguateUnicodeCrossings`: post-process the whole
canvas (boundary included), replacing every `┼` by `─` or `│`. -/
def deambiguateUnicodeCrossings (canvas : Canvas) : Canvas :=
  let sz := getCanvasSize canvas
  (List.range (sz.1 + 1).toNat).foldl
    (fun cv x =>
      (List.range (sz.2 + 1).toNat).foldl
        (fun cv2 y => deambiguateCell sz.1 sz.2 cv2 x y) cv)
    canvas

/-- Inner column loop of `canvasToString` for one row: emit `canvas[x][y]`
while `x ≤ maxX` (`x < N` with `N = maxX + 1`) and skip the following column
after a display-width-2 character.  `x` strictly increases every iteration,
so fuel `N` covers the whole loop. -/
def rowCharsAux (canvas : Canvas) (y N : Nat) : Nat → Nat → List Char
  | 0, _ => []
  | fuel + 1, x =>
    if x < N then
      let c := cellRead canvas x y
      if charDisplayWidth c = 2 then c :: rowCharsAux canvas y N fuel (x + 2)
      else c :: rowCharsAux canvas y N fuel (x + 1)
    else []

/-- The `lines.join('\n')` of `canvasToString`, at the character level. -/
def joinWithNewlines : List (List Char) → List Char
  | [] => []
  | [l] => l
  | l :: l2 :: rest => l ++ '\n' :: joinWithNewlines (l2 :: rest)

/-- From `canvas.ts` `canvasToString`: rows joined by newlines, skipping the
cell after each wide character. -/
def canvasToString (canvas : Canvas) : String :=
  let sz := getCanvasSize canvas
  String.mk (joinWithNewlines
    ((List.range (sz.2 + 1).toNat).map
      (fun y => rowCharsAux canvas y (sz.1 + 1).toNat (sz.1 + 1).toNat 0)))

/-- Modelled from the spec: the final steps of the Unicode render pipeline
(the top-level `renderMermaidAscii` of `index.ts` is not under `src/`) —
"After all steps, run `deambiguateUnicodeCrossings`", then convert the
canvas to the output string. -/
def finalizeUnicodeRender (canvas : Canvas) : String :=
  canvasToString (deambiguateUnicodeCrossings canvas)

/-- Well-formedness of reachable segment-usage tables: every segment marked
used was recorded by `recordPathSegments` as the first, the last, or a
middle segment of some path, so it is flagged as middle or carries a
start-source or an end-target. -/
def SegUsageWF (u : SegmentUsageMap) : Prop :=
  ∀ k, u.segmentUsed k = true →
    (u.usedAsMiddle k = true ∨ u.startSource k ≠ 0 ∨ u.endTarget k ≠ 0)

/-- The segment-sharing rule in the words of claim C3, for a step `A → B`
over a segment with `segmentUsed[seg] == 1`: permitted iff `usedAsMiddle`
is unset, the step is the start-step, the end-step, or both, the recorded
sharer is exactly the routed edge's source on the start side and/or exactly
its target on the end side, and neither multi flag is set. -/
def claimSharePermitted (u : SegmentUsageMap)
    (routeFromIdx routeToIdx edgeFromId edgeToId a b segKey : Nat) : Prop :=
  u.usedAsMiddle segKey = false ∧
  u.startSourceMulti segKey = false ∧ u.endTargetMulti segKey = false ∧
  ((a = routeFromIdx ∧ b ≠ routeToIdx
      ∧ u.startSource segKey = edgeFromId ∧ u.endTarget segKey = 0)
   ∨ (b = routeToIdx ∧ a ≠ routeFromIdx
      ∧ u.startSource segKey = 0 ∧ u.endTarget segKey = edgeToId)
   ∨ (a = routeFromIdx ∧ b = routeToIdx
      ∧ (u.startSource segKey = edgeFromId ∨ u.startSource segKey = 0)
      ∧ (u.endTarget segKey = edgeToId ∨ u.endTarget segKey = 0)
      ∧ (u.startSource segKey = edgeFromId ∨ u.endTarget segKey = edgeToId)))

/-- The x coordinate of a grid index (`idx - (idx / stride) * stride`, as
the source computes it; equal to `idx % stride`). -/
def idxX (ctx : AStarContext) (i : Nat) : Nat :=
  i - (i / ctx.stride) * ctx.stride

/-- The y coordinate of a grid index (`(idx / stride) | 0`). -/
def idxY (ctx : AStarContext) (i : Nat) : Nat :=
  i / ctx.stride

/-- A cell lies inside the search bounds (claim C4's "inside the bounds"). -/
def inBoundsCell (ctx : AStarContext) (bounds : GridBounds) (i : Nat) : Prop :=
  (idxX ctx i : Int) ≤ bounds.maxX ∧ (idxY ctx i : Int) ≤ bounds.maxY

/-- Two cells are 4-adjacent in grid coordinates (claim C4's "4-adjacent
grid cells": one coordinate equal, the other differing by one). -/
def cellAdjacent (ctx : AStarContext) (a b : Nat) : Prop :=
  (idxY ctx a = idxY ctx b
    ∧ (idxX ctx a + 1 = idxX ctx b ∨ idxX ctx b + 1 = idxX ctx a))
  ∨ (idxX ctx a = idxX ctx b
    ∧ (idxY ctx a + 1 = idxY ctx b ∨ idxY ctx b + 1 = idxY ctx a))

/-- Claim C4's notion of a valid path: from `fromIdx` to `toIdx` inclusive,
through 4-adjacent cells inside the bounds, where no element other than the
endpoints is blocked (the target may be entered even when blocked). -/
def SpecPath (ctx : AStarContext) (bounds : GridBounds)
    (fromIdx toIdx : Nat) (p : List Nat) : Prop :=
  p.head? = some fromIdx ∧ p.getLast? = some toIdx
  ∧ (∀ i ∈ p, inBoundsCell ctx bounds i)
  ∧ List.Chain' (cellAdjacent ctx) p
  ∧ ∀ i ∈ (p.drop 1).dropLast, ¬ctx.blockedAt i = true

/-- One of the four neighbour-expansion cases of the A* loop, with the
direction guard of the source and the connection bits / segment key that the
source passes in that case. -/
def dirGuardOk (ctx : AStarContext) (maxX maxY : Int)
    (a b fromBit toBit segKey : Nat) : Prop :=
  ((idxX ctx a : Int) < maxX ∧ b = a + 1
    ∧ fromBit = CONNECT_RIGHT ∧ toBit = CONNECT_LEFT ∧ segKey = a * 2)
  ∨ (0 < idxX ctx a ∧ b = a - 1
    ∧ fromBit = CONNECT_LEFT ∧ toBit = CONNECT_RIGHT ∧ segKey = (a - 1) * 2)
  ∨ ((idxY ctx a : Int) < maxY ∧ b = a + ctx.stride
    ∧ fromBit = CONNECT_DOWN ∧ toBit = CONNECT_UP ∧ segKey = a * 2 + 1)
  ∨ (0 < idxY ctx a ∧ b = a - ctx.stride
    ∧ fromBit = CONNECT_UP ∧ toBit = CONNECT_DOWN
    ∧ segKey = (a - ctx.stride) * 2 + 1)

/-- The moves the A* loop can take: an expansion from a popped non-target
cell `a` to a neighbour `b` passing the blocked check and (in strict mode)
the inline constraint checks. -/
def expandRel (ctx : AStarContext) (strictC : Option StrictPathConstraints)
    (toIdx : Nat) (maxX maxY : Int) (a b : Nat) : Prop :=
  a ≠ toIdx ∧ (¬ctx.blockedAt b = true ∨ b = toIdx)
  ∧ ∃ fromBit toBit segKey,
      dirGuardOk ctx maxX maxY a b fromBit toBit segKey
      ∧ strictStepOk strictC a b fromBit toBit segKey = true

/-- The number of cells discovered in the current search. -/
def discCount (ctx : AStarContext) (st : AStarState) : Nat :=
  ((Finset.range ctx.cellCount).filter (fun i => (st.cost i).isSome)).card

/-- Termination measure of the A* loop: heap size plus, for each cell, its
current cost (undiscovered cells count as `cellCount + 2`).  Every loop
iteration strictly decreases it. -/
def astarMeasure (ctx : AStarContext) (st : AStarState) : Nat :=
  st.heap.length +
    (Finset.range ctx.cellCount).sum (fun i =>
      match st.cost i with
      | some c => c
      | none => ctx.cellCount + 2)

/-- Core reachable-state invariant of the A* loop (stable under every
single neighbour expansion). -/
structure AInv (ctx : AStarContext) (strictC : Option StrictPathConstraints)
    (fromIdx toIdx : Nat) (maxX maxY : Int) (st : AStarState) : Prop where
  dom : ∀ i, (st.cost i).isSome → i < ctx.cellCount
  bounded : ∀ i, (st.cost i).isSome →
    (idxX ctx i : Int) ≤ maxX ∧ (idxY ctx i : Int) ≤ maxY
  costFrom : fromIdx < ctx.cellCount → st.cost fromIdx = some 0
  cameFromSource : st.cameFrom fromIdx = none
  parent : ∀ i c, st.cost i = some c → i ≠ fromIdx →
    ∃ p cp, st.cameFrom i = some p ∧ st.cost p = some cp ∧ cp < c
      ∧ expandRel ctx strictC toIdx maxX maxY p i
  costBound : ∀ i c, st.cost i = some c → c < discCount ctx st

/-- Liveness invariant of the A* loop: every discovered cell either has a
live heap entry carrying its current cost, or is a fully expanded non-target
cell (all of its permitted moves already lead to discovered cells of cost at
most one more).  It holds between loop iterations. -/
def LiveInv (ctx : AStarContext) (strictC : Option StrictPathConstraints)
    (toIdx : Nat) (maxX maxY : Int) (st : AStarState) : Prop :=
  ∀ i c, st.cost i = some c →
    (∃ e ∈ st.heap, e.idx = i ∧ e.cost = c)
    ∨ (i ≠ toIdx ∧ ∀ b, expandRel ctx strictC toIdx maxX maxY i b →
        ∃ cb, st.cost b = some cb ∧ cb ≤ c + 1)

/-- What one guarded neighbour expansion (or a no-op) does to the search
state, as seen by the loop invariants: the heap only grows, every cell's
cost is preserved or lowered to `ca + 1` together with a matching live heap
entry, costs never increase, and the termination measure does not grow. -/
def StageOk (ctx : AStarContext) (ca : Nat) (prev next : AStarState) : Prop :=
  (∀ e ∈ prev.heap, e ∈ next.heap)
  ∧ (∀ i, next.cost i = prev.cost i
      ∨ (next.cost i = some (ca + 1)
          ∧ ∃ he ∈ next.heap, he.idx = i ∧ he.cost = ca + 1))
  ∧ (∀ i c, prev.cost i = some c → ∃ c' ≤ c, next.cost i = some c')
  ∧ astarMeasure ctx next ≤ astarMeasure ctx prev

/-- One routed edge as the recording loop of `determinePath` sees it: the
1-based ids of its source and target nodes and its routed (un-merged) index
path. -/
structure RoutedEdgeRec where
  fromId : Nat
  toId : Nat
  path : List Nat

/-- The unit segments of an index path, as the keys `segmentKey` assigns to
its consecutive pairs (the keys `recordPathSegments` records and
`isAllowedToShareSegmentStrict` checks). -/
def pathSegs (p : List Nat) : List Nat :=
  (p.zip p.tail).map (fun ab => segmentKey ab.1 ab.2)

/-- Every consecutive pair of the path is one grid step on a grid with the
given stride (as every path produced by the A* searches and the self-loop
builder is). -/
def UnitSteps (stride : Nat) (p : List Nat) : Prop :=
  ∀ ab ∈ p.zip p.tail,
    ab.2 = ab.1 + 1 ∨ ab.1 = ab.2 + 1
    ∨ ab.2 = ab.1 + stride ∨ ab.1 = ab.2 + stride

/-- What holds of an edge's path when the router accepts it against the
current usage table: at least two cells, no repeated cell, 1-based node
ids, unit steps, and every step passes the inline segment-sharing check
`isAllowedToShareSegmentStrict` (the same check `getPathStrict` runs inline
and the self-loop validator runs per step) with the route's endpoints. -/
def AdmissibleRec (stride : Nat) (u : SegmentUsageMap)
    (r : RoutedEdgeRec) : Prop :=
  2 ≤ r.path.length ∧ r.path.Nodup ∧ 0 < r.fromId ∧ 0 < r.toId
  ∧ UnitSteps stride r.path
  ∧ ∀ ab ∈ r.path.zip r.path.tail,
      segAllowStep u (r.path.head?.getD 0) (r.path.getLast?.getD 0)
        r.fromId r.toId ab.1 ab.2 (segmentKey ab.1 ab.2) = true

/-- The routing loop's recording discipline: each edge's path is checked
against the table accumulated from the earlier edges and then recorded with
`recordPathSegments`. -/
def AdmissibleTrace (stride : Nat) :
    SegmentUsageMap → List RoutedEdgeRec → Prop
  | _, [] => True
  | u, r :: rs => AdmissibleRec stride u r
      ∧ AdmissibleTrace stride
          (recordPathSegments u r.fromId r.toId r.path) rs

/-- Claim C2's conclusion for one pair of routed edges: every unit segment
they share is the first segment of both paths with equal source ids, or the
last segment of both paths with equal target ids. -/
def shareOK (r1 r2 : RoutedEdgeRec) : Prop :=
  ∀ s, s ∈ pathSegs r1.path → s ∈ pathSegs r2.path →
    (r1.fromId = r2.fromId ∧ (pathSegs r1.path).head? = some s
      ∧ (pathSegs r2.path).head? = some s)
    ∨ (r1.toId = r2.toId ∧ (pathSegs r1.path).getLast? = some s
      ∧ (pathSegs r2.path).getLast? = some s)

/-- The invariant the usage table keeps over the recorded edges: bookkeeping
of each per-segment field against the set of recorded paths, plus claim
C2's pairwise property over the recorded edges. -/
structure StateInv (done : List RoutedEdgeRec) (u : SegmentUsageMap) : Prop
    where
  used_of_mem : ∀ s r, r ∈ done → s ∈ pathSegs r.path →
    u.segmentUsed s = true
  endpoint_of_not_middle : ∀ s r, u.usedAsMiddle s = false → r ∈ done →
    s ∈ pathSegs r.path →
    (pathSegs r.path).head? = some s ∨ (pathSegs r.path).getLast? = some s
  no_last_of_et0 : ∀ s r, u.endTarget s = 0 → r ∈ done →
    ¬(pathSegs r.path).getLast? = some s
  no_first_of_ss0 : ∀ s r, u.startSource s = 0 → r ∈ done →
    ¬(pathSegs r.path).head? = some s
  first_id : ∀ s r, u.startSourceMulti s = false → r ∈ done →
    (pathSegs r.path).head? = some s → r.fromId = u.startSource s
  last_id : ∀ s r, u.endTargetMulti s = false → r ∈ done →
    (pathSegs r.path).getLast? = some s → r.toId = u.endTarget s
  pairwise : List.Pairwise shareOK done

/-- Concrete usage table used as a witness input: segment key 10 recorded
once as the start segment of an edge with source id 3. -/
def c3WitnessMap : SegmentUsageMap :=
  ⟨fun k => k == 10, fun _ => false, fun k => if k = 10 then 3 else 0,
    fun _ => false, fun _ => 0, fun _ => false, 1⟩

/-- From `edge-routing.ts` `selfReferenceDirection`: the port pairs used for
an edge from a node to itself. -/
def selfReferenceDirection (graphDirection : String) :
    Direction × Direction × Direction × Direction :=
  if graphDirection = "LR" then (Right, Down, Down, Right)
  else (Down, Right, Right, Down)

/-- One node as `determinePath` sees it (`types.ts` `AsciiNode`, restricted
to the fields the routing code reads: `index` — the position in
`graph.nodes` — and the placed `gridCoord`). -/
structure AsciiNodeRec where
  index : Nat
  gridCoord : GridCoord
deriving DecidableEq, Repr

/-- One edge as `determinePath` sees it.  The source stores node object
references (`edge.from` / `edge.to`; these are keywords in Lean, hence
`fromNode` / `toNode`); object identity of nodes coincides with equality of
their `index`. -/
structure AsciiEdgeRec where
  fromNode : AsciiNodeRec
  toNode : AsciiNodeRec
deriving DecidableEq, Repr

/-- From `edge-routing.ts` `determineStartAndEndDir`: the preferred and
alternative start/end directions of an edge, returned as
`(preferredDir, preferredOppositeDir, alternativeDir,
alternativeOppositeDir)`. -/
def determineStartAndEndDir (edge : AsciiEdgeRec) (graphDirection : String) :
    Direction × Direction × Direction × Direction :=
  if edge.fromNode.index = edge.toNode.index then
    selfReferenceDirection graphDirection
  else
    let d := determineDirection edge.fromNode.gridCoord edge.toNode.gridCoord
    let isBackwards :=
      if graphDirection = "LR" then
        dirEquals d Left || dirEquals d UpperLeft || dirEquals d LowerLeft
      else
        dirEquals d Up || dirEquals d UpperLeft || dirEquals d UpperRight
    if dirEquals d LowerRight then
      if graphDirection = "LR" then (Down, Left, Right, Up)
      else (Right, Up, Down, Left)
    else if dirEquals d UpperRight then
      if graphDirection = "LR" then (Up, Left, Right, Down)
      else (Right, Down, Up, Left)
    else if dirEquals d LowerLeft then
      if graphDirection = "LR" then (Down, Down, Left, Up)
      else (Left, Up, Down, Right)
    else if dirEquals d UpperLeft then
      if graphDirection = "LR" then (Down, Down, Left, Down)
      else (Right, Right, Up, Right)
    else if isBackwards then
      if graphDirection = "LR" && dirEquals d Left then (Down, Down, Left, Right)
      else if graphDirection = "TD" && dirEquals d Up then (Right, Right, Up, Down)
      else (d, getOpposite d, d, getOpposite d)
    else (d, getOpposite d, d, getOpposite d)

/-- The `Candidate` record of `determinePath`: a start/end port pair with
its grid coordinates and indices.  The coordinates of placed ports are
non-negative, so the index (`gridCoordToIdx`, an `Int` in this development)
is stored as a `Nat`. -/
structure Candidate where
  startDir : Direction
  endDir : Direction
  routeFrom : GridCoord
  routeTo : GridCoord
  routeFromIdx : Nat
  routeToIdx : Nat
deriving DecidableEq, Repr

/-- One candidate of `buildCandidates` (and of the two `baseCandidates`
pushes): degenerate pairs with `routeFrom == routeTo` are skipped. -/
def mkCandidate (stride : Nat) (edge : AsciiEdgeRec) (sd ed : Direction) :
    Option Candidate :=
  let routeFrom := gridCoordDirection edge.fromNode.gridCoord sd
  let routeTo := gridCoordDirection edge.toNode.gridCoord ed
  if gridCoordEquals routeFrom routeTo then none
  else some ⟨sd, ed, routeFrom, routeTo,
    (gridCoordToIdx stride routeFrom).toNat,
    (gridCoordToIdx stride routeTo).toNat⟩

/-- From `determinePath`'s inner `buildCandidates`: the Cartesian product of
start and end directions, skipping degenerate pairs. -/
def buildCandidates (stride : Nat) (edge : AsciiEdgeRec)
    (startDirs endDirs : List Direction) : List Candidate :=
  startDirs.flatMap (fun sd =>
    endDirs.filterMap (fun ed => mkCandidate stride edge sd ed))

/-- From `determinePath`'s inner `uniqueDirections`: deduplicate a direction
list by value, keeping first occurrences. -/
def uniqueDirections (dirs : List Direction) : List Direction :=
  dirs.foldl
    (fun out d => if out.any (fun x => dirEquals x d) then out else out ++ [d])
    []

/-- From `determinePath`'s inner `portPenalty`: corner ports cost 100. -/
def portPenalty (d : Direction) : Nat :=
  if dirEquals d Up || dirEquals d Down || dirEquals d Left
      || dirEquals d Right then 0
  else 100

/-- From `determinePath`'s inner `boundaryPortPenalty`: ports on the canvas
boundary (`x == 0` or `y == 0`) cost 200. -/
def boundaryPortPenalty (port : GridCoord) : Nat :=
  if port.x == 0 || port.y == 0 then 200 else 0

/-- From `determinePath`'s inner `candidateCost`: merged path length plus
the port and boundary penalties of both endpoints. -/
def candidateCost (stride : Nat) (c : Candidate) (pathIdx : List Nat) : Nat :=
  mergePathLengthIdx pathIdx stride
    + portPenalty c.startDir + portPenalty c.endDir
    + boundaryPortPenalty c.routeFrom + boundaryPortPenalty c.routeTo

/-- The `baseCandidates` of `determinePath`: the preferred pair, then the
alternative pair when it differs from the preferred one, each skipped when
degenerate. -/
def baseCandidatesOf (stride : Nat) (edge : AsciiEdgeRec)
    (graphDirection : String) : List Candidate :=
  let dirs := determineStartAndEndDir edge graphDirection
  let c1 := mkCandidate stride edge dirs.1 dirs.2.1
  let c2 :=
    if !dirEquals dirs.1 dirs.2.2.1 || !dirEquals dirs.2.1 dirs.2.2.2 then
      mkCandidate stride edge dirs.2.2.1 dirs.2.2.2
    else none
  c1.toList ++ c2.toList

/-- The `expandedStartCandidates` of `determinePath`: all four side ports as
extra start directions, the base end directions. -/
def expandedStartCandidatesOf (stride : Nat) (edge : AsciiEdgeRec)
    (graphDirection : String) : List Candidate :=
  let dirs := determineStartAndEndDir edge graphDirection
  buildCandidates stride edge
    (uniqueDirections [dirs.1, dirs.2.2.1, Right, Left, Down, Up])
    (uniqueDirections [dirs.2.1, dirs.2.2.2])

/-- The `expandedAllCandidates` of `determinePath`: all four side ports as
extra start and end directions. -/
def expandedAllCandidatesOf (stride : Nat) (edge : AsciiEdgeRec)
    (graphDirection : String) : List Candidate :=
  let dirs := determineStartAndEndDir edge graphDirection
  buildCandidates stride edge
    (uniqueDirections [dirs.1, dirs.2.2.1, Right, Left, Down, Up])
    (uniqueDirections [dirs.2.1, dirs.2.2.2, Right, Left, Down, Up])

/-- From `edge-routing.ts` `ROUTING_BOUNDS_EXPAND_STEPS_FAST`. -/
def ROUTING_BOUNDS_EXPAND_STEPS_FAST : List Nat := [12, 24, 48]

/-- From `edge-routing.ts` `ROUTING_BOUNDS_EXPAND_STEPS_FULL`. -/
def ROUTING_BOUNDS_EXPAND_STEPS_FULL : List Nat := [12, 24, 48, 96, 192, 384]

/-- From `determinePath`'s inner `computeSearchBounds`: the base bounds of
the node area expanded by `expandBy`, clamped to the allocated grid. -/
def computeSearchBounds (ctx : AStarContext) (baseMaxX baseMaxY expandBy : Nat) :
    GridBounds :=
  ⟨min ((ctx.stride : Int) - 1) ((baseMaxX : Int) + expandBy),
   min ((ctx.height : Int) - 1) ((baseMaxY : Int) + expandBy)⟩

/-- The inner candidate loop shared by `pickBestFallback` and
`pickBestStrict` for one `expandBy`: run the search for every candidate,
skip failures (and, for self-loops, paths with fewer than 4 merged points),
and keep the first strictly-cheapest result. -/
def pickBestOver (stride : Nat) (isSelfLoop : Bool)
    (search : Candidate → Option (List Nat)) :
    List Candidate → Option (Candidate × List Nat × Nat) →
      Option (Candidate × List Nat × Nat)
  | [], best => best
  | c :: rest, best =>
    match search c with
    | none => pickBestOver stride isSelfLoop search rest best
    | some pathIdx =>
      if isSelfLoop && mergePathLengthIdx pathIdx stride < 4 then
        pickBestOver stride isSelfLoop search rest best
      else
        let cost := candidateCost stride c pathIdx
        let best' :=
          match best with
          | none => some (c, pathIdx, cost)
          | some b => if cost < b.2.2 then some (c, pathIdx, cost) else some b
        pickBestOver stride isSelfLoop search rest best'

/-- From `determinePath`'s inner `pickBestFallback`: for each bounds
expansion step in order, pick the cheapest candidate routed by the
unconstrained `getPath`; return the first step that yields any. -/
def pickBestFallback (ctx : AStarContext) (baseMaxX baseMaxY : Nat)
    (isSelfLoop : Bool) (cands : List Candidate) (expandSteps : List Nat) :
    Option (Candidate × List Nat × Nat) :=
  expandSteps.findSome? (fun expandBy =>
    pickBestOver ctx.stride isSelfLoop
      (fun c => getPath ctx c.routeFromIdx c.routeToIdx
        (computeSearchBounds ctx baseMaxX baseMaxY expandBy))
      cands none)

/-- From `determinePath`'s inner `pickBestStrict`: as `pickBestFallback`,
but routed by `getPathStrict` under the per-candidate constraints, and
returning `null` immediately when there is no usage map or it is empty. -/
def pickBestStrict (ctx : AStarContext) (baseMaxX baseMaxY : Nat)
    (usageMap : Option SegmentUsageMap) (usedPoints : Option UsedPointSet)
    (edgeFromId edgeToId : Nat) (isSelfLoop : Bool)
    (cands : List Candidate) (expandSteps : List Nat) :
    Option (Candidate × List Nat × Nat) :=
  match usageMap with
  | none => none
  | some um =>
    if um.usedCount = 0 then none
    else
      expandSteps.findSome? (fun expandBy =>
        pickBestOver ctx.stride isSelfLoop
          (fun c => getPathStrict ctx c.routeFromIdx c.routeToIdx
            (computeSearchBounds ctx baseMaxX baseMaxY expandBy)
            ⟨um, usedPoints, c.routeFromIdx, c.routeToIdx,
              edgeFromId, edgeToId⟩)
          cands none)

/-- From `determinePath`'s inner `directionToStep`: the unit offset of a
side direction, `null` for corner/middle directions. -/
def directionToStep (d : Direction) : Option GridCoord :=
  if dirEquals d Up then some ⟨0, -1⟩
  else if dirEquals d Down then some ⟨0, 1⟩
  else if dirEquals d Left then some ⟨-1, 0⟩
  else if dirEquals d Right then some ⟨1, 0⟩
  else none

/-- From `determinePath`'s inner `appendStraightLine`: the points appended
after the current last point `from_` up to and including `to_` (the source
pushes them one by one; a non-straight request throws and is never made by
the self-loop builder, modelled as no points). -/
def straightTail (from_ to_ : GridCoord) : List GridCoord :=
  if from_.x = to_.x then
    let step : Int := if to_.y > from_.y then 1 else -1
    (List.range (to_.y - from_.y).natAbs).map
      (fun k => ⟨from_.x, from_.y + step * ((k : Int) + 1)⟩)
  else if from_.y = to_.y then
    let step : Int := if to_.x > from_.x then 1 else -1
    (List.range (to_.x - from_.x).natAbs).map
      (fun k => ⟨from_.x + step * ((k : Int) + 1), from_.y⟩)
  else []

/-- The deduplication filter of `buildDeterministicSelfLoopPath`
(`idx === 0 || !gridCoordEquals(p, points[idx - 1])`): each point is
compared with its original predecessor. -/
def dedupAux (prev : GridCoord) : List GridCoord → List GridCoord
  | [] => []
  | p :: rest =>
    if gridCoordEquals p prev then dedupAux p rest
    else p :: dedupAux p rest

/-- The deduplicated point list of `buildDeterministicSelfLoopPath`. -/
def dedupPoints : List GridCoord → List GridCoord
  | [] => []
  | a :: rest => a :: dedupAux a rest

/-- From `edge-routing.ts` `isDeterministicSelfLoopPathValid`: a candidate
self-loop path is accepted when it has at least 4 points, all points are
inside the allocated grid, every non-endpoint cell is free, and every step
passes the four-way-crossing check and (for used segments) the strict
sharing rule.  The in-range bounds checks precede the `blocked` read, so
the total `blockedAt` read is the source's in-range TypedArray read. -/
def isDeterministicSelfLoopPathValid (ctx : AStarContext)
    (usageMap : Option SegmentUsageMap) (usedPoints : Option UsedPointSet)
    (edgeFromId edgeToId : Nat) (c : Candidate) (path : List GridCoord) :
    Bool :=
  if path.length < 4 then false
  else
    let cellsOk := path.all (fun p =>
      !(decide (p.x < 0) || decide (p.y < 0))
      && !(decide ((ctx.stride : Int) ≤ p.x)
            || decide ((ctx.height : Int) ≤ p.y))
      && (gridCoordEquals p c.routeFrom || gridCoordEquals p c.routeTo
          || !ctx.blockedAt (gridCoordToIdx ctx.stride p).toNat))
    if !cellsOk then false
    else
      let pathIdx := path.map (fun p => (gridCoordToIdx ctx.stride p).toNat)
      (pathIdx.zip pathIdx.tail).all (fun ab =>
        isAllowedToEnterUsedPoint ctx usedPoints ab.1 ab.2
        && match usageMap with
           | none => true
           | some um =>
             let segKey := segmentKey ab.1 ab.2
             !(um.segmentUsed segKey
               && !isAllowedToShareSegmentStrict um edgeFromId edgeToId
                    c.routeFromIdx c.routeToIdx ab.1 ab.2 segKey))

/-- From `edge-routing.ts` `buildDeterministicSelfLoopPath`: go `clearance`
cells out of the start port, take one of the two L-shaped excursions to the
point `clearance` cells out of the end port, come back, deduplicate, and
accept the first variant that is valid and keeps at least 4 merged points. -/
def buildDeterministicSelfLoopPath (ctx : AStarContext)
    (usageMap : Option SegmentUsageMap) (usedPoints : Option UsedPointSet)
    (edgeFromId edgeToId : Nat) (c : Candidate) (clearance : Nat) :
    Option (List GridCoord) :=
  match directionToStep c.startDir, directionToStep c.endDir with
  | some startStep, some endStep =>
    if clearance < 1 then none
    else
      let startOutside : GridCoord :=
        ⟨c.routeFrom.x + startStep.x * clearance,
         c.routeFrom.y + startStep.y * clearance⟩
      let endOutside : GridCoord :=
        ⟨c.routeTo.x + endStep.x * clearance,
         c.routeTo.y + endStep.y * clearance⟩
      let mids : List GridCoord :=
        [⟨startOutside.x, endOutside.y⟩, ⟨endOutside.x, startOutside.y⟩]
      mids.findSome? (fun mid =>
        let points := c.routeFrom ::
          (straightTail c.routeFrom startOutside
            ++ straightTail startOutside mid
            ++ straightTail mid endOutside
            ++ straightTail endOutside c.routeTo)
        let deduped := dedupPoints points
        if isDeterministicSelfLoopPathValid ctx usageMap usedPoints
              edgeFromId edgeToId c deduped
            && decide (4 ≤ (mergePath deduped).length) then
          some deduped
        else none)
  | _, _ => none

/-- The clearance schedule of the self-loop fast path: `1..12`. -/
def selfLoopClearances : List Nat := (List.range 12).map (fun k => k + 1)

/-- The `isSelfLoop` block of `determinePath`: candidate-major,
clearance-minor search for the first accepted deterministic self-loop
path. -/
def selfLoopRoute (ctx : AStarContext) (usageMap : Option SegmentUsageMap)
    (usedPoints : Option UsedPointSet) (edgeFromId edgeToId : Nat)
    (cands : List Candidate) : Option (Candidate × List GridCoord) :=
  cands.findSome? (fun c =>
    selfLoopClearances.findSome? (fun clearance =>
      (buildDeterministicSelfLoopPath ctx usageMap usedPoints edgeFromId
        edgeToId c clearance).map (fun p => (c, p))))

/-- The outcome of `determinePath`: the fields it assigns on `edge`
(`startDir`, `endDir`, `path`) together with the un-merged index path it
records into the usage tables (`recordPathSegments` / `recordPathPoints`);
`recordIdx = []` when no path was found (nothing is recorded). -/
structure DeterminePathResult where
  startDir : Direction
  endDir : Direction
  path : List GridCoord
  recordIdx : List Nat
deriving DecidableEq, Repr

/-- The six-tier strict retry schedule of `determinePath` in its source
order: base, expanded-start and expanded-all candidates under the fast
bounds steps, then the same three candidate sets under the full bounds
steps. -/
def strictTiers (graphDirection : String) (edge : AsciiEdgeRec)
    (ctx : AStarContext) (baseMaxX baseMaxY : Nat)
    (usageMap : Option SegmentUsageMap) (usedPoints : Option UsedPointSet)
    (isSelfLoop : Bool) : List (Option (Candidate × List Nat × Nat)) :=
  let base := baseCandidatesOf ctx.stride edge graphDirection
  let expandedStart := expandedStartCandidatesOf ctx.stride edge graphDirection
  let expandedAll := expandedAllCandidatesOf ctx.stride edge graphDirection
  let efid := edge.fromNode.index + 1
  let etid := edge.toNode.index + 1
  [pickBestStrict ctx baseMaxX baseMaxY usageMap usedPoints efid etid
     isSelfLoop base ROUTING_BOUNDS_EXPAND_STEPS_FAST,
   pickBestStrict ctx baseMaxX baseMaxY usageMap usedPoints efid etid
     isSelfLoop expandedStart ROUTING_BOUNDS_EXPAND_STEPS_FAST,
   pickBestStrict ctx baseMaxX baseMaxY usageMap usedPoints efid etid
     isSelfLoop expandedAll ROUTING_BOUNDS_EXPAND_STEPS_FAST,
   pickBestStrict ctx baseMaxX baseMaxY usageMap usedPoints efid etid
     isSelfLoop base ROUTING_BOUNDS_EXPAND_STEPS_FULL,
   pickBestStrict ctx baseMaxX baseMaxY usageMap usedPoints efid etid
     isSelfLoop expandedStart ROUTING_BOUNDS_EXPAND_STEPS_FULL,
   pickBestStrict ctx baseMaxX baseMaxY usageMap usedPoints efid etid
     isSelfLoop expandedAll ROUTING_BOUNDS_EXPAND_STEPS_FULL]

/-- The A*-based stage of `determinePath` (everything after the self-loop
fast path): empty usage map → plain fallback on the base candidates with
the fast schedule; otherwise the six strict tiers in order; no pick →
`edge.path = []` with the preferred directions. -/
def determinePathAStarStage (graphDirection : String) (edge : AsciiEdgeRec)
    (ctx : AStarContext) (baseMaxX baseMaxY : Nat)
    (usageMap : Option SegmentUsageMap) (usedPoints : Option UsedPointSet) :
    DeterminePathResult :=
  let isSelfLoop := edge.fromNode.index == edge.toNode.index
  let dirs := determineStartAndEndDir edge graphDirection
  let picked :=
    match usageMap with
    | none =>
      pickBestFallback ctx baseMaxX baseMaxY isSelfLoop
        (baseCandidatesOf ctx.stride edge graphDirection)
        ROUTING_BOUNDS_EXPAND_STEPS_FAST
    | some um =>
      if um.usedCount = 0 then
        pickBestFallback ctx baseMaxX baseMaxY isSelfLoop
          (baseCandidatesOf ctx.stride edge graphDirection)
          ROUTING_BOUNDS_EXPAND_STEPS_FAST
      else
        (strictTiers graphDirection edge ctx baseMaxX baseMaxY usageMap
          usedPoints isSelfLoop).findSome? (fun t => t)
  match picked with
  | none => ⟨dirs.1, dirs.2.1, [], []⟩
  | some b => ⟨b.1.startDir, b.1.endDir,
      (mergePathIdx b.2.1 ctx.stride).map (idxToGridCoord ctx.stride),
      b.2.1⟩

/-- From `edge-routing.ts` `determinePath`: the deterministic self-loop fast
path (for self-loop edges, over the base candidates when non-empty,
otherwise the expanded-start candidates), falling through to the A*-based
candidate stage when no self-loop variant is accepted. -/
def determinePath (graphDirection : String) (edge : AsciiEdgeRec)
    (ctx : AStarContext) (baseMaxX baseMaxY : Nat)
    (usageMap : Option SegmentUsageMap) (usedPoints : Option UsedPointSet) :
    DeterminePathResult :=
  let isSelfLoop := edge.fromNode.index == edge.toNode.index
  let base := baseCandidatesOf ctx.stride edge graphDirection
  match (if isSelfLoop then
      selfLoopRoute ctx usageMap usedPoints (edge.fromNode.index + 1)
        (edge.toNode.index + 1)
        (if base.isEmpty then
          expandedStartCandidatesOf ctx.stride edge graphDirection
        else base)
    else none) with
  | some cp => ⟨cp.1.startDir, cp.1.endDir, mergePath cp.2,
      cp.2.map (fun p => (gridCoordToIdx ctx.stride p).toNat)⟩
  | none =>
    determinePathAStarStage graphDirection edge ctx baseMaxX baseMaxY
      usageMap usedPoints

/-- Concrete routing context: a 5×5 grid whose node block (the 3×3 block of
a node at the origin) and two extra wall cells `9 = (4,1)` and `18 = (3,3)`
are blocked. -/
def c7Ctx : AStarContext :=
  ⟨5, 5, fun i => i ∈ [0, 1, 2, 5, 6, 7, 10, 11, 12, 9, 18]⟩

/-- Concrete self-loop edge on the node at the origin of `c7Ctx`. -/
def c7Edge : AsciiEdgeRec := ⟨⟨0, ⟨0, 0⟩⟩, ⟨0, ⟨0, 0⟩⟩⟩

/-- Concrete routing context: an 8×8 grid whose only blocked cells are the
3×3 block of a node at `(1,1)`. -/
def c7bCtx : AStarContext :=
  ⟨8, 8, fun i =>
    (List.range 3).any (fun dx => (List.range 3).any (fun dy =>
      i = (1 + dx) + (1 + dy) * 8))⟩

/-- Concrete self-loop edge on the node at `(1,1)` of `c7bCtx`. -/
def c7bEdge : AsciiEdgeRec := ⟨⟨0, ⟨1, 1⟩⟩, ⟨0, ⟨1, 1⟩⟩⟩

/-- The candidate the self-loop fast path accepts on `c7bCtx` (right port
out, down port in). -/
def c7bCand : Candidate := ⟨Right, Down, ⟨3, 2⟩, ⟨2, 3⟩, 19, 26⟩

/-- The accepted clearance-1 self-loop excursion on `c7bCtx`. -/
def c7bPath : List GridCoord :=
  [⟨3, 2⟩, ⟨4, 2⟩, ⟨4, 3⟩, ⟨4, 4⟩, ⟨3, 4⟩, ⟨2, 4⟩, ⟨2, 3⟩]

/-- Concrete non-self-loop edge between two distinct nodes placed on the
same cell, so that every candidate port pair is degenerate and all strict
tiers are empty. -/
def c5Edge : AsciiEdgeRec := ⟨⟨0, ⟨0, 0⟩⟩, ⟨1, ⟨0, 0⟩⟩⟩

/-- Concrete 1×1 unblocked routing context. -/
def c5Ctx : AStarContext := ⟨1, 1, fun _ => false⟩

/-- From `edge-routing.ts` `ROUTING_MAX_BOUNDS_EXPAND_BY`: the last entry of
the full bounds schedule. -/
def ROUTING_MAX_BOUNDS_EXPAND_BY : Nat :=
  ROUTING_BOUNDS_EXPAND_STEPS_FULL.getLastD 0

/-- The layout-relevant configuration of `types.ts` `AsciiGraph.config`. -/
structure LConfig where
  graphDirection : String
  boxBorderPadding : Nat
  paddingX : Nat
  paddingY : Nat

/-- The immutable part of one `AsciiNode` (its `index` is its position in
`graph.nodes`; the mutable layout fields live in `LayoutState`). -/
structure LNode where
  name : String
  displayLabel : String

/-- The immutable part of one `AsciiEdge`: the indices of its endpoint node
objects and its label text (the mutable `path`/`labelLine`/`startDir`/
`endDir` live in `LayoutState`). -/
structure LEdgeSpec where
  fromIdx : Nat
  toIdx : Nat
  text : String
deriving DecidableEq

/-- The immutable part of an `AsciiGraph`: config, nodes, edges, and the
node-index sets of the subgraphs (subgraph object identity is the position
in `graph.subgraphs`). -/
structure LGraph where
  config : LConfig
  nodes : List LNode
  edges : List LEdgeSpec
  subgraphs : List (List Nat)

/-- The name of the node object at an index (`graph.nodes[i].name`). -/
def nodeName (g : LGraph) (i : Nat) : String :=
  ((g.nodes.get? i).getD ⟨"", ""⟩).name

/-- The mutable layout state of an `AsciiGraph` that the layout claims
observe: the reserved-cell key set of `graph.grid`, the column-width and
row-height maps, the canvas, the drawing offsets, the per-node grid
coordinate, and the per-edge path, label line and directions.  The purely
pictorial per-node fields (`drawingCoord`, `drawing`, `drawn`) that only the
final drawing phase writes are not modelled. -/
structure LayoutState where
  grid : List GridCoord
  columnWidth : Int → Option Nat
  rowHeight : Int → Option Nat
  canvas : Canvas
  offsetX : Int
  offsetY : Int
  nodeCoord : Nat → Option GridCoord
  edgePath : Nat → List GridCoord
  edgeLabelLine : Nat → List GridCoord
  edgeStartDir : Nat → Direction
  edgeEndDir : Nat → Direction

/-- From `grid.ts` (`part_004`) `resetLayoutState`: every modelled layout
field is overwritten with its initial value — empty grid, empty width and
height maps, a fresh 1×1 canvas, zero offsets, no node coordinates, and
empty paths, label lines and zero directions for every edge.  The source
takes the graph and mutates it; the resulting state does not depend on the
previous one, so the reset state is a constant. -/
def resetLayoutState : LayoutState :=
  { grid := [], columnWidth := fun _ => none, rowHeight := fun _ => none,
    canvas := mkCanvas 0 0, offsetX := 0, offsetY := 0,
    nodeCoord := fun _ => none, edgePath := fun _ => [],
    edgeLabelLine := fun _ => [], edgeStartDir := fun _ => ⟨0, 0⟩,
    edgeEndDir := fun _ => ⟨0, 0⟩ }

/-- The 3×3 block of grid keys reserved for a node placed at `c`. -/
def block9 (c : GridCoord) : List GridCoord :=
  (List.range 3).flatMap (fun (dx : Nat) =>
    (List.range 3).map (fun (dy : Nat) =>
      ⟨c.x + (dx : Int), c.y + (dy : Int)⟩))

/-- From `grid.ts` `reserveSpotInGrid`, with explicit fuel: while the
requested key is occupied, shift 4 cells down (LR) or right (TD); then
reserve the 3×3 block and return the final position.  Each collision
consumes a distinct occupied key on the shifted ray (the requested keys are
pairwise distinct), so `grid.length + 1` steps always suffice and the fuel
of `reserveSpotInGrid` below never runs out. -/
def reserveSpotAux (graphDirection : String) (grid : List GridCoord) :
    Nat → GridCoord → Option (GridCoord × List GridCoord)
  | 0, _ => none
  | fuel + 1, requested =>
    if requested ∈ grid then
      if graphDirection = "LR" then
        reserveSpotAux graphDirection grid fuel ⟨requested.x, requested.y + 4⟩
      else
        reserveSpotAux graphDirection grid fuel ⟨requested.x + 4, requested.y⟩
    else some (requested, grid ++ block9 requested)

/-- From `grid.ts` `reserveSpotInGrid`: the placed coordinate and the grown
key set. -/
def reserveSpotInGrid (graphDirection : String) (grid : List GridCoord)
    (requested : GridCoord) : GridCoord × List GridCoord :=
  (reserveSpotAux graphDirection grid (grid.length + 1) requested).getD
    (requested, grid)

/-- From `grid.ts` `getEdgesFromNode` / `getChildren`: the targets of the
edges whose source node has the given node's name. -/
def getChildrenIdx (g : LGraph) (i : Nat) : List Nat :=
  (g.edges.filter (fun e => nodeName g e.fromIdx == nodeName g i)).map
    (fun e => e.toIdx)

/-- One iteration of the root-identification loop of `createMappingOnce`:
push node `i` as a root unless its name was already seen, then mark its own
name and its children's names as seen. -/
def rootScanStep (g : LGraph) (acc : List String × List Nat) (i : Nat) :
    List String × List Nat :=
  let roots := if nodeName g i ∈ acc.1 then acc.2 else acc.2 ++ [i]
  ((acc.1 ++ [nodeName g i]) ++ (getChildrenIdx g i).map (nodeName g), roots)

/-- The root-identification loop of `createMappingOnce`: scan the nodes in
input order, pushing a node as a root unless its name was already seen,
and marking its own name and its children's names as seen. -/
def rootIndicesOf (g : LGraph) : List Nat :=
  ((List.range g.nodes.length).foldl (rootScanStep g) ([], [])).2

/-- The grid keys reserved by the first `t` conflict-free root placements
at margin `m` under `LR`. -/
def gridBlocks (m : Nat) (t : Nat) : List GridCoord :=
  (List.range t).flatMap (fun (j : Nat) =>
    block9 ⟨(m : Int), (m : Int) + 4 * (j : Int)⟩)

/-- The grid keys reserved by the first `t` conflict-free root placements
at margin `m` under `TD`. -/
def gridBlocksTD (m : Nat) (t : Nat) : List GridCoord :=
  (List.range t).flatMap (fun (j : Nat) =>
    block9 ⟨(m : Int) + 4 * (j : Int), (m : Int)⟩)

/-- Claim C9's amended root rule, stated from the claim's words: node `i` is
a root exactly when no earlier node carries its name and no edge whose
source name belongs to an earlier node targets its name. -/
def specIsRoot (g : LGraph) (i : Nat) : Bool :=
  decide (∀ j, j < i → nodeName g j ≠ nodeName g i)
  && !(g.edges.any (fun e =>
        nodeName g e.toIdx == nodeName g i
        && decide (∃ j, j < i ∧ nodeName g e.fromIdx = nodeName g j)))

/-- From `grid.ts` `isNodeInAnySubgraph`. -/
def isNodeInAnySubgraph (g : LGraph) (i : Nat) : Bool :=
  g.subgraphs.any (fun sg => i ∈ sg)

/-- From `grid.ts` `getNodeSubgraph`: the first subgraph containing the
node, by position. -/
def getNodeSubgraphIdx (g : LGraph) (i : Nat) : Option Nat :=
  (List.range g.subgraphs.length).find?
    (fun s => i ∈ (g.subgraphs.get? s).getD [])

/-- The placement-phase state: the grid key set, the per-node coordinates,
the `highestPositionPerLevel` array (a total map — out-of-range JS reads
yield `?? 0` and out-of-range writes create the property), and, as
instrumentation for claim C6, the list of initial requested positions
passed to `reserveSpotInGrid`, in call order. -/
structure PlacePhase where
  grid : List GridCoord
  nodeCoord : Nat → Option GridCoord
  highest : Int → Nat
  requests : List GridCoord

/-- The initial request of one root placement: the level cell at the
current highest position, both coordinates shifted by the margin. -/
def placeOneRootRequest (dir : String) (margin : Nat) (level : Int)
    (pp : PlacePhase) : GridCoord :=
  if dir = "LR" then ⟨level + margin, (pp.highest level : Int) + margin⟩
  else ⟨(pp.highest level : Int) + margin, level + margin⟩

/-- One root placement of `createMappingOnce` (`level = 0` for external
roots, `level = 4` for separated subgraph roots): request the level cell at
the current highest position (both coordinates shifted by the margin),
reserve, and advance the level's highest position by 4. -/
def placeOneRoot (dir : String) (margin : Nat) (level : Int)
    (pp : PlacePhase) (i : Nat) : PlacePhase :=
  { grid := (reserveSpotInGrid dir pp.grid
      (placeOneRootRequest dir margin level pp)).2,
    nodeCoord := Function.update pp.nodeCoord i
      (some (reserveSpotInGrid dir pp.grid
        (placeOneRootRequest dir margin level pp)).1),
    highest := Function.update pp.highest level (pp.highest level + 4),
    requests := pp.requests ++ [placeOneRootRequest dir margin level pp] }

/-- One child placement: a not-yet-placed child is placed exactly like a
root at the child level (same request shape, reservation and highest-
position advance); an already placed child is skipped. -/
def placeChildStep (dir : String) (margin : Nat) (childLevel : Int)
    (p : PlacePhase) (child : Nat) : PlacePhase :=
  if (p.nodeCoord child).isSome then p
  else placeOneRoot dir margin childLevel p child

/-- The child-placement iteration of `createMappingOnce` for one node: place
each not-yet-placed child at the node's level plus 4, advancing that level's
highest position. -/
def placeChildrenOfNode (g : LGraph) (dir : String) (margin : Nat)
    (pp : PlacePhase) (i : Nat) : PlacePhase :=
  let gc := (pp.nodeCoord i).getD ⟨0, 0⟩
  let nodeLevel : Int := if dir = "LR" then gc.x - margin else gc.y - margin
  (getChildrenIdx g i).foldl (placeChildStep dir margin (nodeLevel + 4)) pp

/-- The `hasExternalRoots` flag of the placement phase: some root is outside
every subgraph. -/
def hasExternalRootsB (g : LGraph) : Bool :=
  (rootIndicesOf g).any (fun i => !isNodeInAnySubgraph g i)

/-- The `hasSubgraphRootsWithEdges` flag: some root inside a subgraph has
children. -/
def hasSubgraphRootsWithEdgesB (g : LGraph) : Bool :=
  (rootIndicesOf g).any (fun i =>
    isNodeInAnySubgraph g i && !(getChildrenIdx g i).isEmpty)

/-- The `shouldSeparate` flag: in LR mode with both external and subgraph
roots, place subgraph roots one level deeper. -/
def shouldSeparateB (g : LGraph) : Bool :=
  decide (g.config.graphDirection = "LR")
    && hasExternalRootsB g && hasSubgraphRootsWithEdgesB g

/-- The external root nodes (all roots unless separated). -/
def externalRootNodesOf (g : LGraph) : List Nat :=
  if shouldSeparateB g then
    (rootIndicesOf g).filter (fun i => !isNodeInAnySubgraph g i)
  else rootIndicesOf g

/-- The separated subgraph root nodes (empty unless separated). -/
def subgraphRootNodesOf (g : LGraph) : List Nat :=
  if shouldSeparateB g then
    (rootIndicesOf g).filter (fun i => isNodeInAnySubgraph g i)
  else []

/-- The root part of the placement phase: external roots at level 0, then
(when separating) subgraph roots at level 4. -/
def placePhaseRoots (g : LGraph) (margin : Nat) (grid0 : List GridCoord)
    (coord0 : Nat → Option GridCoord) : PlacePhase :=
  let pp1 := (externalRootNodesOf g).foldl
    (placeOneRoot g.config.graphDirection margin 0)
    ⟨grid0, coord0, fun _ => 0, []⟩
  if shouldSeparateB g && !(subgraphRootNodesOf g).isEmpty then
    (subgraphRootNodesOf g).foldl
      (placeOneRoot g.config.graphDirection margin 4) pp1
  else pp1

/-- The node-placement phase of `createMappingOnce`: identify roots, place
external roots at level 0 (separated subgraph roots at level 4), then place
children level by level in node input order. -/
def placePhase (g : LGraph) (margin : Nat) (grid0 : List GridCoord)
    (coord0 : Nat → Option GridCoord) : PlacePhase :=
  (List.range g.nodes.length).foldl
    (placeChildrenOfNode g g.config.graphDirection margin)
    (placePhaseRoots g margin grid0 coord0)

/-- From `grid.ts` `hasIncomingEdgeFromOutsideSubgraph`: the node has an
incoming edge from outside its subgraph and is the topmost such node of the
subgraph. -/
def hasIncomingEdgeFromOutsideSubgraph (g : LGraph) (st : LayoutState)
    (i : Nat) : Bool :=
  match getNodeSubgraphIdx g i with
  | none => false
  | some s =>
    let external := fun j => g.edges.any (fun e =>
      e.toIdx == j && !(getNodeSubgraphIdx g e.fromIdx == some s))
    if !external i then false
    else
      !((g.subgraphs.get? s).getD []).any (fun o =>
        !(o == i) && (st.nodeCoord o).isSome && external o
        && decide (((st.nodeCoord o).getD ⟨0, 0⟩).y
            < ((st.nodeCoord i).getD ⟨0, 0⟩).y))

/-- From `grid.ts` `setColumnWidth`: widen the node's three columns and
rows to its box dimensions, and the padding column/row before the node. -/
def setColumnWidth (g : LGraph) (st : LayoutState) (i : Nat) : LayoutState :=
  let gc := (st.nodeCoord i).getD ⟨0, 0⟩
  let padding := g.config.boxBorderPadding
  let label := ((g.nodes.get? i).getD ⟨"", ""⟩).displayLabel
  let colWidths := [1, 2 * padding + textDisplayWidth label, 1]
  let rowHeights := [1, 1 + 2 * padding, 1]
  let cw1 := (List.range colWidths.length).foldl
    (fun cw (idx : Nat) =>
      let xCoord := gc.x + (idx : Int)
      let current := (cw xCoord).getD 0
      Function.update cw xCoord (some (max current (colWidths.getD idx 0))))
    st.columnWidth
  let rh1 := (List.range rowHeights.length).foldl
    (fun rh (idx : Nat) =>
      let yCoord := gc.y + (idx : Int)
      let current := (rh yCoord).getD 0
      Function.update rh yCoord (some (max current (rowHeights.getD idx 0))))
    st.rowHeight
  let cw2 :=
    if gc.x > 0 then
      let current := (cw1 (gc.x - 1)).getD 0
      Function.update cw1 (gc.x - 1) (some (max current g.config.paddingX))
    else cw1
  let rh2 :=
    if gc.y > 0 then
      let basePadding :=
        if hasIncomingEdgeFromOutsideSubgraph g st i then
          g.config.paddingY + 4
        else g.config.paddingY
      let current := (rh1 (gc.y - 1)).getD 0
      Function.update rh1 (gc.y - 1) (some (max current basePadding))
    else rh1
  { st with columnWidth := cw2, rowHeight := rh2 }

/-- The `ensureCoord` closure of `grid.ts` `increaseGridSizeForPath`: give a
missing column/row its default half-padding width/height. -/
def ensureCoord (g : LGraph) (cwrh : (Int → Option Nat) × (Int → Option Nat))
    (c : GridCoord) : (Int → Option Nat) × (Int → Option Nat) :=
  let cw := if (cwrh.1 c.x).isNone then
      Function.update cwrh.1 c.x (some (g.config.paddingX / 2))
    else cwrh.1
  let rh := if (cwrh.2 c.y).isNone then
      Function.update cwrh.2 c.y (some (g.config.paddingY / 2))
    else cwrh.2
  (cw, rh)

/-- One segment of `increaseGridSizeForPath`: ensure every intermediate
coordinate of the straight line from `prev` to `curr` (the source walks the
segment cell by cell, ensuring both ends of each unit step). -/
def ensureSegment (g : LGraph)
    (cwrh : (Int → Option Nat) × (Int → Option Nat))
    (prev curr : GridCoord) : (Int → Option Nat) × (Int → Option Nat) :=
  if prev.x = curr.x then
    let step : Int := if curr.y > prev.y then 1 else -1
    (List.range (curr.y - prev.y).natAbs).foldl
      (fun acc k =>
        let y := prev.y + step * (k : Int)
        ensureCoord g (ensureCoord g acc ⟨prev.x, y⟩) ⟨prev.x, y + step⟩)
      cwrh
  else if prev.y = curr.y then
    let step : Int := if curr.x > prev.x then 1 else -1
    (List.range (curr.x - prev.x).natAbs).foldl
      (fun acc k =>
        let x := prev.x + step * (k : Int)
        ensureCoord g (ensureCoord g acc ⟨x, prev.y⟩) ⟨x + step, prev.y⟩)
      cwrh
  else ensureCoord g cwrh curr

/-- From `grid.ts` `increaseGridSizeForPath`. -/
def increaseGridSizeForPath (g : LGraph) (st : LayoutState)
    (path : List GridCoord) : LayoutState :=
  match path with
  | [] => st
  | p0 :: rest =>
    let start := ensureCoord g (st.columnWidth, st.rowHeight) p0
    let final := ((p0 :: rest).zip rest).foldl
      (fun acc pq => ensureSegment g acc pq.1 pq.2) start
    { st with columnWidth := final.1, rowHeight := final.2 }

/-- A label's occupied character-row interval (`edge-routing.ts`
`LabelBox`). -/
structure LabelBox where
  y : Int
  startX : Int
  endX : Int

/-- A node box's occupied drawing-coordinate rectangle (`edge-routing.ts`
`NodeBox`). -/
structure NodeBox where
  minX : Int
  minY : Int
  maxX : Int
  maxY : Int

/-- From `edge-routing.ts` `gridToDrawingCoordForLabel`: sum the column
widths and row heights before the cell and centre inside it. -/
def gridToDrawingCoordForLabel (st : LayoutState) (c : GridCoord) :
    Int × Int :=
  let sx := ((List.range c.x.toNat).map
    (fun col => (st.columnWidth (col : Int)).getD 0)).sum
  let sy := ((List.range c.y.toNat).map
    (fun row => (st.rowHeight (row : Int)).getD 0)).sum
  let colW := (st.columnWidth c.x).getD 0
  let rowH := (st.rowHeight c.y).getD 0
  (st.offsetX + sx + colW / 2, st.offsetY + sy + rowH / 2)

/-- From `edge-routing.ts` `gridToDrawingOriginForNode` (no centring). -/
def gridToDrawingOriginForNode (st : LayoutState) (c : GridCoord) :
    Int × Int :=
  let sx := ((List.range c.x.toNat).map
    (fun col => (st.columnWidth (col : Int)).getD 0)).sum
  let sy := ((List.range c.y.toNat).map
    (fun row => (st.rowHeight (row : Int)).getD 0)).sum
  (st.offsetX + sx, st.offsetY + sy)

/-- From `edge-routing.ts` `getNodeBox`: the drawing-coordinate rectangle
covered by a placed node's box (two columns and two rows from its
origin). -/
def getNodeBox (st : LayoutState) (i : Nat) : Option NodeBox :=
  match st.nodeCoord i with
  | none => none
  | some gc =>
    let w := ((List.range 2).map
      (fun k => (st.columnWidth (gc.x + k)).getD 0)).sum
    let h := ((List.range 2).map
      (fun k => (st.rowHeight (gc.y + k)).getD 0)).sum
    let origin := gridToDrawingOriginForNode st gc
    some ⟨origin.1, origin.2, origin.1 + w, origin.2 + h⟩

/-- From `edge-routing.ts` `getLabelBox`: the character-row interval covered
by the label centred on the segment. -/
def getLabelBox (st : LayoutState) (a b : GridCoord) (label : String) :
    Option LabelBox :=
  let labelWidth := textDisplayWidth label
  if labelWidth = 0 then none
  else
    let pa := gridToDrawingCoordForLabel st a
    let pb := gridToDrawingCoordForLabel st b
    let minX := min pa.1 pb.1
    let maxX := max pa.1 pb.1
    let minY := min pa.2 pb.2
    let maxY := max pa.2 pb.2
    let middleX := minX + (maxX - minX) / 2
    let middleY := minY + (maxY - minY) / 2
    let startX := middleX - (labelWidth / 2 : Nat)
    some ⟨middleY, startX, startX + labelWidth - 1⟩

/-- From `edge-routing.ts` `labelBoxesOverlap`. -/
def labelBoxesOverlap (a b : LabelBox) : Bool :=
  a.y == b.y && !(decide (a.endX < b.startX) || decide (b.endX < a.startX))

/-- From `edge-routing.ts` `labelOverlapsNodeBox`. -/
def labelOverlapsNodeBox (label : LabelBox) (node : NodeBox) : Bool :=
  if label.y < node.minY ∨ node.maxY < label.y then false
  else !(decide (label.endX < node.minX) || decide (node.maxX < label.startX))

/-- From `edge-routing.ts` `collectOccupiedNodeBoxes`. -/
def collectOccupiedNodeBoxes (g : LGraph) (st : LayoutState) :
    List NodeBox :=
  (List.range g.nodes.length).filterMap (getNodeBox st)

/-- From `edge-routing.ts` `collectOccupiedLabelBoxes`: the boxes of the
edges that already carry a label line. -/
def collectOccupiedLabelBoxes (g : LGraph) (st : LayoutState) :
    List LabelBox :=
  (List.range g.edges.length).filterMap (fun j =>
    let e := (g.edges.get? j).getD ⟨0, 0, ""⟩
    if e.text.length = 0 then none
    else
      match st.edgeLabelLine j with
      | a :: b :: _ => getLabelBox st a b e.text
      | _ => none)

/-- From `edge-routing.ts` `calculateLineWidth`: the sum of the column
widths spanned by the segment, endpoints inclusive. -/
def calculateLineWidth (st : LayoutState) (a b : GridCoord) : Nat :=
  let startX := min a.x b.x
  let endX := max a.x b.x
  ((List.range (endX - startX + 1).toNat).map
    (fun k => (st.columnWidth (startX + k)).getD 0)).sum

/-- The scan loop of `determineLabelLine` over the path segments, with the
source's four accumulators: the original-rule fallback line with its size
and wide-enough flag, and the best (first widest) non-overlapping line.
Returns the chosen line: the first wide-enough non-overlapping segment
(the source breaks there), else the best non-overlapping one, else the
fallback. -/
def labelScanLoop (st : LayoutState) (text : String) (lenLabel : Nat)
    (occupied : List LabelBox) (nodeBoxes : List NodeBox) :
    GridCoord → List GridCoord → GridCoord × GridCoord → Nat → Bool →
      Option ((GridCoord × GridCoord) × Nat) → GridCoord × GridCoord
  | _, [], fb, _, _, bno =>
    match bno with
    | some b => b.1
    | none => fb
  | prev, step :: rest, fb, fbs, fbf, bno =>
    let line := (prev, step)
    let lineWidth := calculateLineWidth st prev step
    let fb3 : (GridCoord × GridCoord) × Nat × Bool :=
      if fbf then (fb, fbs, fbf)
      else if lenLabel ≤ lineWidth then (line, fbs, true)
      else if fbs < lineWidth then (line, lineWidth, fbf)
      else (fb, fbs, fbf)
    let candidateBox := getLabelBox st prev step text
    let overlapsExisting :=
      match candidateBox with
      | none => false
      | some cb => occupied.any (fun b => labelBoxesOverlap b cb)
    let overlapsNode :=
      match candidateBox with
      | none => false
      | some cb => nodeBoxes.any (fun b => labelOverlapsNodeBox cb b)
    if !overlapsExisting && !overlapsNode then
      let bno' :=
        match bno with
        | some b => if b.2 < lineWidth then some (line, lineWidth) else bno
        | none => some (line, lineWidth)
      if lenLabel ≤ lineWidth then line
      else labelScanLoop st text lenLabel occupied nodeBoxes step rest
        fb3.1 fb3.2.1 fb3.2.2 bno'
    else labelScanLoop st text lenLabel occupied nodeBoxes step rest
      fb3.1 fb3.2.1 fb3.2.2 bno

/-- From `edge-routing.ts` `determineLabelLine`: pick the label segment of
edge `j` and widen the column at its midpoint to fit the label. -/
def determineLabelLine (g : LGraph) (st : LayoutState) (j : Nat) :
    LayoutState :=
  let e := (g.edges.get? j).getD ⟨0, 0, ""⟩
  if e.text.length = 0 then st
  else
    match st.edgePath j with
    | p0 :: p1 :: rest =>
      let lenLabel := textDisplayWidth e.text
      let occupiedBoxes := collectOccupiedLabelBoxes g st
      let occupiedNodeBoxes := collectOccupiedNodeBoxes g st
      let chosen := labelScanLoop st e.text lenLabel occupiedBoxes
        occupiedNodeBoxes p0 (p1 :: rest) (p0, p1) 0 false none
      let minX := min chosen.1.x chosen.2.x
      let maxX := max chosen.1.x chosen.2.x
      let middleX := minX + (maxX - minX) / 2
      let current := (st.columnWidth middleX).getD 0
      { st with
        columnWidth := Function.update st.columnWidth middleX
          (some (max current (lenLabel + 2))),
        edgeLabelLine := Function.update st.edgeLabelLine j
          [chosen.1, chosen.2] }
    | _ => st

/-- The blocked bitmap `createMappingOnce` builds: the 3×3 blocks of all
placed nodes, keyed by `x + y * stride`. -/
def blockedOf (g : LGraph) (coord : Nat → Option GridCoord) (stride : Nat) :
    Nat → Bool := fun cell =>
  (List.range g.nodes.length).any (fun i =>
    match coord i with
    | none => false
    | some gc =>
      (List.range 3).any (fun dx => (List.range 3).any (fun dy =>
        decide ((gc.x + dx) + (gc.y + dy) * (stride : Int) = (cell : Int)))))

/-- One iteration of the edge-routing loop of `createMappingOnce`: route the
edge with `determinePath` (recording its un-merged path into the usage
tables), grow the grid for the path, and place the label line. -/
def routeOneEdge (g : LGraph) (ctx : AStarContext) (baseMaxX baseMaxY : Nat)
    (acc : LayoutState × SegmentUsageMap × UsedPointSet) (j : Nat) :
    LayoutState × SegmentUsageMap × UsedPointSet :=
  let st := acc.1
  let e := (g.edges.get? j).getD ⟨0, 0, ""⟩
  let edgeRec : AsciiEdgeRec :=
    ⟨⟨e.fromIdx, (st.nodeCoord e.fromIdx).getD ⟨0, 0⟩⟩,
     ⟨e.toIdx, (st.nodeCoord e.toIdx).getD ⟨0, 0⟩⟩⟩
  let r := determinePath g.config.graphDirection edgeRec ctx baseMaxX
    baseMaxY (some acc.2.1) (some acc.2.2)
  let usage := recordPathSegments acc.2.1 (e.fromIdx + 1) (e.toIdx + 1)
    r.recordIdx
  let points := recordPathPoints acc.2.2 ctx r.recordIdx
  let st1 := { st with
    edgePath := Function.update st.edgePath j r.path,
    edgeStartDir := Function.update st.edgeStartDir j r.startDir,
    edgeEndDir := Function.update st.edgeEndDir j r.endDir }
  let st2 := increaseGridSizeForPath g st1 r.path
  let st3 := determineLabelLine g st2 j
  (st3, usage, points)

/-- From `grid.ts` `createMappingOnce`: place the nodes, size the A* grid,
compute the column widths and row heights, route every edge in input order,
and fail exactly when some routed path has fewer than 2 points.  The
drawing steps after the check (drawing-coordinate conversion, box drawing,
canvas sizing, subgraph bounding boxes) write only the pictorial fields no
claim observes and are not modelled. -/
def createMappingOnce (g : LGraph) (margin : Nat) (st : LayoutState) :
    Bool × LayoutState :=
  let pp := placePhase g margin st.grid st.nodeCoord
  let st1 := { st with grid := pp.grid, nodeCoord := pp.nodeCoord }
  let baseMaxX : Int := (List.range g.nodes.length).foldl
    (fun m i => match pp.nodeCoord i with
      | some gc => max m (gc.x + 2)
      | none => m) 0
  let baseMaxY : Int := (List.range g.nodes.length).foldl
    (fun m i => match pp.nodeCoord i with
      | some gc => max m (gc.y + 2)
      | none => m) 0
  let stride := (baseMaxX + ROUTING_MAX_BOUNDS_EXPAND_BY + 1).toNat
  let height := (baseMaxY + ROUTING_MAX_BOUNDS_EXPAND_BY + 1).toNat
  let ctx : AStarContext := ⟨stride, height, blockedOf g pp.nodeCoord stride⟩
  let st2 := (List.range g.nodes.length).foldl
    (fun s i => setColumnWidth g s i) st1
  let final := (List.range g.edges.length).foldl
    (routeOneEdge g ctx baseMaxX.toNat baseMaxY.toNat)
    (st2, makeSegmentUsageMap, (fun _ => 0))
  let ok := !(List.range g.edges.length).any
    (fun j => (final.1.edgePath j).length < 2)
  (ok, final.1)

/-- From `grid.ts` `LAYOUT_MARGIN_STEPS`. -/
def LAYOUT_MARGIN_STEPS : List Nat := [0, 1, 2, 3, 4]

/-- The margin retry loop of `createMapping`: reset all layout state, run
one attempt, keep the first success; if the margin list is exhausted the
last attempt's state is left in place. -/
def createMappingAux (g : LGraph) : List Nat → LayoutState → LayoutState
  | [], st => st
  | m :: rest, _ =>
    let r := createMappingOnce g m resetLayoutState
    if r.1 then r.2 else createMappingAux g rest r.2

/-- From `grid.ts` `createMapping`. -/
def createMapping (g : LGraph) (st : LayoutState) : LayoutState :=
  createMappingAux g LAYOUT_MARGIN_STEPS st

/-- The margin shift of a grid coordinate (claim C6's "(margin, margin)"
shift). -/
def shiftCoord (m : Nat) (c : GridCoord) : GridCoord :=
  ⟨c.x + m, c.y + m⟩

/-- Concrete graph for claim C9: nodes `A`, `B` in this order and the single
edge `B → A`. -/
def c9Graph : LGraph :=
  ⟨⟨"LR", 1, 1, 1⟩, [⟨"A", "A"⟩, ⟨"B", "B"⟩], [⟨1, 0, ""⟩], []⟩

/-- The same two-node graph under `TD`, for the C9 witness's top-down
placement part. -/
def c9GraphTD : LGraph :=
  ⟨⟨"TD", 1, 1, 1⟩, [⟨"A", "A"⟩, ⟨"B", "B"⟩], [⟨1, 0, ""⟩], []⟩

/-- Margin equivariance relation between two placement-phase states (claim
C6's "(margin, margin)" shift): the margin-`m` state is the margin-`0`
state with every grid key, node coordinate and request shifted, and the
same (level-relative) highest positions. -/
def EqvPP (m : Nat) (p0 pm : PlacePhase) : Prop :=
  pm.grid = p0.grid.map (shiftCoord m)
  ∧ (∀ i, pm.nodeCoord i = (p0.nodeCoord i).map (shiftCoord m))
  ∧ pm.highest = p0.highest
  ∧ pm.requests = p0.requests.map (shiftCoord m)

/-- Concrete one-node, no-edge graph used as the C6 witness input. -/
def c6Graph : LGraph := ⟨⟨"LR", 1, 1, 1⟩, [⟨"N", "N"⟩], [], []⟩

/-- The combined non-overlap condition of one label-line candidate segment
(claim C8's "overlaps no previously placed label box and no node box"; a
segment with no label box — zero-width label — overlaps nothing). -/
def segNonOverlapping (st : LayoutState) (text : String)
    (occupied : List LabelBox) (nodeBoxes : List NodeBox)
    (ab : GridCoord × GridCoord) : Bool :=
  match getLabelBox st ab.1 ab.2 text with
  | none => true
  | some cb =>
    !(occupied.any (fun b => labelBoxesOverlap b cb))
      && !(nodeBoxes.any (fun b => labelOverlapsNodeBox cb b))

/-- The best-non-overlapping accumulator step of `determineLabelLine`'s
scan: keep the first strictly wider element. -/
def firstMaxStep {α : Type} (w : α → Nat)
    (acc : Option (α × Nat)) (x : α) : Option (α × Nat) :=
  match acc with
  | none => some (x, w x)
  | some b => if b.2 < w x then some (x, w x) else acc

/-- The original-rule fallback accumulator step of `determineLabelLine`'s
scan: lock on the first wide-enough element, otherwise keep the first
strictly wider element. -/
def fbStep {α : Type} (lenLabel : Nat) (w : α → Nat)
    (acc : α × Nat × Bool) (x : α) : α × Nat × Bool :=
  if acc.2.2 then acc
  else if lenLabel ≤ w x then (x, acc.2.1, true)
  else if acc.2.1 < w x then (x, w x, false)
  else acc

/-- Concrete two-node graph with one labelled edge, used as the C8 witness
input. -/
def c8Graph : LGraph :=
  ⟨⟨"LR", 1, 1, 1⟩, [⟨"A", "A"⟩, ⟨"B", "B"⟩], [⟨0, 1, "x"⟩], []⟩

/-- Concrete layout state for the C8 witness: edge 0 carries a two-point
path along the top row, over two width-3 columns. -/
def c8St : LayoutState :=
  { resetLayoutState with
    columnWidth := fun x =>
      if x = 0 then some 3 else if x = 1 then some 3 else none,
    edgePath := fun j => if j = 0 then [⟨0, 0⟩, ⟨1, 0⟩] else [] }

end BM

-- ===========================================================================
-- End of definitions.  Theorems follow.
-- ===========================================================================

namespace BM

theorem mergeIdxAux_length (l : List Nat) :
    ∀ d p, (mergeIdxAux d p l).length = mergeLenAux d p l + 1 := by
  induction l with
  | nil => intro d p; simp [mergeIdxAux, mergeLenAux]
  | cons c rest ih =>
    intro d p
    simp only [mergeIdxAux, mergeLenAux]
    by_cases h : ((c : Int) - (p : Int)) ≠ d
    · simp only [if_pos h, List.length_cons, ih]
      omega
    · simp only [if_neg h, ih]

theorem ite_bar_dash_ne_cross (c : Prop) [Decidable c] :
    (if c then '│' else '─') ≠ '┼' := by
  split <;> decide

theorem cellRead_cellWrite_ne (canvas : Canvas) (x y x' y' : Nat) (v : Char)
    (h : x ≠ x' ∨ y ≠ y') :
    cellRead (cellWrite canvas x y v) x' y' = cellRead canvas x' y' := by
  unfold cellWrite
  cases hc : canvas.get? x with
  | none => rfl
  | some col =>
    by_cases hx : x = x'
    · subst hx
      rcases h with h | h
      · exact absurd rfl h
      · have hx : x < canvas.length := (List.get?_eq_some.mp hc).1
        simp only [cellRead, List.get?_set_eq_of_lt _ hx, hc, Option.some_bind]
        rw [List.get?_set_ne _ _ h]
    · simp only [cellRead]
      rw [List.get?_set_ne _ _ hx]

theorem cellRead_cellWrite_self (canvas : Canvas) (x y : Nat) (v : Char)
    (h : cellRead canvas x y ≠ ' ') :
    cellRead (cellWrite canvas x y v) x y = v := by
  unfold cellRead at h
  cases hc : canvas.get? x with
  | none => rw [hc] at h; exact absurd rfl h
  | some col =>
    rw [hc] at h
    simp only [Option.some_bind] at h
    cases hcy : col.get? y with
    | none => rw [hcy] at h; exact absurd rfl h
    | some w =>
      have hy : y < col.length := (List.get?_eq_some.mp hcy).1
      have hx : x < canvas.length := (List.get?_eq_some.mp hc).1
      unfold cellWrite cellRead
      rw [hc]
      rw [List.get?_set_eq_of_lt _ hx, Option.some_bind,
        List.get?_set_eq_of_lt _ hy]
      rfl

theorem deambiguateCell_stable (mX mY : Int) (canvas : Canvas) (x y p q : Nat)
    (h : cellRead canvas p q ≠ '┼') :
    cellRead (deambiguateCell mX mY canvas x y) p q ≠ '┼' := by
  unfold deambiguateCell
  by_cases hc : cellRead canvas x y ≠ '┼'
  · rw [if_pos hc]; exact h
  · rw [if_neg hc]
    by_cases hpq : x = p ∧ y = q
    · obtain ⟨rfl, rfl⟩ := hpq
      push_neg at hc
      rw [cellRead_cellWrite_self _ _ _ _ (by rw [hc]; decide)]
      exact ite_bar_dash_ne_cross _
    · rw [cellRead_cellWrite_ne _ _ _ _ _ _ (by tauto)]
      exact h

theorem deambiguateCell_self (mX mY : Int) (canvas : Canvas) (x y : Nat) :
    cellRead (deambiguateCell mX mY canvas x y) x y ≠ '┼' := by
  unfold deambiguateCell
  by_cases hc : cellRead canvas x y ≠ '┼'
  · rw [if_pos hc]; exact hc
  · rw [if_neg hc]
    push_neg at hc
    rw [cellRead_cellWrite_self _ _ _ _ (by rw [hc]; decide)]
    exact ite_bar_dash_ne_cross _

theorem deambiguateInner_stable (mX mY : Int) (x : Nat) (ys : List Nat)
    (canvas : Canvas) (p q : Nat) (h : cellRead canvas p q ≠ '┼') :
    cellRead (ys.foldl (fun cv2 y => deambiguateCell mX mY cv2 x y) canvas)
      p q ≠ '┼' := by
  induction ys generalizing canvas with
  | nil => exact h
  | cons y rest ih =>
    exact ih _ (deambiguateCell_stable mX mY canvas x y p q h)

theorem deambiguateInner_mem (mX mY : Int) (x : Nat) (ys : List Nat)
    (canvas : Canvas) (q : Nat) (hq : q ∈ ys) :
    cellRead (ys.foldl (fun cv2 y => deambiguateCell mX mY cv2 x y) canvas)
      x q ≠ '┼' := by
  induction ys generalizing canvas with
  | nil => cases hq
  | cons y rest ih =>
    rcases List.mem_cons.mp hq with rfl | hq'
    · exact deambiguateInner_stable mX mY x rest _ x q
        (deambiguateCell_self mX mY canvas x q)
    · exact ih _ hq'

theorem deambiguateOuter_stable (mX mY : Int) (M : Nat) (xs : List Nat)
    (canvas : Canvas) (p q : Nat) (h : cellRead canvas p q ≠ '┼') :
    cellRead (xs.foldl
      (fun cv x => (List.range M).foldl
        (fun cv2 y => deambiguateCell mX mY cv2 x y) cv) canvas) p q ≠ '┼' := by
  induction xs generalizing canvas with
  | nil => exact h
  | cons a rest ih =>
    exact ih _ (deambiguateInner_stable mX mY a (List.range M) canvas p q h)

theorem deambiguateOuter_mem (mX mY : Int) (M : Nat) (xs : List Nat)
    (canvas : Canvas) (p q : Nat) (hp : p ∈ xs) (hq : q ∈ List.range M) :
    cellRead (xs.foldl
      (fun cv x => (List.range M).foldl
        (fun cv2 y => deambiguateCell mX mY cv2 x y) cv) canvas) p q ≠ '┼' := by
  induction xs generalizing canvas with
  | nil => cases hp
  | cons a rest ih =>
    rcases List.mem_cons.mp hp with rfl | hp'
    · exact deambiguateOuter_stable mX mY M rest _ p q
        (deambiguateInner_mem mX mY p (List.range M) canvas q hq)
    · exact ih _ hp'

theorem deambiguateUnicodeCrossings_no_cross (canvas : Canvas) (p q : Nat)
    (hp : p < ((getCanvasSize canvas).1 + 1).toNat)
    (hq : q < ((getCanvasSize canvas).2 + 1).toNat) :
    cellRead (deambiguateUnicodeCrossings canvas) p q ≠ '┼' :=
  deambiguateOuter_mem (getCanvasSize canvas).1 (getCanvasSize canvas).2
    ((getCanvasSize canvas).2 + 1).toNat
    (List.range ((getCanvasSize canvas).1 + 1).toNat) canvas p q
    (List.mem_range.mpr hp) (List.mem_range.mpr hq)

theorem rowCharsAux_chars (canvas : Canvas) (y N : Nat) :
    ∀ fuel x ch, ch ∈ rowCharsAux canvas y N fuel x →
      ∃ x', x' < N ∧ ch = cellRead canvas x' y := by
  intro fuel
  induction fuel with
  | zero => intro x ch h; cases h
  | succ n ih =>
    intro x ch h
    have hrw : rowCharsAux canvas y N (n + 1) x =
        (if x < N then
          (if charDisplayWidth (cellRead canvas x y) = 2
           then cellRead canvas x y :: rowCharsAux canvas y N n (x + 2)
           else cellRead canvas x y :: rowCharsAux canvas y N n (x + 1))
         else []) := rfl
    rw [hrw] at h
    by_cases hxN : x < N
    · rw [if_pos hxN] at h
      by_cases hw : charDisplayWidth (cellRead canvas x y) = 2
      · rw [if_pos hw] at h
        rcases List.mem_cons.mp h with rfl | h'
        · exact ⟨x, hxN, rfl⟩
        · exact ih (x + 2) ch h'
      · rw [if_neg hw] at h
        rcases List.mem_cons.mp h with rfl | h'
        · exact ⟨x, hxN, rfl⟩
        · exact ih (x + 1) ch h'
    · rw [if_neg hxN] at h; cases h

theorem joinWithNewlines_chars (ls : List (List Char)) (ch : Char)
    (h : ch ∈ joinWithNewlines ls) : ch = '\n' ∨ ∃ l ∈ ls, ch ∈ l := by
  induction ls with
  | nil => cases h
  | cons l rest ih =>
    cases rest with
    | nil => exact Or.inr ⟨l, by simp, h⟩
    | cons l2 rest2 =>
      unfold joinWithNewlines at h
      rcases List.mem_append.mp h with h' | h'
      · exact Or.inr ⟨l, by simp, h'⟩
      · rcases List.mem_cons.mp h' with rfl | h''
        · exact Or.inl rfl
        · rcases ih h'' with h3 | ⟨l3, hl3, hch⟩
          · exact Or.inl h3
          · exact Or.inr ⟨l3, by simp [hl3], hch⟩

theorem getCanvasSize_cellWrite (canvas : Canvas) (x y : Nat) (v : Char) :
    getCanvasSize (cellWrite canvas x y v) = getCanvasSize canvas := by
  unfold cellWrite
  cases hc : canvas.get? x with
  | none => rfl
  | some col =>
    unfold getCanvasSize
    rw [List.length_set]
    cases canvas with
    | nil => simp at hc
    | cons c0 rest =>
      cases x with
      | zero =>
        simp only [List.get?] at hc
        cases hc
        simp [List.set, List.head?, List.length_set]
      | succ n => simp [List.set, List.head?]

theorem getCanvasSize_deambiguateCell (mX mY : Int) (canvas : Canvas)
    (x y : Nat) :
    getCanvasSize (deambiguateCell mX mY canvas x y) = getCanvasSize canvas := by
  unfold deambiguateCell
  split
  · rfl
  · exact getCanvasSize_cellWrite _ _ _ _

theorem getCanvasSize_deambiguateInner (mX mY : Int) (x : Nat) (ys : List Nat)
    (canvas : Canvas) :
    getCanvasSize (ys.foldl (fun cv2 y => deambiguateCell mX mY cv2 x y) canvas)
      = getCanvasSize canvas := by
  induction ys generalizing canvas with
  | nil => rfl
  | cons y rest ih =>
    rw [List.foldl_cons, ih, getCanvasSize_deambiguateCell]

theorem getCanvasSize_deambiguateOuter (mX mY : Int) (M : Nat) (xs : List Nat)
    (canvas : Canvas) :
    getCanvasSize (xs.foldl
      (fun cv x => (List.range M).foldl
        (fun cv2 y => deambiguateCell mX mY cv2 x y) cv) canvas)
      = getCanvasSize canvas := by
  induction xs generalizing canvas with
  | nil => rfl
  | cons a rest ih =>
    rw [List.foldl_cons, ih, getCanvasSize_deambiguateInner]

theorem getCanvasSize_deambiguate (canvas : Canvas) :
    getCanvasSize (deambiguateUnicodeCrossings canvas) = getCanvasSize canvas :=
  getCanvasSize_deambiguateOuter (getCanvasSize canvas).1 (getCanvasSize canvas).2
    ((getCanvasSize canvas).2 + 1).toNat
    (List.range ((getCanvasSize canvas).1 + 1).toNat) canvas

end BM

/-- C10.  For every index path and stride, `mergePathLengthIdx` — the fast
merged-length computation used for candidate costs — equals the length of
the merged path produced by `mergePathIdx`. -/
theorem C10_mergePathLengthIdx_eq_length_mergePathIdx
    (path : List Nat) (stride : Nat) :
    BM.mergePathLengthIdx path stride = (BM.mergePathIdx path stride).length := by
  match path with
  | [] => rfl
  | [_] => rfl
  | [_, _] => rfl
  | a :: b :: c :: rest =>
    simp only [BM.mergePathLengthIdx, BM.mergePathIdx, List.length_cons,
      BM.mergeIdxAux_length]
    omega

namespace BM

theorem singleConnBit_not_cross :
    ∀ bit ∈ ([CONNECT_LEFT, CONNECT_RIGHT, CONNECT_UP, CONNECT_DOWN] : List Nat),
      ¬(((0 ||| bit) &&& H_MASK) = H_MASK ∧ ((0 ||| bit) &&& V_MASK) = V_MASK) := by
  decide

end BM

/-- C1.  Four-way crossings never reach the output: (a) the final Unicode
render step (`deambiguateUnicodeCrossings` followed by `canvasToString`,
assembled per spec §4.5 since the top-level pipeline file is not under
`src/`) produces a string with zero `┼` characters, for every canvas; and
(b) the strict router's point constraint (the `usedPoints` check inlined in
`getPathStrict`) never permits a step that would combine both horizontal
connectivity bits and both vertical connectivity bits at either endpoint
cell of the step. -/
theorem C1_no_four_way_crossings :
    (∀ canvas : BM.Canvas, '┼' ∉ (BM.finalizeUnicodeRender canvas).toList)
    ∧ (∀ (up : Nat → Nat) (a b fromBit toBit : Nat),
        fromBit ∈ ([BM.CONNECT_LEFT, BM.CONNECT_RIGHT, BM.CONNECT_UP,
          BM.CONNECT_DOWN] : List Nat) →
        toBit ∈ ([BM.CONNECT_LEFT, BM.CONNECT_RIGHT, BM.CONNECT_UP,
          BM.CONNECT_DOWN] : List Nat) →
        BM.pointsAllowStep (some up) a b fromBit toBit = true →
        ¬(((up a ||| fromBit) &&& BM.H_MASK) = BM.H_MASK
            ∧ ((up a ||| fromBit) &&& BM.V_MASK) = BM.V_MASK)
        ∧ ¬(((up b ||| toBit) &&& BM.H_MASK) = BM.H_MASK
            ∧ ((up b ||| toBit) &&& BM.V_MASK) = BM.V_MASK)) := by
  constructor
  · intro canvas h
    have h' : '┼' ∈ BM.joinWithNewlines
        ((List.range (((BM.getCanvasSize
            (BM.deambiguateUnicodeCrossings canvas)).2 + 1).toNat)).map
          (fun y => BM.rowCharsAux (BM.deambiguateUnicodeCrossings canvas) y
            (((BM.getCanvasSize (BM.deambiguateUnicodeCrossings canvas)).1
              + 1).toNat)
            (((BM.getCanvasSize (BM.deambiguateUnicodeCrossings canvas)).1
              + 1).toNat) 0)) := h
    rcases BM.joinWithNewlines_chars _ _ h' with hnl | ⟨l, hl, hch⟩
    · cases hnl
    · obtain ⟨y, hy, rfl⟩ := List.mem_map.mp hl
      obtain ⟨x', hx', hread⟩ := BM.rowCharsAux_chars _ _ _ _ _ _ hch
      rw [BM.getCanvasSize_deambiguate] at hx'
      rw [List.mem_range, BM.getCanvasSize_deambiguate] at hy
      exact BM.deambiguateUnicodeCrossings_no_cross canvas x' y hx' hy hread.symm
  · intro up a b fromBit toBit hfm htm h
    unfold BM.pointsAllowStep at h
    have hA : ¬(((up a ||| fromBit) &&& BM.H_MASK) = BM.H_MASK
        ∧ ((up a ||| fromBit) &&& BM.V_MASK) = BM.V_MASK) := by
      by_cases hfa : up a = 0
      · rw [hfa]; exact BM.singleConnBit_not_cross _ hfm
      · by_cases hcross : ((up a ||| fromBit) &&& BM.H_MASK) = BM.H_MASK
            ∧ ((up a ||| fromBit) &&& BM.V_MASK) = BM.V_MASK
        · exfalso
          simp only [hfa, hcross] at h
          simp at h
          exact absurd h.1 hfa
        · exact hcross
    refine ⟨hA, ?_⟩
    by_cases hfb : up b = 0
    · rw [hfb]; exact BM.singleConnBit_not_cross _ htm
    · by_cases hcross : ((up b ||| toBit) &&& BM.H_MASK) = BM.H_MASK
          ∧ ((up b ||| toBit) &&& BM.V_MASK) = BM.V_MASK
      · exfalso
        simp only [hfb, hcross] at h
        simp at h
        exact absurd h.2 hfb
      · exact hcross

/-- Witness for C1 at concrete inputs: a concrete canvas containing `┼`, and
a concrete permitted step. -/
theorem C1_no_four_way_crossings_witness :
    ('┼' ∉ (BM.finalizeUnicodeRender [['┼']]).toList)
    ∧ (BM.CONNECT_RIGHT ∈ ([BM.CONNECT_LEFT, BM.CONNECT_RIGHT, BM.CONNECT_UP,
          BM.CONNECT_DOWN] : List Nat)
       ∧ BM.CONNECT_LEFT ∈ ([BM.CONNECT_LEFT, BM.CONNECT_RIGHT, BM.CONNECT_UP,
          BM.CONNECT_DOWN] : List Nat)
       ∧ BM.pointsAllowStep (some (fun _ => 2)) 0 1 BM.CONNECT_RIGHT
          BM.CONNECT_LEFT = true)
    ∧ (¬((((fun _ => 2) 0 ||| BM.CONNECT_RIGHT) &&& BM.H_MASK) = BM.H_MASK
            ∧ (((fun _ => 2) 0 ||| BM.CONNECT_RIGHT) &&& BM.V_MASK) = BM.V_MASK)
        ∧ ¬((((fun _ => 2) 1 ||| BM.CONNECT_LEFT) &&& BM.H_MASK) = BM.H_MASK
            ∧ (((fun _ => 2) 1 ||| BM.CONNECT_LEFT) &&& BM.V_MASK) = BM.V_MASK)) :=
  ⟨C1_no_four_way_crossings.1 [['┼']],
   ⟨by decide, by decide, by decide⟩,
   C1_no_four_way_crossings.2 (fun _ => 2) 0 1 BM.CONNECT_RIGHT BM.CONNECT_LEFT
     (by decide) (by decide) (by decide)⟩

/-- C3.  In `getPathStrict`, for an expansion step from `A` to `B` over a
used segment, the inline sharing check (`segAllowStep`, duplicated per
direction in the source) permits the step exactly under the rule stated by
the spec, on every well-formed usage table. -/
theorem C3_strict_segment_sharing_rule (u : BM.SegmentUsageMap)
    (routeFromIdx routeToIdx edgeFromId edgeToId a b k : Nat)
    (hwf : BM.SegUsageWF u) (hused : u.segmentUsed k = true) :
    (BM.segAllowStep u routeFromIdx routeToIdx edgeFromId edgeToId a b k = true
      ↔ BM.claimSharePermitted u routeFromIdx routeToIdx edgeFromId edgeToId
          a b k) := by
  have hwfk := hwf k hused
  unfold BM.segAllowStep BM.claimSharePermitted
  rw [hused]
  by_cases hm : u.usedAsMiddle k = true
  · simp [hm]
  · rw [Bool.not_eq_true] at hm
    by_cases hsa : a = routeFromIdx <;> by_cases heb : b = routeToIdx
    · rw [hm] at hwfk
      simp at hwfk
      simp [hm, hsa, heb]
      tauto
    · simp [hm, hsa, heb]
      tauto
    · simp [hm, hsa, heb]
      tauto
    · constructor
      · intro hfalse
        simp [hm, hsa, heb] at hfalse
      · rintro ⟨-, -, -, hcase⟩
        rcases hcase with ⟨hae, -, -⟩ | ⟨hbe, -, -⟩ | ⟨hae, -, -⟩
        · exact absurd hae hsa
        · exact absurd hbe heb
        · exact absurd hae hsa

/-- Witness for C3: the rule applied at a concrete well-formed table and a
concrete start-step (`A = routeFromIdx`, segment key 10, source id 3). -/
theorem C3_strict_segment_sharing_rule_witness :
    BM.SegUsageWF BM.c3WitnessMap
    ∧ BM.c3WitnessMap.segmentUsed 10 = true
    ∧ (BM.segAllowStep BM.c3WitnessMap 5 6 3 4 5 7 10 = true
        ↔ BM.claimSharePermitted BM.c3WitnessMap 5 6 3 4 5 7 10) := by
  have hwf : BM.SegUsageWF BM.c3WitnessMap := by
    intro k hk
    simp only [BM.c3WitnessMap, beq_iff_eq] at hk
    subst hk
    right; left
    simp [BM.c3WitnessMap]
  exact ⟨hwf, rfl, C3_strict_segment_sharing_rule BM.c3WitnessMap 5 6 3 4 5 7 10 hwf rfl⟩

namespace BM

theorem idxX_eq_mod (ctx : AStarContext) (i : Nat) :
    idxX ctx i = i % ctx.stride := by
  unfold idxX
  have h := Nat.div_add_mod i ctx.stride
  rw [Nat.mul_comm] at h
  omega

theorem idx_decomp (ctx : AStarContext) (i : Nat) :
    i = idxY ctx i * ctx.stride + idxX ctx i := by
  rw [idxX_eq_mod]
  unfold idxY
  have h := Nat.div_add_mod i ctx.stride
  rw [Nat.mul_comm] at h
  omega

theorem idxX_lt_stride (ctx : AStarContext) (i : Nat) (hs : 0 < ctx.stride) :
    idxX ctx i < ctx.stride := by
  rw [idxX_eq_mod]
  exact Nat.mod_lt _ hs

theorem coord_to_idx (ctx : AStarContext) (x y : Nat) (hx : x < ctx.stride) :
    idxX ctx (y * ctx.stride + x) = x ∧ idxY ctx (y * ctx.stride + x) = y := by
  have hs : 0 < ctx.stride := Nat.pos_of_ne_zero (by intro h; omega)
  constructor
  · rw [idxX_eq_mod, Nat.mul_comm y ctx.stride, Nat.mul_add_mod]
    exact Nat.mod_eq_of_lt hx
  · unfold idxY
    rw [Nat.mul_comm y ctx.stride, Nat.mul_add_div hs]
    rw [Nat.div_eq_of_lt hx]
    omega

theorem cell_lt_cellCount (ctx : AStarContext) (i : Nat)
    (hs : 0 < ctx.stride) (hy : idxY ctx i < ctx.height) :
    i < ctx.cellCount := by
  have hd := idx_decomp ctx i
  unfold AStarContext.cellCount
  have hx := idxX_lt_stride ctx i hs
  calc i = idxY ctx i * ctx.stride + idxX ctx i := hd
  _ < idxY ctx i * ctx.stride + ctx.stride := by omega
  _ = (idxY ctx i + 1) * ctx.stride := by ring
  _ ≤ ctx.height * ctx.stride := Nat.mul_le_mul_right _ (by omega)
  _ = ctx.stride * ctx.height := Nat.mul_comm _ _

theorem step_right_coords (ctx : AStarContext) (a : Nat)
    (h : idxX ctx a + 1 < ctx.stride) :
    idxX ctx (a + 1) = idxX ctx a + 1 ∧ idxY ctx (a + 1) = idxY ctx a := by
  have hd := idx_decomp ctx a
  have := coord_to_idx ctx (idxX ctx a + 1) (idxY ctx a) h
  have heq : a + 1 = idxY ctx a * ctx.stride + (idxX ctx a + 1) := by omega
  rw [heq]
  exact this

theorem step_left_coords (ctx : AStarContext) (a : Nat)
    (hs : 0 < ctx.stride) (h : 0 < idxX ctx a) :
    idxX ctx (a - 1) = idxX ctx a - 1 ∧ idxY ctx (a - 1) = idxY ctx a := by
  have hd := idx_decomp ctx a
  have hx := idxX_lt_stride ctx a hs
  have := coord_to_idx ctx (idxX ctx a - 1) (idxY ctx a) (by omega)
  have heq : a - 1 = idxY ctx a * ctx.stride + (idxX ctx a - 1) := by omega
  rw [heq]
  exact this

theorem step_down_coords (ctx : AStarContext) (a : Nat) (hs : 0 < ctx.stride) :
    idxX ctx (a + ctx.stride) = idxX ctx a
      ∧ idxY ctx (a + ctx.stride) = idxY ctx a + 1 := by
  have hd := idx_decomp ctx a
  have hx := idxX_lt_stride ctx a hs
  have := coord_to_idx ctx (idxX ctx a) (idxY ctx a + 1) hx
  have heq : a + ctx.stride = (idxY ctx a + 1) * ctx.stride + idxX ctx a := by
    rw [Nat.add_mul]
    omega
  rw [heq]
  exact this

theorem step_up_coords (ctx : AStarContext) (a : Nat) (hs : 0 < ctx.stride)
    (h : 0 < idxY ctx a) :
    idxX ctx (a - ctx.stride) = idxX ctx a
      ∧ idxY ctx (a - ctx.stride) = idxY ctx a - 1 := by
  have hd := idx_decomp ctx a
  have hx := idxX_lt_stride ctx a hs
  have := coord_to_idx ctx (idxX ctx a) (idxY ctx a - 1) hx
  have heq : a - ctx.stride = (idxY ctx a - 1) * ctx.stride + idxX ctx a := by
    have : 1 * ctx.stride ≤ idxY ctx a * ctx.stride :=
      Nat.mul_le_mul_right _ h
    rw [Nat.sub_mul]
    omega
  rw [heq]
  exact this

end BM

namespace BM

theorem popMinAux_perm (l : List HeapEntry) :
    ∀ best, List.Perm ((popMinAux best l).1 :: (popMinAux best l).2) (best :: l) := by
  induction l with
  | nil => intro best; simp [popMinAux]
  | cons e rest ih =>
    intro best
    unfold popMinAux
    by_cases h : e.priority < best.priority
    · simp only [if_pos h]
      exact List.Perm.trans (List.Perm.swap _ _ _) ((ih e).cons best)
    · simp only [if_neg h]
      exact List.Perm.trans (List.Perm.swap _ _ _)
        (List.Perm.trans ((ih best).cons e) (List.Perm.swap _ _ _))

theorem popMinHeap_perm (l : List HeapEntry) (e : HeapEntry)
    (rest : List HeapEntry) (h : popMinHeap l = some (e, rest)) :
    List.Perm (e :: rest) l := by
  cases l with
  | nil => cases h
  | cons a tail =>
    unfold popMinHeap at h
    have hp := popMinAux_perm tail a
    rw [show (popMinAux a tail).1 = e by rw [show popMinAux a tail = (e, rest) from Option.some.inj h],
        show (popMinAux a tail).2 = rest by rw [show popMinAux a tail = (e, rest) from Option.some.inj h]] at hp
    exact hp

theorem popMinHeap_mem (l : List HeapEntry) (e : HeapEntry)
    (rest : List HeapEntry) (h : popMinHeap l = some (e, rest)) (x : HeapEntry)
    (hx : x ∈ l) : x = e ∨ x ∈ rest := by
  have := (popMinHeap_perm l e rest h).mem_iff.mpr hx
  rcases List.mem_cons.mp this with h1 | h1
  · exact Or.inl h1
  · exact Or.inr h1

theorem popMinHeap_length (l : List HeapEntry) (e : HeapEntry)
    (rest : List HeapEntry) (h : popMinHeap l = some (e, rest)) :
    rest.length + 1 = l.length := by
  have := (popMinHeap_perm l e rest h).length_eq
  simpa using this

theorem expandNeighbor_split (ctx : AStarContext)
    (strictC : Option StrictPathConstraints) (toIdx toX toY : Nat)
    (st : AStarState) (a ca b fb tb sk nx ny : Nat) :
    (expandNeighbor ctx strictC toIdx toX toY st a ca b fb tb sk nx ny = st)
    ∨ ((¬ctx.blockedAt b = true ∨ b = toIdx)
        ∧ strictStepOk strictC a b fb tb sk = true
        ∧ (st.cost b = none ∨ ∃ cb, st.cost b = some cb ∧ ca + 1 < cb)
        ∧ expandNeighbor ctx strictC toIdx toX toY st a ca b fb tb sk nx ny =
            { heap := st.heap ++ [⟨b, ca + 1 + heuristicVal toX toY nx ny, ca + 1⟩],
              cost := if b < ctx.cellCount
                then Function.update st.cost b (some (ca + 1)) else st.cost,
              cameFrom := if b < ctx.cellCount
                then Function.update st.cameFrom b (some a) else st.cameFrom }) := by
  by_cases hbl : (!ctx.blockedAt b || b == toIdx) = true
  · by_cases hst : strictStepOk strictC a b fb tb sk = true
    · have hbl2 : ¬ctx.blockedAt b = true ∨ b = toIdx := by
        rcases Bool.or_eq_true _ _ |>.mp hbl with h1 | h1
        · left; simp at h1; simp [h1]
        · right; simpa using h1
      cases hcb : st.cost b with
      | none =>
        refine Or.inr ⟨hbl2, hst, Or.inl rfl, ?_⟩
        unfold expandNeighbor
        rw [if_pos hbl, if_pos hst]
        simp only [hcb]
        rw [if_pos trivial]
      | some cb =>
        by_cases him : ca + 1 < cb
        · refine Or.inr ⟨hbl2, hst, Or.inr ⟨cb, rfl, him⟩, ?_⟩
          unfold expandNeighbor
          rw [if_pos hbl, if_pos hst]
          simp only [hcb, decide_eq_true_eq, if_pos him]
        · refine Or.inl ?_
          unfold expandNeighbor
          rw [if_pos hbl, if_pos hst]
          simp only [hcb, decide_eq_true_eq, if_neg him]
    · refine Or.inl ?_
      unfold expandNeighbor
      rw [if_pos hbl, if_neg hst]
  · refine Or.inl ?_
    unfold expandNeighbor
    rw [if_neg hbl]

end BM

namespace BM

theorem discCount_le (ctx : AStarContext) (st : AStarState) :
    discCount ctx st ≤ ctx.cellCount := by
  unfold discCount
  calc ((Finset.range ctx.cellCount).filter _).card
      ≤ (Finset.range ctx.cellCount).card := Finset.card_filter_le _ _
  _ = ctx.cellCount := Finset.card_range _

theorem expandNeighbor_cost_bwd (ctx : AStarContext)
    (strictC : Option StrictPathConstraints) (toIdx toX toY : Nat)
    (st : AStarState) (a ca b fb tb sk nx ny : Nat) (i : Nat) :
    ((expandNeighbor ctx strictC toIdx toX toY st a ca b fb tb sk nx ny).cost i
        = st.cost i
      ∧ (expandNeighbor ctx strictC toIdx toX toY st a ca b fb tb sk nx ny).cameFrom i
        = st.cameFrom i)
    ∨ (i = b ∧ b < ctx.cellCount
        ∧ (expandNeighbor ctx strictC toIdx toX toY st a ca b fb tb sk nx ny).cost b
            = some (ca + 1)
        ∧ (expandNeighbor ctx strictC toIdx toX toY st a ca b fb tb sk nx ny).cameFrom b
            = some a
        ∧ (¬ctx.blockedAt b = true ∨ b = toIdx)
        ∧ strictStepOk strictC a b fb tb sk = true
        ∧ (st.cost b = none ∨ ∃ cb, st.cost b = some cb ∧ ca + 1 < cb)) := by
  rcases expandNeighbor_split ctx strictC toIdx toX toY st a ca b fb tb sk nx ny
    with heq | ⟨hbl, hst, him, heq⟩
  · rw [heq]; exact Or.inl ⟨rfl, rfl⟩
  · by_cases hbc : b < ctx.cellCount
    · by_cases hib : i = b
      · subst hib
        refine Or.inr ⟨rfl, hbc, ?_, ?_, hbl, hst, him⟩
        · rw [heq]; simp [if_pos hbc, Function.update]
        · rw [heq]; simp [if_pos hbc, Function.update]
      · refine Or.inl ⟨?_, ?_⟩
        · rw [heq]
          simp only [if_pos hbc]
          exact Function.update_noteq hib _ _
        · rw [heq]
          simp only [if_pos hbc]
          exact Function.update_noteq hib _ _
    · refine Or.inl ⟨?_, ?_⟩
      · rw [heq]; simp [if_neg hbc]
      · rw [heq]; simp [if_neg hbc]

theorem expandNeighbor_cost_fwd (ctx : AStarContext)
    (strictC : Option StrictPathConstraints) (toIdx toX toY : Nat)
    (st : AStarState) (a ca b fb tb sk nx ny : Nat) (i c : Nat)
    (h : st.cost i = some c) :
    ∃ c' ≤ c, (expandNeighbor ctx strictC toIdx toX toY st a ca b fb tb sk nx
      ny).cost i = some c' := by
  rcases expandNeighbor_cost_bwd ctx strictC toIdx toX toY st a ca b fb tb sk
    nx ny i with ⟨h1, -⟩ | ⟨rfl, -, hc, -, -, -, him⟩
  · exact ⟨c, le_refl c, by rw [h1, h]⟩
  · rcases him with hnone | ⟨cb, hcb, hlt⟩
    · rw [h] at hnone; cases hnone
    · rw [h] at hcb
      cases hcb
      exact ⟨ca + 1, by omega, hc⟩

theorem expandNeighbor_heap_mem (ctx : AStarContext)
    (strictC : Option StrictPathConstraints) (toIdx toX toY : Nat)
    (st : AStarState) (a ca b fb tb sk nx ny : Nat) (e : HeapEntry)
    (he : e ∈ st.heap) :
    e ∈ (expandNeighbor ctx strictC toIdx toX toY st a ca b fb tb sk nx
      ny).heap := by
  rcases expandNeighbor_split ctx strictC toIdx toX toY st a ca b fb tb sk nx ny
    with heq | ⟨-, -, -, heq⟩
  · rw [heq]; exact he
  · rw [heq]; exact List.mem_append_left _ he

theorem expandNeighbor_ensures (ctx : AStarContext)
    (strictC : Option StrictPathConstraints) (toIdx toX toY : Nat)
    (st : AStarState) (a ca b fb tb sk nx ny : Nat)
    (hbc : b < ctx.cellCount)
    (hbl : ¬ctx.blockedAt b = true ∨ b = toIdx)
    (hst : strictStepOk strictC a b fb tb sk = true) :
    ∃ cb ≤ ca + 1, (expandNeighbor ctx strictC toIdx toX toY st a ca b fb tb
      sk nx ny).cost b = some cb := by
  have hblb : (!ctx.blockedAt b || b == toIdx) = true := by
    rcases hbl with h1 | h1
    · simp [h1]
    · simp [h1]
  unfold expandNeighbor
  rw [if_pos hblb, if_pos hst]
  cases hcb : st.cost b with
  | none =>
    refine ⟨ca + 1, le_refl _, ?_⟩
    simp [if_pos hbc, Function.update]
  | some cb =>
    by_cases him : ca + 1 < cb
    · refine ⟨ca + 1, le_refl _, ?_⟩
      simp only [decide_eq_true_eq, if_pos him]
      simp [if_pos hbc, Function.update]
    · refine ⟨cb, by omega, ?_⟩
      simp only [decide_eq_true_eq, if_neg him]
      exact hcb

end BM

namespace BM

theorem dirGuard_target (ctx : AStarContext) (maxX maxY : Int)
    (a b fb tb sk : Nat)
    (hx0 : 0 ≤ maxX) (hy0 : 0 ≤ maxY)
    (hsx : maxX < (ctx.stride : Int)) (hsy : maxY < (ctx.height : Int))
    (hax : (idxX ctx a : Int) ≤ maxX) (hay : (idxY ctx a : Int) ≤ maxY)
    (hdir : dirGuardOk ctx maxX maxY a b fb tb sk) :
    (idxX ctx b : Int) ≤ maxX ∧ (idxY ctx b : Int) ≤ maxY
      ∧ b < ctx.cellCount ∧ b ≠ a ∧ cellAdjacent ctx a b := by
  have hs : 0 < ctx.stride := by omega
  have hh : 0 < ctx.height := by omega
  rcases hdir with ⟨hg, rfl, -⟩ | ⟨hg, rfl, -⟩ | ⟨hg, rfl, -⟩ | ⟨hg, rfl, -⟩
  · have hxs : idxX ctx a + 1 < ctx.stride := by omega
    obtain ⟨hbx, hby⟩ := step_right_coords ctx a hxs
    refine ⟨by omega, by omega, ?_, by omega, ?_⟩
    · exact cell_lt_cellCount ctx _ hs (by omega)
    · exact Or.inl ⟨hby.symm ▸ rfl, Or.inl (by omega)⟩
  · obtain ⟨hbx, hby⟩ := step_left_coords ctx a hs hg
    have hd := idx_decomp ctx a
    refine ⟨by omega, by omega, ?_, by omega, ?_⟩
    · exact cell_lt_cellCount ctx _ hs (by omega)
    · exact Or.inl ⟨hby.symm ▸ rfl, Or.inr (by omega)⟩
  · obtain ⟨hbx, hby⟩ := step_down_coords ctx a hs
    refine ⟨by omega, by omega, ?_, by omega, ?_⟩
    · exact cell_lt_cellCount ctx _ hs (by omega)
    · exact Or.inr ⟨hbx.symm ▸ rfl, Or.inl (by omega)⟩
  · obtain ⟨hbx, hby⟩ := step_up_coords ctx a hs hg
    have hd := idx_decomp ctx a
    have hge : ctx.stride ≤ a := by
      have : 1 * ctx.stride ≤ idxY ctx a * ctx.stride := Nat.mul_le_mul_right _ hg
      omega
    refine ⟨by omega, by omega, ?_, by omega, ?_⟩
    · exact cell_lt_cellCount ctx _ hs (by omega)
    · exact Or.inr ⟨hbx.symm ▸ rfl, Or.inr (by omega)⟩

theorem discCount_congr (ctx : AStarContext) (st st' : AStarState)
    (h : ∀ i, (st'.cost i).isSome = (st.cost i).isSome) :
    discCount ctx st' = discCount ctx st := by
  unfold discCount
  congr 1
  exact Finset.filter_congr (fun i _ => by rw [h i])

theorem discCount_update_none (ctx : AStarContext) (st st' : AStarState)
    (b c : Nat) (hb : b < ctx.cellCount) (hnone : st.cost b = none)
    (h : st'.cost = Function.update st.cost b (some c)) :
    discCount ctx st' = discCount ctx st + 1 := by
  unfold discCount
  have hset : (Finset.range ctx.cellCount).filter
      (fun i => (st'.cost i).isSome)
      = insert b ((Finset.range ctx.cellCount).filter
          (fun i => (st.cost i).isSome)) := by
    ext i
    simp only [Finset.mem_filter, Finset.mem_insert, Finset.mem_range, h]
    by_cases hib : i = b
    · subst hib
      simp [Function.update, hb]
    · rw [Function.update_noteq hib]
      constructor
      · rintro ⟨h1, h2⟩; exact Or.inr ⟨h1, h2⟩
      · rintro (h1 | ⟨h1, h2⟩)
        · exact absurd h1 hib
        · exact ⟨h1, h2⟩
  rw [hset, Finset.card_insert_of_not_mem]
  simp [hnone]

end BM

namespace BM

theorem expandNeighbor_inv (ctx : AStarContext)
    (strictC : Option StrictPathConstraints) (fromIdx toIdx toX toY : Nat)
    (maxX maxY : Int) (st : AStarState)
    (hx0 : 0 ≤ maxX) (hy0 : 0 ≤ maxY)
    (hsx : maxX < (ctx.stride : Int)) (hsy : maxY < (ctx.height : Int))
    (hinv : AInv ctx strictC fromIdx toIdx maxX maxY st)
    (a ca : Nat) (ha : st.cost a = some ca) (hneq : a ≠ toIdx)
    (b fb tb sk nx ny : Nat)
    (hdir : dirGuardOk ctx maxX maxY a b fb tb sk) :
    AInv ctx strictC fromIdx toIdx maxX maxY
      (expandNeighbor ctx strictC toIdx toX toY st a ca b fb tb sk nx ny) := by
  obtain ⟨hbx, hby, hbc, hba, hadj⟩ := dirGuard_target ctx maxX maxY a b fb tb
    sk hx0 hy0 hsx hsy (hinv.bounded a (by simp [ha])).1
    (hinv.bounded a (by simp [ha])).2 hdir
  rcases expandNeighbor_split ctx strictC toIdx toX toY st a ca b fb tb sk nx ny
    with heq | ⟨hbl, hst, him, heq⟩
  · rw [heq]; exact hinv
  · have hcost : (expandNeighbor ctx strictC toIdx toX toY st a ca b fb tb sk nx ny).cost
        = Function.update st.cost b (some (ca + 1)) := by
      rw [heq]; simp [hbc]
    have hcfe : (expandNeighbor ctx strictC toIdx toX toY st a ca b fb tb sk nx ny).cameFrom
        = Function.update st.cameFrom b (some a) := by
      rw [heq]; simp [hbc]
    have hfromb : fromIdx < ctx.cellCount → fromIdx ≠ b := by
      intro hflt hfb
      subst hfb
      rcases him with hnone | ⟨cb, hcb, hlt⟩
      · rw [hinv.costFrom hflt] at hnone; cases hnone
      · rw [hinv.costFrom hflt] at hcb
        cases hcb
        omega
    constructor
    · intro i hi
      rw [hcost] at hi
      by_cases hib : i = b
      · subst hib; exact hbc
      · rw [Function.update_noteq hib] at hi
        exact hinv.dom i hi
    · intro i hi
      rw [hcost] at hi
      by_cases hib : i = b
      · subst hib; exact ⟨hbx, hby⟩
      · rw [Function.update_noteq hib] at hi
        exact hinv.bounded i hi
    · intro hflt
      rw [hcost, Function.update_noteq (hfromb hflt)]
      exact hinv.costFrom hflt
    · rw [hcfe]
      by_cases hfb : fromIdx = b
      · exfalso
        rcases him with hnone | ⟨cb, hcb, hlt⟩
        · have hfc := hinv.costFrom (hfb ▸ hbc)
          rw [hfb] at hfc
          rw [hfc] at hnone; cases hnone
        · have hfc := hinv.costFrom (hfb ▸ hbc)
          rw [hfb] at hfc
          rw [hfc] at hcb
          cases hcb
          omega
      · rw [Function.update_noteq hfb]
        exact hinv.cameFromSource
    · intro i c hi hif
      rw [hcost] at hi
      rw [hcfe, hcost]
      by_cases hib : i = b
      · subst hib
        rw [Function.update_same] at hi
        cases hi
        refine ⟨a, ca, ?_, ?_, by omega, ?_⟩
        · rw [Function.update_same]
        · rw [Function.update_noteq (fun h => hba h.symm)]
          exact ha
        · exact ⟨hneq, hbl, fb, tb, sk, hdir, hst⟩
      · rw [Function.update_noteq hib] at hi
        obtain ⟨p, cp, hpf, hcp, hlt, hrel⟩ := hinv.parent i c hi hif
        by_cases hpb : p = b
        · subst hpb
          rcases him with hnone | ⟨cb, hcb, hlt2⟩
          · rw [hcp] at hnone; cases hnone
          · rw [hcp] at hcb
            cases hcb
            refine ⟨p, ca + 1, ?_, ?_, by omega, hrel⟩
            · rw [Function.update_noteq hib]; exact hpf
            · rw [Function.update_same]
        · refine ⟨p, cp, ?_, ?_, hlt, hrel⟩
          · rw [Function.update_noteq hib]; exact hpf
          · rw [Function.update_noteq hpb]; exact hcp
    · rcases him with hnone | ⟨cb, hcb, hlt2⟩
      · have hdc : discCount ctx
            (expandNeighbor ctx strictC toIdx toX toY st a ca b fb tb sk nx ny)
            = discCount ctx st + 1 :=
          discCount_update_none ctx st _ b (ca + 1) hbc hnone hcost
        intro i c hi
        rw [hdc]
        rw [hcost] at hi
        by_cases hib : i = b
        · subst hib
          rw [Function.update_same] at hi
          cases hi
          have := hinv.costBound a ca ha
          omega
        · rw [Function.update_noteq hib] at hi
          have := hinv.costBound i c hi
          omega
      · have hdc : discCount ctx
            (expandNeighbor ctx strictC toIdx toX toY st a ca b fb tb sk nx ny)
            = discCount ctx st := by
          apply discCount_congr
          intro i
          rw [hcost]
          by_cases hib : i = b
          · subst hib
            rw [Function.update_same, hcb]
            rfl
          · rw [Function.update_noteq hib]
        intro i c hi
        rw [hdc]
        rw [hcost] at hi
        by_cases hib : i = b
        · subst hib
          rw [Function.update_same] at hi
          cases hi
          have := hinv.costBound i cb hcb
          omega
        · rw [Function.update_noteq hib] at hi
          exact hinv.costBound i c hi

end BM

namespace BM

theorem astarMeasure_getD (ctx : AStarContext) (st : AStarState) :
    astarMeasure ctx st = st.heap.length +
      (Finset.range ctx.cellCount).sum
        (fun i => (st.cost i).getD (ctx.cellCount + 2)) := by
  unfold astarMeasure
  congr 1
  apply Finset.sum_congr rfl
  intro i _
  cases st.cost i <;> rfl

theorem astarMeasure_setHeap (ctx : AStarContext) (st : AStarState)
    (h' : List HeapEntry) :
    astarMeasure ctx { st with heap := h' } = h'.length +
      (Finset.range ctx.cellCount).sum
        (fun i => (st.cost i).getD (ctx.cellCount + 2)) := by
  rw [astarMeasure_getD]

theorem AInv_setHeap (ctx : AStarContext)
    (strictC : Option StrictPathConstraints) (fromIdx toIdx : Nat)
    (maxX maxY : Int) (st : AStarState) (h' : List HeapEntry)
    (h : AInv ctx strictC fromIdx toIdx maxX maxY st) :
    AInv ctx strictC fromIdx toIdx maxX maxY { st with heap := h' } :=
  ⟨h.dom, h.bounded, h.costFrom, h.cameFromSource, h.parent, h.costBound⟩

theorem expandNeighbor_preserve_ne (ctx : AStarContext)
    (strictC : Option StrictPathConstraints) (toIdx toX toY : Nat)
    (st : AStarState) (a ca b fb tb sk nx ny : Nat) (i : Nat) (hib : i ≠ b) :
    (expandNeighbor ctx strictC toIdx toX toY st a ca b fb tb sk nx ny).cost i
        = st.cost i
    ∧ (expandNeighbor ctx strictC toIdx toX toY st a ca b fb tb sk nx ny).cameFrom i
        = st.cameFrom i := by
  rcases expandNeighbor_cost_bwd ctx strictC toIdx toX toY st a ca b fb tb sk
    nx ny i with h | ⟨h, -⟩
  · exact h
  · exact absurd h hib

theorem expandNeighbor_measure (ctx : AStarContext)
    (strictC : Option StrictPathConstraints) (toIdx toX toY : Nat)
    (st : AStarState) (a ca b fb tb sk nx ny : Nat)
    (hbc : b < ctx.cellCount) (hca : ca < ctx.cellCount) :
    astarMeasure ctx (expandNeighbor ctx strictC toIdx toX toY st a ca b fb tb
      sk nx ny) ≤ astarMeasure ctx st := by
  rcases expandNeighbor_split ctx strictC toIdx toX toY st a ca b fb tb sk nx ny
    with heq | ⟨hbl, hst, him, heq⟩
  · rw [heq]
  · have hcost : (expandNeighbor ctx strictC toIdx toX toY st a ca b fb tb sk nx ny).cost
        = Function.update st.cost b (some (ca + 1)) := by
      rw [heq]; simp [hbc]
    have hheap : (expandNeighbor ctx strictC toIdx toX toY st a ca b fb tb sk nx ny).heap
        = st.heap ++ [⟨b, ca + 1 + heuristicVal toX toY nx ny, ca + 1⟩] := by
      rw [heq]
    rw [astarMeasure_getD, astarMeasure_getD, hcost, hheap, List.length_append]
    have hbmem : b ∈ Finset.range ctx.cellCount := Finset.mem_range.mpr hbc
    rw [← Finset.add_sum_erase _ _ hbmem, ← Finset.add_sum_erase _
      (fun i => (st.cost i).getD (ctx.cellCount + 2)) hbmem]
    have hrest : (Finset.erase (Finset.range ctx.cellCount) b).sum
        (fun i => ((Function.update st.cost b (some (ca + 1))) i).getD
          (ctx.cellCount + 2))
        = (Finset.erase (Finset.range ctx.cellCount) b).sum
            (fun i => (st.cost i).getD (ctx.cellCount + 2)) := by
      apply Finset.sum_congr rfl
      intro i hi
      rw [Function.update_noteq (Finset.ne_of_mem_erase hi)]
    rw [hrest, Function.update_same]
    simp only [Option.getD_some, List.length_singleton]
    rcases him with hnone | ⟨cb, hcb, hlt⟩
    · rw [hnone]
      simp only [Option.getD_none]
      omega
    · rw [hcb]
      simp only [Option.getD_some]
      omega

theorem StageOk_refl (ctx : AStarContext) (ca : Nat) (st : AStarState) :
    StageOk ctx ca st st :=
  ⟨fun _ he => he, fun _ => Or.inl rfl, fun _ c h => ⟨c, le_refl c, h⟩,
    le_refl _⟩

theorem StageOk_trans (ctx : AStarContext) (ca : Nat)
    (s1 s2 s3 : AStarState) (h12 : StageOk ctx ca s1 s2)
    (h23 : StageOk ctx ca s2 s3) : StageOk ctx ca s1 s3 := by
  obtain ⟨hh12, hc12, hf12, hm12⟩ := h12
  obtain ⟨hh23, hc23, hf23, hm23⟩ := h23
  refine ⟨fun e he => hh23 e (hh12 e he), ?_, ?_, le_trans hm23 hm12⟩
  · intro i
    rcases hc23 i with h | ⟨hc, he⟩
    · rcases hc12 i with h' | ⟨hc', he'⟩
      · exact Or.inl (h.trans h')
      · obtain ⟨e, hein, hidx, hcoste⟩ := he'
        exact Or.inr ⟨h.trans hc', ⟨e, hh23 e hein, hidx, hcoste⟩⟩
    · exact Or.inr ⟨hc, he⟩
  · intro i c h
    obtain ⟨c', hle, h'⟩ := hf12 i c h
    obtain ⟨c'', hle', h''⟩ := hf23 i c' h'
    exact ⟨c'', le_trans hle' hle, h''⟩

theorem expandNeighbor_stage (ctx : AStarContext)
    (strictC : Option StrictPathConstraints) (toIdx toX toY : Nat)
    (st : AStarState) (a ca b fb tb sk nx ny : Nat)
    (hbc : b < ctx.cellCount) (hca : ca < ctx.cellCount) :
    StageOk ctx ca st
      (expandNeighbor ctx strictC toIdx toX toY st a ca b fb tb sk nx ny) := by
  refine ⟨?_, ?_, ?_,
    expandNeighbor_measure ctx strictC toIdx toX toY st a ca b fb tb sk nx ny
      hbc hca⟩
  · intro e he
    exact expandNeighbor_heap_mem ctx strictC toIdx toX toY st a ca b fb tb sk
      nx ny e he
  · intro i
    rcases expandNeighbor_split ctx strictC toIdx toX toY st a ca b fb tb sk
      nx ny with heq | ⟨hbl, hst, him, heq⟩
    · rw [heq]
      exact Or.inl rfl
    · have hcost : (expandNeighbor ctx strictC toIdx toX toY st a ca b fb tb sk nx ny).cost
          = Function.update st.cost b (some (ca + 1)) := by
        rw [heq]; simp [hbc]
      have hheap : (expandNeighbor ctx strictC toIdx toX toY st a ca b fb tb sk nx ny).heap
          = st.heap ++ [⟨b, ca + 1 + heuristicVal toX toY nx ny, ca + 1⟩] := by
        rw [heq]
      by_cases hib : i = b
      · subst hib
        refine Or.inr ⟨by rw [hcost, Function.update_same], ?_⟩
        refine ⟨⟨i, ca + 1 + heuristicVal toX toY nx ny, ca + 1⟩, ?_, rfl, rfl⟩
        rw [hheap]
        exact List.mem_append_right _ (List.mem_singleton_self _)
      · rw [hcost]
        rw [Function.update_noteq hib]
        exact Or.inl rfl
  · intro i c h
    exact expandNeighbor_cost_fwd ctx strictC toIdx toX toY st a ca b fb tb sk
      nx ny i c h

end BM

namespace BM

theorem stage_step (ctx : AStarContext) (strictC : Option StrictPathConstraints)
    (fromIdx toIdx toX toY : Nat) (maxX maxY : Int) (prev : AStarState)
    (a ca b fb tb sk nx ny : Nat) (g : Prop) [Decidable g]
    (hx0 : 0 ≤ maxX) (hy0 : 0 ≤ maxY) (hsx : maxX < (ctx.stride : Int))
    (hsy : maxY < (ctx.height : Int))
    (hinv : AInv ctx strictC fromIdx toIdx maxX maxY prev)
    (ha : prev.cost a = some ca) (hat : a ≠ toIdx)
    (hdir : g → dirGuardOk ctx maxX maxY a b fb tb sk) :
    StageOk ctx ca prev (if g then
        expandNeighbor ctx strictC toIdx toX toY prev a ca b fb tb sk nx ny
      else prev)
    ∧ AInv ctx strictC fromIdx toIdx maxX maxY (if g then
        expandNeighbor ctx strictC toIdx toX toY prev a ca b fb tb sk nx ny
      else prev)
    ∧ (if g then
        expandNeighbor ctx strictC toIdx toX toY prev a ca b fb tb sk nx ny
      else prev).cost a = some ca := by
  by_cases hg : g
  · rw [if_pos hg]
    obtain ⟨hbx, hby, hbc, hba, hadj⟩ := dirGuard_target ctx maxX maxY a b fb
      tb sk hx0 hy0 hsx hsy (hinv.bounded a (by simp [ha])).1
      (hinv.bounded a (by simp [ha])).2 (hdir hg)
    have hca : ca < ctx.cellCount :=
      lt_of_lt_of_le (hinv.costBound a ca ha) (discCount_le ctx prev)
    refine ⟨expandNeighbor_stage ctx strictC toIdx toX toY prev a ca b fb tb
        sk nx ny hbc hca,
      expandNeighbor_inv ctx strictC fromIdx toIdx toX toY maxX maxY prev hx0
        hy0 hsx hsy hinv a ca ha hat b fb tb sk nx ny (hdir hg), ?_⟩
    rw [(expandNeighbor_preserve_ne ctx strictC toIdx toX toY prev a ca b fb
      tb sk nx ny a (fun h => hba h.symm)).1]
    exact ha
  · rw [if_neg hg]
    exact ⟨StageOk_refl ctx ca prev, hinv, ha⟩

end BM

namespace BM

theorem expandCell_spec (ctx : AStarContext)
    (strictC : Option StrictPathConstraints) (fromIdx toIdx toX toY : Nat)
    (maxX maxY : Int) (st1 : AStarState) (a ca : Nat)
    (hx0 : 0 ≤ maxX) (hy0 : 0 ≤ maxY) (hsx : maxX < (ctx.stride : Int))
    (hsy : maxY < (ctx.height : Int))
    (hinv : AInv ctx strictC fromIdx toIdx maxX maxY st1)
    (ha : st1.cost a = some ca) (hat : a ≠ toIdx) :
    StageOk ctx ca st1 (expandCell ctx strictC toIdx toX toY maxX maxY st1 a ca)
    ∧ AInv ctx strictC fromIdx toIdx maxX maxY
        (expandCell ctx strictC toIdx toX toY maxX maxY st1 a ca)
    ∧ (expandCell ctx strictC toIdx toX toY maxX maxY st1 a ca).cost a = some ca
    ∧ ∀ b, expandRel ctx strictC toIdx maxX maxY a b →
        ∃ cb ≤ ca + 1,
          (expandCell ctx strictC toIdx toX toY maxX maxY st1 a ca).cost b
            = some cb := by
  obtain ⟨hS2, hI2, hA2⟩ := stage_step ctx strictC fromIdx toIdx toX toY maxX
    maxY st1 a ca (a + 1) CONNECT_RIGHT CONNECT_LEFT (a * 2)
    (a - a / ctx.stride * ctx.stride + 1) (a / ctx.stride)
    (((a - a / ctx.stride * ctx.stride : Nat) : Int) < maxX)
    hx0 hy0 hsx hsy hinv ha hat (fun hg => Or.inl ⟨hg, rfl, rfl, rfl, rfl⟩)
  set st2 := if (((a - a / ctx.stride * ctx.stride : Nat) : Int) < maxX) then
      expandNeighbor ctx strictC toIdx toX toY st1 a ca (a + 1) CONNECT_RIGHT
        CONNECT_LEFT (a * 2) (a - a / ctx.stride * ctx.stride + 1)
        (a / ctx.stride)
    else st1 with hst2
  obtain ⟨hS3, hI3, hA3⟩ := stage_step ctx strictC fromIdx toIdx toX toY maxX
    maxY st2 a ca (a - 1) CONNECT_LEFT CONNECT_RIGHT ((a - 1) * 2)
    (a - a / ctx.stride * ctx.stride - 1) (a / ctx.stride)
    (a - a / ctx.stride * ctx.stride > 0)
    hx0 hy0 hsx hsy hI2 hA2 hat
    (fun hg => Or.inr (Or.inl ⟨hg, rfl, rfl, rfl, rfl⟩))
  set st3 := if (a - a / ctx.stride * ctx.stride > 0) then
      expandNeighbor ctx strictC toIdx toX toY st2 a ca (a - 1) CONNECT_LEFT
        CONNECT_RIGHT ((a - 1) * 2) (a - a / ctx.stride * ctx.stride - 1)
        (a / ctx.stride)
    else st2 with hst3
  obtain ⟨hS4, hI4, hA4⟩ := stage_step ctx strictC fromIdx toIdx toX toY maxX
    maxY st3 a ca (a + ctx.stride) CONNECT_DOWN CONNECT_UP (a * 2 + 1)
    (a - a / ctx.stride * ctx.stride) (a / ctx.stride + 1)
    (((a / ctx.stride : Nat) : Int) < maxY)
    hx0 hy0 hsx hsy hI3 hA3 hat
    (fun hg => Or.inr (Or.inr (Or.inl ⟨hg, rfl, rfl, rfl, rfl⟩)))
  set st4 := if (((a / ctx.stride : Nat) : Int) < maxY) then
      expandNeighbor ctx strictC toIdx toX toY st3 a ca (a + ctx.stride)
        CONNECT_DOWN CONNECT_UP (a * 2 + 1) (a - a / ctx.stride * ctx.stride)
        (a / ctx.stride + 1)
    else st3 with hst4
  obtain ⟨hS5, hI5, hA5⟩ := stage_step ctx strictC fromIdx toIdx toX toY maxX
    maxY st4 a ca (a - ctx.stride) CONNECT_UP CONNECT_DOWN
    ((a - ctx.stride) * 2 + 1) (a - a / ctx.stride * ctx.stride)
    (a / ctx.stride - 1) (a / ctx.stride > 0)
    hx0 hy0 hsx hsy hI4 hA4 hat
    (fun hg => Or.inr (Or.inr (Or.inr ⟨hg, rfl, rfl, rfl, rfl⟩)))
  set st5 := if (a / ctx.stride > 0) then
      expandNeighbor ctx strictC toIdx toX toY st4 a ca (a - ctx.stride)
        CONNECT_UP CONNECT_DOWN ((a - ctx.stride) * 2 + 1)
        (a - a / ctx.stride * ctx.stride) (a / ctx.stride - 1)
    else st4 with hst5
  have hS45 : StageOk ctx ca st4 st5 := hS5
  have hS35 : StageOk ctx ca st3 st5 := StageOk_trans ctx ca _ _ _ hS4 hS45
  have hS25 : StageOk ctx ca st2 st5 := StageOk_trans ctx ca _ _ _ hS3 hS35
  have hS15 : StageOk ctx ca st1 st5 := StageOk_trans ctx ca _ _ _ hS2 hS25
  refine ⟨hS15, hI5, hA5, ?_⟩
  rintro b ⟨-, hbl, fb, tb, sk, hdir, hst⟩
  rcases hdir with ⟨hg, rfl, rfl, rfl, rfl⟩ | ⟨hg, rfl, rfl, rfl, rfl⟩ |
    ⟨hg, rfl, rfl, rfl, rfl⟩ | ⟨hg, rfl, rfl, rfl, rfl⟩
  · obtain ⟨-, -, hbc, -, -⟩ := dirGuard_target ctx maxX maxY a (a + 1)
      CONNECT_RIGHT CONNECT_LEFT (a * 2) hx0 hy0 hsx hsy
      (hinv.bounded a (by simp [ha])).1 (hinv.bounded a (by simp [ha])).2
      (Or.inl ⟨hg, rfl, rfl, rfl, rfl⟩)
    obtain ⟨cb, hle, hcb⟩ := expandNeighbor_ensures ctx strictC toIdx toX toY
      st1 a ca (a + 1) CONNECT_RIGHT CONNECT_LEFT (a * 2)
      (a - a / ctx.stride * ctx.stride + 1) (a / ctx.stride) hbc hbl hst
    have h2 : st2 = expandNeighbor ctx strictC toIdx toX toY st1 a ca (a + 1)
        CONNECT_RIGHT CONNECT_LEFT (a * 2)
        (a - a / ctx.stride * ctx.stride + 1) (a / ctx.stride) := by
      rw [hst2]
      exact if_pos hg
    obtain ⟨cb', hle', hcb'⟩ := hS25.2.2.1 (a + 1) cb (by rw [h2]; exact hcb)
    exact ⟨cb', le_trans hle' hle, hcb'⟩
  · obtain ⟨-, -, hbc, -, -⟩ := dirGuard_target ctx maxX maxY a (a - 1)
      CONNECT_LEFT CONNECT_RIGHT ((a - 1) * 2) hx0 hy0 hsx hsy
      (hinv.bounded a (by simp [ha])).1 (hinv.bounded a (by simp [ha])).2
      (Or.inr (Or.inl ⟨hg, rfl, rfl, rfl, rfl⟩))
    obtain ⟨cb, hle, hcb⟩ := expandNeighbor_ensures ctx strictC toIdx toX toY
      st2 a ca (a - 1) CONNECT_LEFT CONNECT_RIGHT ((a - 1) * 2)
      (a - a / ctx.stride * ctx.stride - 1) (a / ctx.stride) hbc hbl hst
    have h3 : st3 = expandNeighbor ctx strictC toIdx toX toY st2 a ca (a - 1)
        CONNECT_LEFT CONNECT_RIGHT ((a - 1) * 2)
        (a - a / ctx.stride * ctx.stride - 1) (a / ctx.stride) := by
      rw [hst3]
      exact if_pos hg
    obtain ⟨cb', hle', hcb'⟩ := hS35.2.2.1 (a - 1) cb (by rw [h3]; exact hcb)
    exact ⟨cb', le_trans hle' hle, hcb'⟩
  · obtain ⟨-, -, hbc, -, -⟩ := dirGuard_target ctx maxX maxY a
      (a + ctx.stride) CONNECT_DOWN CONNECT_UP (a * 2 + 1) hx0 hy0 hsx hsy
      (hinv.bounded a (by simp [ha])).1 (hinv.bounded a (by simp [ha])).2
      (Or.inr (Or.inr (Or.inl ⟨hg, rfl, rfl, rfl, rfl⟩)))
    obtain ⟨cb, hle, hcb⟩ := expandNeighbor_ensures ctx strictC toIdx toX toY
      st3 a ca (a + ctx.stride) CONNECT_DOWN CONNECT_UP (a * 2 + 1)
      (a - a / ctx.stride * ctx.stride) (a / ctx.stride + 1) hbc hbl hst
    have h4 : st4 = expandNeighbor ctx strictC toIdx toX toY st3 a ca
        (a + ctx.stride) CONNECT_DOWN CONNECT_UP (a * 2 + 1)
        (a - a / ctx.stride * ctx.stride) (a / ctx.stride + 1) := by
      rw [hst4]
      exact if_pos hg
    obtain ⟨cb', hle', hcb'⟩ := hS45.2.2.1 (a + ctx.stride) cb
      (by rw [h4]; exact hcb)
    exact ⟨cb', le_trans hle' hle, hcb'⟩
  · obtain ⟨-, -, hbc, -, -⟩ := dirGuard_target ctx maxX maxY a
      (a - ctx.stride) CONNECT_UP CONNECT_DOWN ((a - ctx.stride) * 2 + 1)
      hx0 hy0 hsx hsy (hinv.bounded a (by simp [ha])).1
      (hinv.bounded a (by simp [ha])).2
      (Or.inr (Or.inr (Or.inr ⟨hg, rfl, rfl, rfl, rfl⟩)))
    obtain ⟨cb, hle, hcb⟩ := expandNeighbor_ensures ctx strictC toIdx toX toY
      st4 a ca (a - ctx.stride) CONNECT_UP CONNECT_DOWN
      ((a - ctx.stride) * 2 + 1) (a - a / ctx.stride * ctx.stride)
      (a / ctx.stride - 1) hbc hbl hst
    have h5 : st5 = expandNeighbor ctx strictC toIdx toX toY st4 a ca
        (a - ctx.stride) CONNECT_UP CONNECT_DOWN ((a - ctx.stride) * 2 + 1)
        (a - a / ctx.stride * ctx.stride) (a / ctx.stride - 1) := by
      rw [hst5]
      exact if_pos hg
    refine ⟨cb, hle, ?_⟩
    show st5.cost (a - ctx.stride) = some cb
    rw [h5]
    exact hcb

end BM

namespace BM

theorem reconstruct_spec (ctx : AStarContext)
    (strictC : Option StrictPathConstraints) (fromIdx toIdx : Nat)
    (maxX maxY : Int) (st : AStarState)
    (hx0 : 0 ≤ maxX) (hy0 : 0 ≤ maxY) (hsx : maxX < (ctx.stride : Int))
    (hsy : maxY < (ctx.height : Int))
    (hinv : AInv ctx strictC fromIdx toIdx maxX maxY st) :
    ∀ c i, st.cost i = some c → ∀ fuel, c < fuel →
      (reconstructPath st.cameFrom fuel i).head? = some fromIdx
      ∧ (reconstructPath st.cameFrom fuel i).getLast? = some i
      ∧ (∀ x ∈ reconstructPath st.cameFrom fuel i, ∃ cx ≤ c, st.cost x = some cx)
      ∧ List.Chain' (cellAdjacent ctx) (reconstructPath st.cameFrom fuel i)
      ∧ List.Chain' (expandRel ctx strictC toIdx maxX maxY)
          (reconstructPath st.cameFrom fuel i)
      ∧ (∀ x ∈ (reconstructPath st.cameFrom fuel i).dropLast, x ≠ toIdx)
      ∧ (∀ x ∈ (reconstructPath st.cameFrom fuel i).drop 1,
          ¬ctx.blockedAt x = true ∨ x = toIdx)
      ∧ List.Pairwise
          (fun x y => ∀ cx cy, st.cost x = some cx → st.cost y = some cy →
            cx < cy)
          (reconstructPath st.cameFrom fuel i) := by
  intro c
  induction c using Nat.strong_induction_on with
  | _ c ih =>
  intro i hci fuel hf
  cases fuel with
  | zero => omega
  | succ f =>
  cases hcf : st.cameFrom i with
  | none =>
    have hl : reconstructPath st.cameFrom (f + 1) i = [i] := by
      unfold reconstructPath
      rw [hcf]
    have hif : i = fromIdx := by
      by_contra hne
      obtain ⟨p, cp, hpf, -, -, -⟩ := hinv.parent i c hci hne
      rw [hcf] at hpf
      cases hpf
    rw [hl]
    subst hif
    refine ⟨rfl, rfl, ?_, List.chain'_singleton i, List.chain'_singleton i,
      ?_, ?_, List.pairwise_singleton _ i⟩
    · intro x hx
      rw [List.mem_singleton] at hx
      subst hx
      exact ⟨c, le_refl c, hci⟩
    · intro x hx
      simp at hx
    · intro x hx
      simp at hx
  | some p =>
    have hne : i ≠ fromIdx := by
      intro h
      rw [h, hinv.cameFromSource] at hcf
      cases hcf
    obtain ⟨q, cp, hpf, hcp, hlt, hrel⟩ := hinv.parent i c hci hne
    rw [hcf] at hpf
    injection hpf with hpp
    subst hpp
    have hl : reconstructPath st.cameFrom (f + 1) i
        = reconstructPath st.cameFrom f p ++ [i] := by
      conv_lhs => rw [reconstructPath]
      rw [hcf]
    obtain ⟨ih1, ih2, ih3, ih4, ih5, ih6, ih7, ih8⟩ :=
      ih cp hlt p hcp f (by omega)
    have hLne : reconstructPath st.cameFrom f p ≠ [] := by
      intro h
      rw [h] at ih1
      cases ih1
    have hpbound := hinv.bounded p (by simp [hcp])
    have hadj : cellAdjacent ctx p i := by
      obtain ⟨-, hbl, fb, tb, sk, hdir, -⟩ := hrel
      exact (dirGuard_target ctx maxX maxY p i fb tb sk hx0 hy0 hsx hsy
        hpbound.1 hpbound.2 hdir).2.2.2.2
    have hpt : p ≠ toIdx := hrel.1
    have hbli : ¬ctx.blockedAt i = true ∨ i = toIdx := hrel.2.1
    have hlen1 : 1 ≤ (reconstructPath st.cameFrom f p).length :=
      List.length_pos.mpr hLne
    rw [hl]
    refine ⟨?_, ?_, ?_, ?_, ?_, ?_, ?_, ?_⟩
    · cases hL : reconstructPath st.cameFrom f p with
      | nil => exact absurd hL hLne
      | cons hd tl =>
        rw [hL] at ih1
        simp only [List.head?_cons] at ih1
        injection ih1 with ih1
        rw [List.cons_append]
        simp [ih1]
    · rw [List.getLast?_concat]
    · intro x hx
      rw [List.mem_append] at hx
      rcases hx with hx | hx
      · obtain ⟨cx, hcx, hcxe⟩ := ih3 x hx
        exact ⟨cx, by omega, hcxe⟩
      · rw [List.mem_singleton] at hx
        subst hx
        exact ⟨c, le_refl c, hci⟩
    · rw [List.chain'_append]
      refine ⟨ih4, List.chain'_singleton i, ?_⟩
      intro x hx y hy
      rw [Option.mem_def, ih2] at hx
      injection hx with hx
      rw [Option.mem_def] at hy
      simp only [List.head?_cons] at hy
      injection hy with hy
      rw [← hx, ← hy]
      exact hadj
    · rw [List.chain'_append]
      refine ⟨ih5, List.chain'_singleton i, ?_⟩
      intro x hx y hy
      rw [Option.mem_def, ih2] at hx
      injection hx with hx
      rw [Option.mem_def] at hy
      simp only [List.head?_cons] at hy
      injection hy with hy
      rw [← hx, ← hy]
      exact hrel
    · intro x hx
      rw [List.dropLast_concat] at hx
      have hsplit := List.dropLast_append_getLast hLne
      rw [← hsplit, List.mem_append] at hx
      rcases hx with hx | hx
      · exact ih6 x hx
      · rw [List.mem_singleton] at hx
        subst hx
        have hgl : (reconstructPath st.cameFrom f p).getLast hLne = p := by
          have hq := List.getLast?_eq_getLast (reconstructPath st.cameFrom f
            p) hLne
          rw [ih2] at hq
          injection hq with hq
          exact hq.symm
        rw [hgl]
        exact hpt
    · intro x hx
      rw [List.drop_append_of_le_length hlen1, List.mem_append] at hx
      rcases hx with hx | hx
      · exact ih7 x hx
      · rw [List.mem_singleton] at hx
        subst hx
        exact hbli
    · rw [List.pairwise_append]
      refine ⟨ih8, List.pairwise_singleton _ i, ?_⟩
      intro x hx y hy
      rw [List.mem_singleton] at hy
      subst hy
      intro cx cy hcx hcy
      rw [hci] at hcy
      injection hcy with hcy
      obtain ⟨cx', hle, hcx'⟩ := ih3 x hx
      rw [hcx'] at hcx
      injection hcx with hcx
      omega

end BM

namespace BM

theorem astarLoop_pop_none (ctx : AStarContext)
    (strictC : Option StrictPathConstraints) (toIdx toX toY : Nat)
    (maxX maxY : Int) (f : Nat) (st : AStarState)
    (h : popMinHeap st.heap = none) :
    astarLoop ctx strictC toIdx toX toY maxX maxY (f + 1) st = some none := by
  rw [astarLoop, h]

theorem astarLoop_pop_some (ctx : AStarContext)
    (strictC : Option StrictPathConstraints) (toIdx toX toY : Nat)
    (maxX maxY : Int) (f : Nat) (st : AStarState) (e : HeapEntry)
    (rest : List HeapEntry) (h : popMinHeap st.heap = some (e, rest)) :
    astarLoop ctx strictC toIdx toX toY maxX maxY (f + 1) st =
      (if ({ st with heap := rest } : AStarState).cost e.idx ≠ some e.cost then
        astarLoop ctx strictC toIdx toX toY maxX maxY f
          { st with heap := rest }
      else if e.idx = toIdx then
        some (some (reconstructPath
          ({ st with heap := rest } : AStarState).cameFrom (e.cost + 1) e.idx))
      else
        astarLoop ctx strictC toIdx toX toY maxX maxY f
          (expandCell ctx strictC toIdx toX toY maxX maxY
            { st with heap := rest } e.idx
            ((({ st with heap := rest } : AStarState).cost e.idx).getD 0))) := by
  rw [astarLoop, h]

theorem dropLast_drop_one {α : Type _} (l : List α) :
    (l.drop 1).dropLast = l.dropLast.drop 1 := by
  cases l with
  | nil => rfl
  | cons a l =>
    cases l with
    | nil => rfl
    | cons b l => rfl

end BM

namespace BM

theorem astarLoop_spec (ctx : AStarContext)
    (strictC : Option StrictPathConstraints) (fromIdx toIdx toX toY : Nat)
    (maxX maxY : Int)
    (hx0 : 0 ≤ maxX) (hy0 : 0 ≤ maxY) (hsx : maxX < (ctx.stride : Int))
    (hsy : maxY < (ctx.height : Int)) :
    ∀ fuel st, AInv ctx strictC fromIdx toIdx maxX maxY st →
      LiveInv ctx strictC toIdx maxX maxY st →
      astarMeasure ctx st < fuel →
      ∃ r, astarLoop ctx strictC toIdx toX toY maxX maxY fuel st = some r
        ∧ (∀ p, r = some p →
            SpecPath ctx ⟨maxX, maxY⟩ fromIdx toIdx p
            ∧ List.Chain' (expandRel ctx strictC toIdx maxX maxY) p
            ∧ p.Nodup)
        ∧ (r = none →
            ∃ st' : AStarState, (∀ i, (st.cost i).isSome → (st'.cost i).isSome)
              ∧ (∀ i c, st'.cost i = some c → i ≠ toIdx)
              ∧ (∀ i c, st'.cost i = some c →
                  ∀ b, expandRel ctx strictC toIdx maxX maxY i b →
                    (st'.cost b).isSome)) := by
  intro fuel
  induction fuel with
  | zero =>
    intro st hinv hlive hm
    omega
  | succ f ihf =>
  intro st hinv hlive hm
  cases hpop : popMinHeap st.heap with
  | none =>
    have hheapnil : st.heap = [] := by
      cases hh : st.heap with
      | nil => rfl
      | cons a tail =>
        rw [hh] at hpop
        unfold popMinHeap at hpop
        cases hpop
    refine ⟨none, astarLoop_pop_none ctx strictC toIdx toX toY maxX maxY f st
      hpop, ?_, ?_⟩
    · intro p hp
      cases hp
    · intro _
      refine ⟨st, fun _ hi => hi, ?_, ?_⟩
      · intro i c hc
        rcases hlive i c hc with ⟨e, he, -, -⟩ | ⟨hne, -⟩
        · rw [hheapnil] at he
          cases he
        · exact hne
      · intro i c hc b hrel
        rcases hlive i c hc with ⟨e, he, -, -⟩ | ⟨-, hsucc⟩
        · rw [hheapnil] at he
          cases he
        · obtain ⟨cb, hcb, -⟩ := hsucc b hrel
          simp [hcb]
  | some er =>
    obtain ⟨e, rest⟩ := er
    have hloopeq := astarLoop_pop_some ctx strictC toIdx toX toY maxX maxY f
      st e rest hpop
    set st1 : AStarState := { st with heap := rest } with hst1
    have hI1 : AInv ctx strictC fromIdx toIdx maxX maxY st1 :=
      AInv_setHeap ctx strictC fromIdx toIdx maxX maxY st rest hinv
    have hm1 : astarMeasure ctx st1 + 1 = astarMeasure ctx st := by
      rw [hst1, astarMeasure_setHeap, astarMeasure_getD]
      have := popMinHeap_length st.heap e rest hpop
      omega
    by_cases hcur : st.cost e.idx = some e.cost
    · by_cases ht : e.idx = toIdx
      · -- target reached: reconstruct
        obtain ⟨r1, r2, r3, r4, r5, r6, r7, r8⟩ := reconstruct_spec ctx strictC
          fromIdx toIdx maxX maxY st1 hx0 hy0 hsx hsy hI1 e.cost e.idx hcur
          (e.cost + 1) (by omega)
        refine ⟨some (reconstructPath st1.cameFrom (e.cost + 1) e.idx), ?_,
          ?_, ?_⟩
        · rw [hloopeq, if_neg (not_not_intro hcur), if_pos ht]
        · intro p hp
          injection hp with hp
          subst hp
          refine ⟨⟨r1, by rw [r2, ht], ?_, r4, ?_⟩, r5, ?_⟩
          · intro x hx
            obtain ⟨cx, -, hcx⟩ := r3 x hx
            have hcx' : st.cost x = some cx := hcx
            exact hI1.bounded x (by simp [hcx'])
          · intro x hx
            have hxa : x ∈ (reconstructPath st1.cameFrom (e.cost + 1)
                e.idx).drop 1 :=
              (List.dropLast_sublist _).subset hx
            have hxb : x ∈ (reconstructPath st1.cameFrom (e.cost + 1)
                e.idx).dropLast := by
              rw [dropLast_drop_one] at hx
              exact List.mem_of_mem_drop hx
            rcases r7 x hxa with hnb | hteq
            · exact hnb
            · exact absurd hteq (r6 x hxb)
          · refine r8.imp_of_mem ?_
            intro x y hxm hym hR heq
            obtain ⟨cx, -, hcx⟩ := r3 x hxm
            obtain ⟨cy, -, hcy⟩ := r3 y hym
            have hlt := hR cx cy hcx hcy
            subst heq
            rw [hcx] at hcy
            injection hcy with hcy
            omega
        · intro h
          cases h
      · -- expand the popped cell
        obtain ⟨hS, hI5, hA5, hEns⟩ := expandCell_spec ctx strictC fromIdx
          toIdx toX toY maxX maxY st1 e.idx e.cost hx0 hy0 hsx hsy hI1 hcur ht
        have hgd : (st1.cost e.idx).getD 0 = e.cost := by
          show (st.cost e.idx).getD 0 = e.cost
          rw [hcur]
          rfl
        have hlive5 : LiveInv ctx strictC toIdx maxX maxY
            (expandCell ctx strictC toIdx toX toY maxX maxY st1 e.idx
              e.cost) := by
          intro i c hc
          rcases hS.2.1 i with hpres | ⟨hval, he⟩
          · rw [hpres] at hc
            by_cases hia : i = e.idx
            · subst hia
              right
              refine ⟨ht, ?_⟩
              intro b hrel
              obtain ⟨cb, hble, hcb⟩ := hEns b hrel
              have hce : c = e.cost := by
                rw [hcur] at hc
                injection hc with hc
                omega
              exact ⟨cb, hcb, by omega⟩
            · rcases hlive i c hc with ⟨e', he', hidx, hcoste⟩ |
                ⟨hnt, hsucc⟩
              · left
                rcases popMinHeap_mem st.heap e rest hpop e' he' with rfl |
                  hmem
                · exact absurd hidx.symm hia
                · exact ⟨e', hS.1 e' hmem, hidx, hcoste⟩
              · right
                refine ⟨hnt, ?_⟩
                intro b hrel
                obtain ⟨cb, hcb, hble⟩ := hsucc b hrel
                obtain ⟨cb', hble', hcb'⟩ := hS.2.2.1 b cb hcb
                exact ⟨cb', hcb', by omega⟩
          · rw [hval] at hc
            injection hc with hc
            subst hc
            left
            obtain ⟨heE, heIn, heIdx, heCost⟩ := he
            exact ⟨heE, heIn, heIdx, heCost⟩
        have hm5 : astarMeasure ctx (expandCell ctx strictC toIdx toX toY maxX
            maxY st1 e.idx e.cost) < f := by
          have := hS.2.2.2
          omega
        obtain ⟨r, hr, hsome, hnone⟩ := ihf (expandCell ctx strictC toIdx toX
          toY maxX maxY st1 e.idx e.cost) hI5 hlive5 hm5
        refine ⟨r, ?_, hsome, ?_⟩
        · rw [hloopeq, if_neg (not_not_intro hcur), if_neg ht, hgd]
          exact hr
        · intro hrn
          obtain ⟨st', hmono, hnt, hclosed⟩ := hnone hrn
          refine ⟨st', ?_, hnt, hclosed⟩
          intro i hi
          obtain ⟨c, hc⟩ := Option.isSome_iff_exists.mp hi
          obtain ⟨c', -, hc'⟩ := hS.2.2.1 i c hc
          exact hmono i (by simp [hc'])
    · -- stale heap entry: skip
      have hlive1 : LiveInv ctx strictC toIdx maxX maxY st1 := by
        intro i c hc
        rcases hlive i c hc with ⟨e', he', hidx, hcoste⟩ | hr
        · left
          rcases popMinHeap_mem st.heap e rest hpop e' he' with rfl | hmem
          · exfalso
            apply hcur
            rw [← hidx, ← hcoste] at hc
            exact hc
          · exact ⟨e', hmem, hidx, hcoste⟩
        · right
          exact hr
      obtain ⟨r, hr, hsome, hnone⟩ := ihf st1 hI1 hlive1 (by omega)
      refine ⟨r, ?_, hsome, ?_⟩
      · rw [hloopeq, if_pos hcur]
        exact hr
      · intro hrn
        obtain ⟨st', hmono, hnt, hclosed⟩ := hnone hrn
        exact ⟨st', hmono, hnt, hclosed⟩

end BM

namespace BM

theorem astarInit_cost (ctx : AStarContext) (fromIdx i : Nat) :
    (astarInit ctx fromIdx).cost i =
      if i = fromIdx ∧ fromIdx < ctx.cellCount then some 0 else none := rfl

theorem astarInit_inv (ctx : AStarContext)
    (strictC : Option StrictPathConstraints) (fromIdx toIdx : Nat)
    (maxX maxY : Int)
    (hfx : (idxX ctx fromIdx : Int) ≤ maxX)
    (hfy : (idxY ctx fromIdx : Int) ≤ maxY) :
    AInv ctx strictC fromIdx toIdx maxX maxY (astarInit ctx fromIdx) := by
  constructor
  · intro i hi
    rw [astarInit_cost] at hi
    by_cases h : i = fromIdx ∧ fromIdx < ctx.cellCount
    · rw [h.1]
      exact h.2
    · rw [if_neg h] at hi
      cases hi
  · intro i hi
    rw [astarInit_cost] at hi
    by_cases h : i = fromIdx ∧ fromIdx < ctx.cellCount
    · rw [h.1]
      exact ⟨hfx, hfy⟩
    · rw [if_neg h] at hi
      cases hi
  · intro hlt
    rw [astarInit_cost, if_pos ⟨rfl, hlt⟩]
  · rfl
  · intro i c hi hne
    rw [astarInit_cost] at hi
    by_cases h : i = fromIdx ∧ fromIdx < ctx.cellCount
    · exact absurd h.1 hne
    · rw [if_neg h] at hi
      cases hi
  · intro i c hi
    have hi' := hi
    rw [astarInit_cost] at hi'
    by_cases h : i = fromIdx ∧ fromIdx < ctx.cellCount
    · rw [if_pos h] at hi'
      injection hi' with hi'
      have hmem : fromIdx ∈ (Finset.range ctx.cellCount).filter
          (fun j => ((astarInit ctx fromIdx).cost j).isSome) := by
        rw [Finset.mem_filter, Finset.mem_range]
        refine ⟨h.2, ?_⟩
        rw [astarInit_cost, if_pos ⟨rfl, h.2⟩]
        rfl
      have hpos := Finset.card_pos.mpr ⟨fromIdx, hmem⟩
      unfold discCount
      omega
    · rw [if_neg h] at hi'
      cases hi'

theorem astarInit_live (ctx : AStarContext)
    (strictC : Option StrictPathConstraints) (fromIdx toIdx : Nat)
    (maxX maxY : Int) :
    LiveInv ctx strictC toIdx maxX maxY (astarInit ctx fromIdx) := by
  intro i c hc
  rw [astarInit_cost] at hc
  by_cases h : i = fromIdx ∧ fromIdx < ctx.cellCount
  · rw [if_pos h] at hc
    injection hc with hc
    left
    exact ⟨⟨fromIdx, 0, 0⟩, List.mem_singleton_self _, h.1.symm, hc⟩
  · rw [if_neg h] at hc
    cases hc

theorem astarInit_measure (ctx : AStarContext) (fromIdx : Nat) :
    astarMeasure ctx (astarInit ctx fromIdx) < astarFuel ctx := by
  rw [astarMeasure_getD]
  have hsum : (Finset.range ctx.cellCount).sum
      (fun i => ((astarInit ctx fromIdx).cost i).getD (ctx.cellCount + 2))
      ≤ ctx.cellCount * (ctx.cellCount + 2) := by
    have h1 : ∀ i ∈ Finset.range ctx.cellCount,
        ((astarInit ctx fromIdx).cost i).getD (ctx.cellCount + 2)
          ≤ ctx.cellCount + 2 := by
      intro i _
      rw [astarInit_cost]
      by_cases h : i = fromIdx ∧ fromIdx < ctx.cellCount
      · rw [if_pos h]
        simp
      · rw [if_neg h]
        simp
    have h2 := Finset.sum_le_sum h1
    rw [Finset.sum_const, Finset.card_range, smul_eq_mul] at h2
    exact h2
  have hlen : (astarInit ctx fromIdx).heap.length = 1 := rfl
  unfold astarFuel
  have hexp : (ctx.cellCount + 2) * (ctx.cellCount + 2)
      = ctx.cellCount * (ctx.cellCount + 2) + 2 * (ctx.cellCount + 2) := by
    ring
  omega

end BM

namespace BM

theorem cellAdjacent_dirGuard (ctx : AStarContext) (maxX maxY : Int)
    (a b : Nat) (hs : 0 < ctx.stride)
    (hbx : (idxX ctx b : Int) ≤ maxX) (hby : (idxY ctx b : Int) ≤ maxY)
    (hadj : cellAdjacent ctx a b) :
    ∃ fb tb sk, dirGuardOk ctx maxX maxY a b fb tb sk := by
  have hda := idx_decomp ctx a
  have hdb := idx_decomp ctx b
  have hxa := idxX_lt_stride ctx a hs
  have hxb := idxX_lt_stride ctx b hs
  rcases hadj with ⟨hy, hx | hx⟩ | ⟨hx, hy | hy⟩
  · rw [← hy] at hdb
    refine ⟨CONNECT_RIGHT, CONNECT_LEFT, a * 2,
      Or.inl ⟨by omega, by omega, rfl, rfl, rfl⟩⟩
  · rw [← hy] at hdb
    refine ⟨CONNECT_LEFT, CONNECT_RIGHT, (a - 1) * 2,
      Or.inr (Or.inl ⟨by omega, by omega, rfl, rfl, rfl⟩)⟩
  · rw [← hy] at hdb
    have hdist : (idxY ctx a + 1) * ctx.stride
        = idxY ctx a * ctx.stride + ctx.stride := by ring
    refine ⟨CONNECT_DOWN, CONNECT_UP, a * 2 + 1,
      Or.inr (Or.inr (Or.inl ⟨by omega, by omega, rfl, rfl, rfl⟩))⟩
  · rw [← hy] at hda
    have hdist : (idxY ctx b + 1) * ctx.stride
        = idxY ctx b * ctx.stride + ctx.stride := by ring
    refine ⟨CONNECT_UP, CONNECT_DOWN, (a - ctx.stride) * 2 + 1,
      Or.inr (Or.inr (Or.inr ⟨by omega, by omega, rfl, rfl, rfl⟩))⟩

theorem mem_dropLast_or_getLast {α : Type _} (l : List α) (x : α)
    (hx : x ∈ l) : x ∈ l.dropLast ∨ l.getLast? = some x := by
  have hne : l ≠ [] := List.ne_nil_of_mem hx
  rw [← List.dropLast_append_getLast hne] at hx
  rcases List.mem_append.mp hx with h | h
  · exact Or.inl h
  · rw [List.mem_singleton] at h
    rw [h]
    exact Or.inr (List.getLast?_eq_getLast l hne)

theorem chain_discovered (ctx : AStarContext) (toIdx : Nat) (maxX maxY : Int)
    (st' : AStarState) (hs : 0 < ctx.stride)
    (hnt : ∀ i c, st'.cost i = some c → i ≠ toIdx)
    (hclosed : ∀ i c, st'.cost i = some c →
      ∀ b, expandRel ctx none toIdx maxX maxY i b → (st'.cost b).isSome) :
    ∀ (l : List Nat) (a : Nat), (st'.cost a).isSome →
      List.Chain (cellAdjacent ctx) a l →
      (∀ x ∈ l, (idxX ctx x : Int) ≤ maxX ∧ (idxY ctx x : Int) ≤ maxY) →
      (∀ x ∈ l, ¬ctx.blockedAt x = true ∨ x = toIdx) →
      ∀ x ∈ a :: l, (st'.cost x).isSome := by
  intro l
  induction l with
  | nil =>
    intro a ha _ _ _ x hx
    rw [List.mem_singleton] at hx
    rw [hx]
    exact ha
  | cons b l ihl =>
    intro a ha hchain hbnd hbl x hx
    cases hchain with
    | cons hab hchain2 =>
    have hb : (st'.cost b).isSome := by
      obtain ⟨ca, hca⟩ := Option.isSome_iff_exists.mp ha
      apply hclosed a ca hca b
      obtain ⟨fb, tb, sk, hdir⟩ := cellAdjacent_dirGuard ctx maxX maxY a b hs
        (hbnd b (List.mem_cons_self b l)).1 (hbnd b (List.mem_cons_self b l)).2
        hab
      exact ⟨hnt a ca hca, hbl b (List.mem_cons_self b l),
        fb, tb, sk, hdir, rfl⟩
    rcases List.mem_cons.mp hx with rfl | hx2
    · exact ha
    · exact ihl b hb hchain2
        (fun y hy => hbnd y (List.mem_cons_of_mem _ hy))
        (fun y hy => hbl y (List.mem_cons_of_mem _ hy)) x hx2

end BM

/-- C4 (counterexample to the frozen claim): on a 2×2 grid with nothing
blocked, searching from index 1 (top-right cell) to index 2 (bottom-left
cell) with `maxX = 2 ≥ stride` returns the path `[1, 2]`, whose single step
wraps from the end of row 0 to the start of row 1 — the two cells are not
4-adjacent, so the result violates the claimed shape of every returned
path.  The claim's premise "maxX, maxY ≥ 0" does not exclude this input. -/
theorem C4_wraparound_counterexample :
    BM.getPath ⟨2, 2, fun _ => false⟩ 1 2 ⟨2, 1⟩ = some [1, 2]
    ∧ ¬BM.SpecPath ⟨2, 2, fun _ => false⟩ ⟨2, 1⟩ 1 2 [1, 2] := by
  constructor
  · rfl
  · intro h
    have hadj : BM.cellAdjacent ⟨2, 2, fun _ => false⟩ 1 2 :=
      (List.chain'_cons.mp h.2.2.2.1).1
    rcases hadj with ⟨hy, -⟩ | ⟨hx, -⟩
    · exact absurd hy (by decide)
    · exact absurd hx (by decide)

/-- C4 (amended): for every A* context and bounds with
`0 ≤ maxX < stride` and `0 ≤ maxY < height` and `fromIdx` inside the
bounds, `getPath` returns either a list whose first element is `fromIdx`,
whose last element is `toIdx`, whose consecutive elements are 4-adjacent
grid cells inside the bounds, and in which no element other than the
endpoints is a blocked cell (the target may be entered even if blocked);
or null, and null is returned only when no such 4-neighbour path exists
within the bounds.  (The frozen claim omitted `maxX < stride` and
`maxY < height`; without them the returned path may wrap across a row
boundary, see the counterexample.) -/
theorem C4_getPath_spec (ctx : BM.AStarContext) (fromIdx toIdx : Nat)
    (bounds : BM.GridBounds)
    (hx0 : 0 ≤ bounds.maxX) (hy0 : 0 ≤ bounds.maxY)
    (hsx : bounds.maxX < (ctx.stride : Int))
    (hsy : bounds.maxY < (ctx.height : Int))
    (hfrom : BM.inBoundsCell ctx bounds fromIdx) :
    (∀ p, BM.getPath ctx fromIdx toIdx bounds = some p →
        BM.SpecPath ctx bounds fromIdx toIdx p)
    ∧ (BM.getPath ctx fromIdx toIdx bounds = none →
        ¬∃ p, BM.SpecPath ctx bounds fromIdx toIdx p) := by
  obtain ⟨maxX, maxY⟩ := bounds
  have hx0' : (0:Int) ≤ maxX := hx0
  have hy0' : (0:Int) ≤ maxY := hy0
  have hsx' : maxX < (ctx.stride : Int) := hsx
  have hsy' : maxY < (ctx.height : Int) := hsy
  have hs : 0 < ctx.stride := by
    have h1 : (0:Int) < (ctx.stride : Int) := lt_of_le_of_lt hx0' hsx'
    exact_mod_cast h1
  have hflt : fromIdx < ctx.cellCount := by
    apply BM.cell_lt_cellCount ctx fromIdx hs
    have h2 : (BM.idxY ctx fromIdx : Int) ≤ maxY := hfrom.2
    have h3 : (BM.idxY ctx fromIdx : Int) < (ctx.height : Int) :=
      lt_of_le_of_lt h2 hsy'
    exact_mod_cast h3
  have hrun : BM.getPath ctx fromIdx toIdx ⟨maxX, maxY⟩ =
      (BM.astarLoop ctx none toIdx (toIdx - toIdx / ctx.stride * ctx.stride)
        (toIdx / ctx.stride) maxX maxY (BM.astarFuel ctx)
        (BM.astarInit ctx fromIdx)).getD none := by
    unfold BM.getPath BM.astarRun
    rw [if_neg (not_or.mpr ⟨not_lt.mpr hx0', not_lt.mpr hy0'⟩)]
  obtain ⟨r, hloop, hsome, hnone⟩ := BM.astarLoop_spec ctx none fromIdx toIdx
    (toIdx - toIdx / ctx.stride * ctx.stride) (toIdx / ctx.stride) maxX maxY
    hx0' hy0' hsx' hsy' (BM.astarFuel ctx) (BM.astarInit ctx fromIdx)
    (BM.astarInit_inv ctx none fromIdx toIdx maxX maxY hfrom.1 hfrom.2)
    (BM.astarInit_live ctx none fromIdx toIdx maxX maxY)
    (BM.astarInit_measure ctx fromIdx)
  constructor
  · intro p hp
    rw [hrun, hloop] at hp
    simp only [Option.getD_some] at hp
    exact (hsome p hp).1
  · intro hnp hex
    obtain ⟨p, hspec⟩ := hex
    rw [hrun, hloop] at hnp
    simp only [Option.getD_some] at hnp
    obtain ⟨st', hmono, hnt', hclosed⟩ := hnone hnp
    have hfd : (st'.cost fromIdx).isSome := by
      apply hmono
      rw [BM.astarInit_cost, if_pos ⟨rfl, hflt⟩]
      rfl
    obtain ⟨hhead, hlast, hbnd, hchain, hubl⟩ := hspec
    cases p with
    | nil => cases hhead
    | cons a l =>
      simp only [List.head?_cons] at hhead
      injection hhead with hhead
      subst hhead
      have hbl2 : ∀ x ∈ l, ¬ctx.blockedAt x = true ∨ x = toIdx := by
        intro x hx
        rcases BM.mem_dropLast_or_getLast l x hx with h | h
        · exact Or.inl (hubl x h)
        · cases l with
          | nil => cases hx
          | cons b l2 =>
            rw [List.getLast?_cons_cons] at hlast
            rw [h] at hlast
            injection hlast with hlast
            exact Or.inr hlast
      have hall := BM.chain_discovered ctx toIdx maxX maxY st' hs hnt'
        hclosed l a hfd hchain
        (fun x hx => hbnd x (List.mem_cons_of_mem _ hx)) hbl2
      have htm : toIdx ∈ a :: l := by
        have hne : (a :: l) ≠ [] := List.cons_ne_nil a l
        have hq := List.getLast?_eq_getLast (a :: l) hne
        rw [hlast] at hq
        injection hq with hq
        rw [hq]
        exact List.getLast_mem hne
      obtain ⟨c, hc⟩ := Option.isSome_iff_exists.mp (hall toIdx htm)
      exact hnt' toIdx c hc rfl

/-- Witness for C4 (amended): a concrete unblocked 4×4 grid with bounds
`maxX = maxY = 3`, source 0 and target 10, at which every hypothesis of
the amended theorem is discharged by computation. -/
theorem C4_getPath_spec_witness :
    ((0:Int) ≤ ((⟨3, 3⟩ : BM.GridBounds)).maxX
      ∧ (0:Int) ≤ ((⟨3, 3⟩ : BM.GridBounds)).maxY
      ∧ ((⟨3, 3⟩ : BM.GridBounds)).maxX
          < (((⟨4, 4, fun _ => false⟩ : BM.AStarContext)).stride : Int)
      ∧ ((⟨3, 3⟩ : BM.GridBounds)).maxY
          < (((⟨4, 4, fun _ => false⟩ : BM.AStarContext)).height : Int)
      ∧ BM.inBoundsCell ⟨4, 4, fun _ => false⟩ ⟨3, 3⟩ 0)
    ∧ ((∀ p, BM.getPath ⟨4, 4, fun _ => false⟩ 0 10 ⟨3, 3⟩ = some p →
          BM.SpecPath ⟨4, 4, fun _ => false⟩ ⟨3, 3⟩ 0 10 p)
        ∧ (BM.getPath ⟨4, 4, fun _ => false⟩ 0 10 ⟨3, 3⟩ = none →
            ¬∃ p, BM.SpecPath ⟨4, 4, fun _ => false⟩ ⟨3, 3⟩ 0 10 p)) :=
  ⟨⟨by decide, by decide, by decide, by decide, ⟨by decide, by decide⟩⟩,
    C4_getPath_spec ⟨4, 4, fun _ => false⟩ 0 10 ⟨3, 3⟩ (by decide) (by decide)
      (by decide) (by decide) ⟨by decide, by decide⟩⟩

namespace BM

theorem segmentKey_eval (x y : Nat) : segmentKey x y =
    (if x < y then x else y) * 2
      + (if (y : Int) - (x : Int) = 1 ∨ (y : Int) - (x : Int) = -1 then 0
          else 1) := rfl

theorem segKey_inj (stride a b c d : Nat) (hs : 2 ≤ stride)
    (hab : b = a + 1 ∨ a = b + 1 ∨ b = a + stride ∨ a = b + stride)
    (hcd : d = c + 1 ∨ c = d + 1 ∨ d = c + stride ∨ c = d + stride)
    (hk : segmentKey a b = segmentKey c d) :
    (a = c ∧ b = d) ∨ (a = d ∧ b = c) := by
  rw [segmentKey_eval, segmentKey_eval] at hk
  rcases hab with h1 | h1 | h1 | h1 <;> rcases hcd with h2 | h2 | h2 | h2 <;>
    split_ifs at hk <;> omega

theorem pathSegs_cons2 (a b : Nat) (rest : List Nat) :
    pathSegs (a :: b :: rest) = segmentKey a b :: pathSegs (b :: rest) := rfl

theorem pathSegs_nodup (stride : Nat) (hs : 2 ≤ stride) (p : List Nat) :
    p.Nodup → UnitSteps stride p → (pathSegs p).Nodup := by
  induction p with
  | nil => intro _ _; exact List.nodup_nil
  | cons a t ih =>
    intro hn hu
    cases t with
    | nil => exact List.nodup_nil
    | cons b rest =>
      rw [pathSegs_cons2]
      refine List.nodup_cons.mpr ⟨?_, ih (List.nodup_cons.mp hn).2 ?_⟩
      · intro hmem
        obtain ⟨⟨c, d⟩, hcd, hkey⟩ := List.mem_map.mp hmem
        have hucd := hu (c, d) (List.mem_cons_of_mem _ hcd)
        have huab := hu (a, b) (List.mem_cons_self _ _)
        have hnotin := (List.nodup_cons.mp hn).1
        obtain ⟨hc, hd⟩ := List.of_mem_zip hcd
        rcases segKey_inj stride a b c d hs huab hucd hkey.symm with
          ⟨h1, h2⟩ | ⟨h1, h2⟩
        · exact hnotin (h1 ▸ hc)
        · exact hnotin (List.mem_cons_of_mem _ (h1 ▸ hd))
      · intro ab hab
        exact hu ab (List.mem_cons_of_mem _ hab)

theorem step_from_head (p : List Nat) (hn : p.Nodup) (a b : Nat)
    (hab : (a, b) ∈ p.zip p.tail) (ha : a = p.head?.getD 0) :
    (pathSegs p).head? = some (segmentKey a b) := by
  cases p with
  | nil => cases hab
  | cons x t =>
    cases t with
    | nil => cases hab
    | cons y rest =>
      rcases List.mem_cons.mp hab with heq | hmem
      · cases heq
        rfl
      · exfalso
        have hamem : a ∈ y :: rest := (List.of_mem_zip hmem).1
        have : a = x := ha
        exact (List.nodup_cons.mp hn).1 (this ▸ hamem)

theorem step_to_last (p : List Nat) (hn : p.Nodup) (a b : Nat)
    (hab : (a, b) ∈ p.zip p.tail) (hb : b = p.getLast?.getD 0) :
    (pathSegs p).getLast? = some (segmentKey a b) := by
  induction p with
  | nil => cases hab
  | cons x t ih =>
    cases t with
    | nil => cases hab
    | cons y rest =>
      rcases List.mem_cons.mp hab with heq | hmem
      · cases heq
        cases rest with
        | nil => rfl
        | cons z rest2 =>
          exfalso
          have hg : (a :: b :: z :: rest2).getLast?.getD 0 ∈ z :: rest2 := by
            rw [List.getLast?_cons_cons, List.getLast?_cons_cons]
            have hne : (z :: rest2) ≠ [] := List.cons_ne_nil z rest2
            rw [List.getLast?_eq_getLast _ hne]
            exact List.getLast_mem hne
          rw [← hb] at hg
          exact (List.nodup_cons.mp (List.nodup_cons.mp hn).2).1 hg
      · have hrestne : rest ≠ [] := by
          intro h
          rw [h] at hmem
          cases hmem
        obtain ⟨z, rest2, rfl⟩ := List.exists_cons_of_ne_nil hrestne
        have hlift := ih (List.nodup_cons.mp hn).2 hmem
          (by rw [List.getLast?_cons_cons] at hb; exact hb)
        rw [pathSegs_cons2, pathSegs_cons2, List.getLast?_cons_cons,
          ← pathSegs_cons2]
        exact hlift

end BM

namespace BM

theorem segMarkUsed_fields (u : SegmentUsageMap) (key k : Nat) :
    ((segMarkUsed u key).segmentUsed k
        = if k = key then true else u.segmentUsed k)
    ∧ (segMarkUsed u key).usedAsMiddle k = u.usedAsMiddle k
    ∧ (segMarkUsed u key).startSource k = u.startSource k
    ∧ (segMarkUsed u key).startSourceMulti k = u.startSourceMulti k
    ∧ (segMarkUsed u key).endTarget k = u.endTarget k
    ∧ (segMarkUsed u key).endTargetMulti k = u.endTargetMulti k := by
  by_cases h : u.segmentUsed key = true
  · simp only [segMarkUsed, if_pos h]
    by_cases hk : k = key
    · subst hk
      simp [h]
    · simp [hk]
  · simp only [segMarkUsed, if_neg h]
    by_cases hk : k = key
    · subst hk
      simp
    · simp [Function.update_noteq hk, hk]

theorem segMarkStart_fields (u : SegmentUsageMap) (key f k : Nat) :
    (segMarkStart u key f).segmentUsed k = u.segmentUsed k
    ∧ (segMarkStart u key f).usedAsMiddle k = u.usedAsMiddle k
    ∧ ((segMarkStart u key f).startSource k
        = if k = key ∧ u.startSource key = 0 then f else u.startSource k)
    ∧ ((segMarkStart u key f).startSourceMulti k
        = if k = key ∧ u.startSource key ≠ 0 ∧ u.startSource key ≠ f
          then true else u.startSourceMulti k)
    ∧ (segMarkStart u key f).endTarget k = u.endTarget k
    ∧ (segMarkStart u key f).endTargetMulti k = u.endTargetMulti k := by
  unfold segMarkStart
  by_cases h0 : u.startSource key = 0
  · rw [if_pos h0]
    by_cases hk : k = key
    · subst hk
      simp [h0]
    · simp [Function.update_noteq hk, hk]
  · rw [if_neg h0]
    by_cases hf : u.startSource key ≠ f
    · rw [if_pos hf]
      by_cases hk : k = key
      · subst hk
        simp [h0, hf]
      · simp [Function.update_noteq hk, hk]
    · rw [if_neg hf]
      push_neg at hf
      by_cases hk : k = key
      · subst hk
        simp [h0, hf]
      · simp [hk]

theorem segMarkEnd_fields (u : SegmentUsageMap) (key t k : Nat) :
    (segMarkEnd u key t).segmentUsed k = u.segmentUsed k
    ∧ (segMarkEnd u key t).usedAsMiddle k = u.usedAsMiddle k
    ∧ (segMarkEnd u key t).startSource k = u.startSource k
    ∧ (segMarkEnd u key t).startSourceMulti k = u.startSourceMulti k
    ∧ ((segMarkEnd u key t).endTarget k
        = if k = key ∧ u.endTarget key = 0 then t else u.endTarget k)
    ∧ ((segMarkEnd u key t).endTargetMulti k
        = if k = key ∧ u.endTarget key ≠ 0 ∧ u.endTarget key ≠ t
          then true else u.endTargetMulti k) := by
  unfold segMarkEnd
  by_cases h0 : u.endTarget key = 0
  · rw [if_pos h0]
    by_cases hk : k = key
    · subst hk
      simp [h0]
    · simp [Function.update_noteq hk, hk]
  · rw [if_neg h0]
    by_cases hf : u.endTarget key ≠ t
    · rw [if_pos hf]
      by_cases hk : k = key
      · subst hk
        simp [h0, hf]
      · simp [Function.update_noteq hk, hk]
    · rw [if_neg hf]
      push_neg at hf
      by_cases hk : k = key
      · subst hk
        simp [h0, hf]
      · simp [hk]

theorem recordSegStep_frame (u : SegmentUsageMap) (f t : Nat)
    (iS iE : Bool) (a b k : Nat) (hk : k ≠ segmentKey a b) :
    (recordSegStep u f t iS iE a b).segmentUsed k = u.segmentUsed k
    ∧ (recordSegStep u f t iS iE a b).usedAsMiddle k = u.usedAsMiddle k
    ∧ (recordSegStep u f t iS iE a b).startSource k = u.startSource k
    ∧ (recordSegStep u f t iS iE a b).startSourceMulti k
        = u.startSourceMulti k
    ∧ (recordSegStep u f t iS iE a b).endTarget k = u.endTarget k
    ∧ (recordSegStep u f t iS iE a b).endTargetMulti k = u.endTargetMulti k
    := by
  simp only [recordSegStep]
  cases iS <;> cases iE <;>
    simp [segMarkUsed_fields, segMarkStart_fields, segMarkEnd_fields, hk,
      Function.update_noteq hk]

theorem recordSegStep_self (u : SegmentUsageMap) (f t : Nat)
    (iS iE : Bool) (a b : Nat) :
    (recordSegStep u f t iS iE a b).segmentUsed (segmentKey a b) = true
    ∧ (recordSegStep u f t iS iE a b).usedAsMiddle (segmentKey a b)
        = (if iS = false ∧ iE = false then true
           else u.usedAsMiddle (segmentKey a b))
    ∧ (recordSegStep u f t iS iE a b).startSource (segmentKey a b)
        = (if iS = true ∧ u.startSource (segmentKey a b) = 0 then f
           else u.startSource (segmentKey a b))
    ∧ (recordSegStep u f t iS iE a b).startSourceMulti (segmentKey a b)
        = (if iS = true ∧ u.startSource (segmentKey a b) ≠ 0
              ∧ u.startSource (segmentKey a b) ≠ f then true
           else u.startSourceMulti (segmentKey a b))
    ∧ (recordSegStep u f t iS iE a b).endTarget (segmentKey a b)
        = (if iE = true ∧ u.endTarget (segmentKey a b) = 0 then t
           else u.endTarget (segmentKey a b))
    ∧ (recordSegStep u f t iS iE a b).endTargetMulti (segmentKey a b)
        = (if iE = true ∧ u.endTarget (segmentKey a b) ≠ 0
              ∧ u.endTarget (segmentKey a b) ≠ t then true
           else u.endTargetMulti (segmentKey a b)) := by
  simp only [recordSegStep]
  cases iS <;> cases iE <;>
    simp [segMarkUsed_fields, segMarkStart_fields, segMarkEnd_fields,
      Function.update_same]

end BM

namespace BM

theorem recordPathSegmentsAux_frame (f t s : Nat) :
    ∀ (p : List Nat) (first : Bool) (u : SegmentUsageMap),
      s ∉ pathSegs p →
      (recordPathSegmentsAux f t first u p).segmentUsed s = u.segmentUsed s
      ∧ (recordPathSegmentsAux f t first u p).usedAsMiddle s
          = u.usedAsMiddle s
      ∧ (recordPathSegmentsAux f t first u p).startSource s = u.startSource s
      ∧ (recordPathSegmentsAux f t first u p).startSourceMulti s
          = u.startSourceMulti s
      ∧ (recordPathSegmentsAux f t first u p).endTarget s = u.endTarget s
      ∧ (recordPathSegmentsAux f t first u p).endTargetMulti s
          = u.endTargetMulti s := by
  intro p
  induction p with
  | nil =>
    intro first u _
    exact ⟨rfl, rfl, rfl, rfl, rfl, rfl⟩
  | cons a tl ih =>
    intro first u hs
    cases tl with
    | nil => exact ⟨rfl, rfl, rfl, rfl, rfl, rfl⟩
    | cons b rest =>
      rw [pathSegs_cons2] at hs
      have hs1 : s ≠ segmentKey a b :=
        fun h => hs (h ▸ List.mem_cons_self _ _)
      have hs2 : s ∉ pathSegs (b :: rest) :=
        fun h => hs (List.mem_cons_of_mem _ h)
      have haux : recordPathSegmentsAux f t first u (a :: b :: rest)
          = recordPathSegmentsAux f t false
              (recordSegStep u f t first rest.isEmpty a b) (b :: rest) := rfl
      rw [haux]
      obtain ⟨e1, e2, e3, e4, e5, e6⟩ :=
        ih false (recordSegStep u f t first rest.isEmpty a b) hs2
      obtain ⟨g1, g2, g3, g4, g5, g6⟩ :=
        recordSegStep_frame u f t first rest.isEmpty a b s hs1
      exact ⟨e1.trans g1, e2.trans g2, e3.trans g3, e4.trans g4,
        e5.trans g5, e6.trans g6⟩

end BM


namespace BM

theorem mem_of_getLast?_eq {α : Type _} (l : List α) (x : α)
    (h : l.getLast? = some x) : x ∈ l := by
  have hne : l ≠ [] := by
    intro hl
    rw [hl] at h
    cases h
  rw [List.getLast?_eq_getLast l hne] at h
  injection h with h
  rw [← h]
  exact List.getLast_mem hne

theorem recordPathSegmentsAux_self (stride : Nat) (hst : 2 ≤ stride)
    (f t s : Nat) :
    ∀ (p : List Nat) (first : Bool) (u : SegmentUsageMap),
      p.Nodup → UnitSteps stride p → s ∈ pathSegs p →
      (recordPathSegmentsAux f t first u p).segmentUsed s = true
      ∧ (recordPathSegmentsAux f t first u p).usedAsMiddle s
          = (if ¬(first = true ∧ (pathSegs p).head? = some s)
                ∧ ¬((pathSegs p).getLast? = some s)
             then true else u.usedAsMiddle s)
      ∧ (recordPathSegmentsAux f t first u p).startSource s
          = (if (first = true ∧ (pathSegs p).head? = some s)
                ∧ u.startSource s = 0
             then f else u.startSource s)
      ∧ (recordPathSegmentsAux f t first u p).startSourceMulti s
          = (if (first = true ∧ (pathSegs p).head? = some s)
                ∧ u.startSource s ≠ 0 ∧ u.startSource s ≠ f
             then true else u.startSourceMulti s)
      ∧ (recordPathSegmentsAux f t first u p).endTarget s
          = (if ((pathSegs p).getLast? = some s) ∧ u.endTarget s = 0
             then t else u.endTarget s)
      ∧ (recordPathSegmentsAux f t first u p).endTargetMulti s
          = (if ((pathSegs p).getLast? = some s) ∧ u.endTarget s ≠ 0
                ∧ u.endTarget s ≠ t
             then true else u.endTargetMulti s) := by
  intro p
  induction p with
  | nil =>
    intro first u _ _ hmem
    cases hmem
  | cons a tl ih =>
    intro first u hn hu hmem
    cases tl with
    | nil => cases hmem
    | cons b rest =>
      have hsegnd := pathSegs_nodup stride hst (a :: b :: rest) hn hu
      rw [pathSegs_cons2] at hsegnd
      have haux : recordPathSegmentsAux f t first u (a :: b :: rest)
          = recordPathSegmentsAux f t false
              (recordSegStep u f t first rest.isEmpty a b) (b :: rest) := rfl
      rw [pathSegs_cons2] at hmem
      have hhead : (pathSegs (a :: b :: rest)).head?
          = some (segmentKey a b) := rfl
      rcases List.mem_cons.mp hmem with hsk | hsk
      · subst hsk
        have hnotin : segmentKey a b ∉ pathSegs (b :: rest) :=
          (List.nodup_cons.mp hsegnd).1
        obtain ⟨e1, e2, e3, e4, e5, e6⟩ := recordPathSegmentsAux_frame f t
          (segmentKey a b) (b :: rest) false
          (recordSegStep u f t first rest.isEmpty a b) hnotin
        obtain ⟨g1, g2, g3, g4, g5, g6⟩ :=
          recordSegStep_self u f t first rest.isEmpty a b
        have hlast_iff : ((pathSegs (a :: b :: rest)).getLast?
            = some (segmentKey a b)) ↔ rest.isEmpty = true := by
          cases rest with
          | nil => simp [pathSegs_cons2, pathSegs]
          | cons z rest2 =>
            simp only [List.isEmpty_cons]
            constructor
            · intro hl
              exfalso
              rw [pathSegs_cons2, pathSegs_cons2,
                List.getLast?_cons_cons] at hl
              exact hnotin (by
                rw [pathSegs_cons2]
                exact mem_of_getLast?_eq _ _ hl)
            · intro hl
              cases hl
        have hiffm : (first = false ∧ rest.isEmpty = false)
            ↔ (¬(first = true ∧ (pathSegs (a :: b :: rest)).head?
                  = some (segmentKey a b))
               ∧ ¬((pathSegs (a :: b :: rest)).getLast?
                  = some (segmentKey a b))) := by
          rw [hlast_iff]
          constructor
          · rintro ⟨h1, h2⟩
            refine ⟨?_, ?_⟩
            · rintro ⟨hf, -⟩
              rw [hf] at h1
              cases h1
            · intro hl
              rw [hl] at h2
              cases h2
          · rintro ⟨h1, h2⟩
            constructor
            · cases hfv : first
              · rfl
              · exact absurd ⟨hfv, hhead⟩ h1
            · cases hrv : rest.isEmpty
              · rfl
              · exact absurd hrv h2
        have hiffs : (first = true
              ∧ u.startSource (segmentKey a b) = 0)
            ↔ ((first = true ∧ (pathSegs (a :: b :: rest)).head?
                  = some (segmentKey a b))
               ∧ u.startSource (segmentKey a b) = 0) := by
          simp [hhead]
        have hiffsm : (first = true
              ∧ u.startSource (segmentKey a b) ≠ 0
              ∧ u.startSource (segmentKey a b) ≠ f)
            ↔ ((first = true ∧ (pathSegs (a :: b :: rest)).head?
                  = some (segmentKey a b))
               ∧ u.startSource (segmentKey a b) ≠ 0
               ∧ u.startSource (segmentKey a b) ≠ f) := by
          simp [hhead]
        have hiffe : (rest.isEmpty = true
              ∧ u.endTarget (segmentKey a b) = 0)
            ↔ (((pathSegs (a :: b :: rest)).getLast?
                  = some (segmentKey a b))
               ∧ u.endTarget (segmentKey a b) = 0) := by
          rw [hlast_iff]
        have hiffem : (rest.isEmpty = true
              ∧ u.endTarget (segmentKey a b) ≠ 0
              ∧ u.endTarget (segmentKey a b) ≠ t)
            ↔ (((pathSegs (a :: b :: rest)).getLast?
                  = some (segmentKey a b))
               ∧ u.endTarget (segmentKey a b) ≠ 0
               ∧ u.endTarget (segmentKey a b) ≠ t) := by
          rw [hlast_iff]
        rw [haux]
        refine ⟨e1.trans g1, ?_, ?_, ?_, ?_, ?_⟩
        · rw [e2.trans g2]
          exact if_congr (by
            constructor
            · rintro ⟨h1, h2⟩
              exact hiffm.mp ⟨by simpa using h1, by simpa using h2⟩
            · intro h
              obtain ⟨h1, h2⟩ := hiffm.mpr h
              exact ⟨by simpa using h1, by simpa using h2⟩) rfl rfl
        · rw [e3.trans g3]
          exact if_congr hiffs rfl rfl
        · rw [e4.trans g4]
          exact if_congr hiffsm rfl rfl
        · rw [e5.trans g5]
          exact if_congr hiffe rfl rfl
        · rw [e6.trans g6]
          exact if_congr hiffem rfl rfl
      · have hne_k : s ≠ segmentKey a b := by
          intro h
          exact (List.nodup_cons.mp hsegnd).1 (h ▸ hsk)
        obtain ⟨g1, g2, g3, g4, g5, g6⟩ :=
          recordSegStep_frame u f t first rest.isEmpty a b s hne_k
        obtain ⟨e1, e2, e3, e4, e5, e6⟩ := ih false
          (recordSegStep u f t first rest.isEmpty a b)
          (List.nodup_cons.mp hn).2
          (fun ab hab => hu ab (List.mem_cons_of_mem _ hab)) hsk
        rw [g2] at e2
        rw [g3] at e3
        rw [g3, g4] at e4
        rw [g5] at e5
        rw [g5, g6] at e6
        have hlast_eq : (pathSegs (a :: b :: rest)).getLast?
            = (pathSegs (b :: rest)).getLast? := by
          obtain ⟨w, ws, hw⟩ :=
            List.exists_cons_of_ne_nil (List.ne_nil_of_mem hsk)
          rw [pathSegs_cons2, hw, List.getLast?_cons_cons]
        have hheadne : ¬((pathSegs (a :: b :: rest)).head? = some s) := by
          rw [hhead]
          intro h
          injection h with h
          exact hne_k h.symm
        rw [haux]
        refine ⟨e1, ?_, ?_, ?_, ?_, ?_⟩
        · rw [e2]
          refine if_congr ?_ rfl rfl
          rw [hlast_eq]
          constructor
          · rintro ⟨-, h2⟩
            exact ⟨fun h => hheadne h.2, h2⟩
          · rintro ⟨-, h2⟩
            exact ⟨(by rintro ⟨h, -⟩; cases h), h2⟩
        · rw [e3]
          refine if_congr ?_ rfl rfl
          constructor
          · rintro ⟨⟨h, -⟩, -⟩
            cases h
          · rintro ⟨⟨-, h⟩, -⟩
            exact absurd h hheadne
        · rw [e4]
          refine if_congr ?_ rfl rfl
          constructor
          · rintro ⟨⟨h, -⟩, -⟩
            cases h
          · rintro ⟨⟨-, h⟩, -⟩
            exact absurd h hheadne
        · rw [e5]
          rw [hlast_eq]
        · rw [e6]
          rw [hlast_eq]

end BM

namespace BM

theorem pathSegs_short (p : List Nat) (h : p.length < 2) : pathSegs p = [] := by
  cases p with
  | nil => rfl
  | cons a t =>
    cases t with
    | nil => rfl
    | cons b r =>
      exfalso
      simp only [List.length_cons] at h
      omega

theorem recordPathSegments_frame (u : SegmentUsageMap) (f t : Nat)
    (p : List Nat) (s : Nat) (hs : s ∉ pathSegs p) :
    (recordPathSegments u f t p).segmentUsed s = u.segmentUsed s
    ∧ (recordPathSegments u f t p).usedAsMiddle s = u.usedAsMiddle s
    ∧ (recordPathSegments u f t p).startSource s = u.startSource s
    ∧ (recordPathSegments u f t p).startSourceMulti s = u.startSourceMulti s
    ∧ (recordPathSegments u f t p).endTarget s = u.endTarget s
    ∧ (recordPathSegments u f t p).endTargetMulti s = u.endTargetMulti s := by
  by_cases h : p.length < 2
  · have heq : recordPathSegments u f t p = u := by
      unfold recordPathSegments
      rw [if_pos h]
    rw [heq]
    exact ⟨rfl, rfl, rfl, rfl, rfl, rfl⟩
  · simp only [recordPathSegments, if_neg h]
    exact recordPathSegmentsAux_frame f t s p true u hs

theorem recordPathSegments_self (stride : Nat) (hst : 2 ≤ stride)
    (u : SegmentUsageMap) (f t : Nat) (p : List Nat) (s : Nat)
    (hn : p.Nodup) (hu : UnitSteps stride p) (hs : s ∈ pathSegs p) :
    (recordPathSegments u f t p).segmentUsed s = true
    ∧ (recordPathSegments u f t p).usedAsMiddle s
        = (if ¬((pathSegs p).head? = some s)
              ∧ ¬((pathSegs p).getLast? = some s)
           then true else u.usedAsMiddle s)
    ∧ (recordPathSegments u f t p).startSource s
        = (if ((pathSegs p).head? = some s) ∧ u.startSource s = 0
           then f else u.startSource s)
    ∧ (recordPathSegments u f t p).startSourceMulti s
        = (if ((pathSegs p).head? = some s) ∧ u.startSource s ≠ 0
              ∧ u.startSource s ≠ f
           then true else u.startSourceMulti s)
    ∧ (recordPathSegments u f t p).endTarget s
        = (if ((pathSegs p).getLast? = some s) ∧ u.endTarget s = 0
           then t else u.endTarget s)
    ∧ (recordPathSegments u f t p).endTargetMulti s
        = (if ((pathSegs p).getLast? = some s) ∧ u.endTarget s ≠ 0
              ∧ u.endTarget s ≠ t
           then true else u.endTargetMulti s) := by
  by_cases h : p.length < 2
  · rw [pathSegs_short p h] at hs
    cases hs
  · simp only [recordPathSegments, if_neg h]
    obtain ⟨e1, e2, e3, e4, e5, e6⟩ :=
      recordPathSegmentsAux_self stride hst f t s p true u hn hu hs
    refine ⟨e1, ?_, ?_, ?_, e5, e6⟩
    · rw [e2]
      exact if_congr (by simp) rfl rfl
    · rw [e3]
      exact if_congr (by simp) rfl rfl
    · rw [e4]
      exact if_congr (by simp) rfl rfl

theorem segAllow_analysis (u : SegmentUsageMap) (h l fid tid a b : Nat)
    (hused : u.segmentUsed (segmentKey a b) = true)
    (hall : segAllowStep u h l fid tid a b (segmentKey a b) = true) :
    u.usedAsMiddle (segmentKey a b) = false
    ∧ ((a = h ∧ b = l
          ∧ u.startSourceMulti (segmentKey a b) = false
          ∧ (u.startSource (segmentKey a b) = 0
              ∨ u.startSource (segmentKey a b) = fid)
          ∧ u.endTargetMulti (segmentKey a b) = false
          ∧ (u.endTarget (segmentKey a b) = 0
              ∨ u.endTarget (segmentKey a b) = tid))
       ∨ (a = h ∧ ¬b = l
          ∧ u.endTargetMulti (segmentKey a b) = false
          ∧ u.endTarget (segmentKey a b) = 0
          ∧ u.startSourceMulti (segmentKey a b) = false
          ∧ u.startSource (segmentKey a b) = fid)
       ∨ (¬a = h ∧ b = l
          ∧ u.startSourceMulti (segmentKey a b) = false
          ∧ u.startSource (segmentKey a b) = 0
          ∧ u.endTargetMulti (segmentKey a b) = false
          ∧ u.endTarget (segmentKey a b) = tid)) := by
  simp only [segAllowStep] at hall
  rw [if_pos hused] at hall
  by_cases hmid : u.usedAsMiddle (segmentKey a b) = true
  · rw [if_pos hmid] at hall
    cases hall
  · rw [if_neg hmid] at hall
    refine ⟨by simpa using hmid, ?_⟩
    by_cases hS : a = h <;> by_cases hE : b = l
    · rw [if_pos ⟨hS, hE⟩] at hall
      simp only [Bool.and_eq_true, Bool.or_eq_true, Bool.not_eq_true',
        beq_iff_eq] at hall
      exact Or.inl ⟨hS, hE, hall.1.1, hall.1.2, hall.2.1, hall.2.2⟩
    · rw [if_neg (fun hc => hE hc.2), if_pos hS] at hall
      simp only [Bool.and_eq_true, Bool.not_eq_true', beq_iff_eq] at hall
      exact Or.inr (Or.inl ⟨hS, hE, hall.1.1.1, hall.1.1.2, hall.1.2,
        hall.2⟩)
    · rw [if_neg (fun hc => hS hc.1), if_neg hS, if_pos hE] at hall
      simp only [Bool.and_eq_true, Bool.not_eq_true', beq_iff_eq] at hall
      exact Or.inr (Or.inr ⟨hS, hE, hall.1.1.1, hall.1.1.2, hall.1.2,
        hall.2⟩)
    · rw [if_neg (fun hc => hS hc.1), if_neg hS, if_neg hE] at hall
      cases hall

end BM

namespace BM

theorem trace_step (stride : Nat) (hst : 2 ≤ stride)
    (done : List RoutedEdgeRec) (u : SegmentUsageMap) (r : RoutedEdgeRec)
    (hinv : StateInv done u) (hadm : AdmissibleRec stride u r) :
    StateInv (done ++ [r])
      (recordPathSegments u r.fromId r.toId r.path) := by
  obtain ⟨hlen, hnd, hf0, ht0, hunit, hstep⟩ := hadm
  have hmem_of_head : ∀ s, (pathSegs r.path).head? = some s →
      s ∈ pathSegs r.path := by
    intro s h
    cases hp : pathSegs r.path with
    | nil =>
      rw [hp] at h
      cases h
    | cons x xs =>
      rw [hp] at h
      injection h with h
      rw [← h]
      exact List.mem_cons_self _ _
  have hmem_of_last : ∀ s, (pathSegs r.path).getLast? = some s →
      s ∈ pathSegs r.path :=
    fun s h => mem_of_getLast?_eq _ _ h
  constructor
  · intro s m hm hsm
    rcases List.mem_append.mp hm with hm2 | hm2
    · by_cases hsr : s ∈ pathSegs r.path
      · exact (recordPathSegments_self stride hst u r.fromId r.toId r.path s
          hnd hunit hsr).1
      · rw [(recordPathSegments_frame u r.fromId r.toId r.path s hsr).1]
        exact hinv.used_of_mem s m hm2 hsm
    · rw [List.mem_singleton] at hm2
      subst hm2
      exact (recordPathSegments_self stride hst u m.fromId m.toId m.path s
        hnd hunit hsm).1
  · intro s m hmid hm hsm
    by_cases hsr : s ∈ pathSegs r.path
    · have e2 := (recordPathSegments_self stride hst u r.fromId r.toId r.path
        s hnd hunit hsr).2.1
      rw [e2] at hmid
      by_cases hc : ¬((pathSegs r.path).head? = some s)
          ∧ ¬((pathSegs r.path).getLast? = some s)
      · rw [if_pos hc] at hmid
        cases hmid
      · rw [if_neg hc] at hmid
        rcases List.mem_append.mp hm with hm2 | hm2
        · exact hinv.endpoint_of_not_middle s m hmid hm2 hsm
        · rw [List.mem_singleton] at hm2
          subst hm2
          by_cases hh : (pathSegs m.path).head? = some s
          · exact Or.inl hh
          · by_cases hl : (pathSegs m.path).getLast? = some s
            · exact Or.inr hl
            · exact absurd ⟨hh, hl⟩ hc
    · have e2 := (recordPathSegments_frame u r.fromId r.toId r.path s
        hsr).2.1
      rw [e2] at hmid
      rcases List.mem_append.mp hm with hm2 | hm2
      · exact hinv.endpoint_of_not_middle s m hmid hm2 hsm
      · rw [List.mem_singleton] at hm2
        subst hm2
        exact absurd hsm hsr
  · intro s m het hm
    by_cases hsr : s ∈ pathSegs r.path
    · have e5 := (recordPathSegments_self stride hst u r.fromId r.toId r.path
        s hnd hunit hsr).2.2.2.2.1
      rw [e5] at het
      by_cases hc : ((pathSegs r.path).getLast? = some s)
          ∧ u.endTarget s = 0
      · rw [if_pos hc] at het
        omega
      · rw [if_neg hc] at het
        rcases List.mem_append.mp hm with hm2 | hm2
        · exact hinv.no_last_of_et0 s m het hm2
        · rw [List.mem_singleton] at hm2
          subst hm2
          intro hlast
          exact hc ⟨hlast, het⟩
    · have e5 := (recordPathSegments_frame u r.fromId r.toId r.path s
        hsr).2.2.2.2.1
      rw [e5] at het
      rcases List.mem_append.mp hm with hm2 | hm2
      · exact hinv.no_last_of_et0 s m het hm2
      · rw [List.mem_singleton] at hm2
        subst hm2
        intro hlast
        exact hsr (hmem_of_last s hlast)
  · intro s m hss hm
    by_cases hsr : s ∈ pathSegs r.path
    · have e3 := (recordPathSegments_self stride hst u r.fromId r.toId r.path
        s hnd hunit hsr).2.2.1
      rw [e3] at hss
      by_cases hc : ((pathSegs r.path).head? = some s)
          ∧ u.startSource s = 0
      · rw [if_pos hc] at hss
        omega
      · rw [if_neg hc] at hss
        rcases List.mem_append.mp hm with hm2 | hm2
        · exact hinv.no_first_of_ss0 s m hss hm2
        · rw [List.mem_singleton] at hm2
          subst hm2
          intro hhead
          exact hc ⟨hhead, hss⟩
    · have e3 := (recordPathSegments_frame u r.fromId r.toId r.path s
        hsr).2.2.1
      rw [e3] at hss
      rcases List.mem_append.mp hm with hm2 | hm2
      · exact hinv.no_first_of_ss0 s m hss hm2
      · rw [List.mem_singleton] at hm2
        subst hm2
        intro hhead
        exact hsr (hmem_of_head s hhead)
  · intro s m hssm hm hhead
    by_cases hsr : s ∈ pathSegs r.path
    · have e3 := (recordPathSegments_self stride hst u r.fromId r.toId r.path
        s hnd hunit hsr).2.2.1
      have e4 := (recordPathSegments_self stride hst u r.fromId r.toId r.path
        s hnd hunit hsr).2.2.2.1
      rw [e4] at hssm
      by_cases hcm : ((pathSegs r.path).head? = some s)
          ∧ u.startSource s ≠ 0 ∧ u.startSource s ≠ r.fromId
      · rw [if_pos hcm] at hssm
        cases hssm
      · rw [if_neg hcm] at hssm
        rw [e3]
        rcases List.mem_append.mp hm with hm2 | hm2
        · have hb4 := hinv.first_id s m hssm hm2 hhead
          by_cases hcs : ((pathSegs r.path).head? = some s)
              ∧ u.startSource s = 0
          · exact absurd hhead (hinv.no_first_of_ss0 s m hcs.2 hm2)
          · rw [if_neg hcs]
            exact hb4
        · rw [List.mem_singleton] at hm2
          subst hm2
          by_cases hss0 : u.startSource s = 0
          · rw [if_pos ⟨hhead, hss0⟩]
          · rw [if_neg (fun hc => hss0 hc.2)]
            by_cases hne : u.startSource s ≠ m.fromId
            · exact absurd ⟨hhead, hss0, hne⟩ hcm
            · push_neg at hne
              exact hne.symm
    · have e3 := (recordPathSegments_frame u r.fromId r.toId r.path s
        hsr).2.2.1
      have e4 := (recordPathSegments_frame u r.fromId r.toId r.path s
        hsr).2.2.2.1
      rw [e4] at hssm
      rw [e3]
      rcases List.mem_append.mp hm with hm2 | hm2
      · exact hinv.first_id s m hssm hm2 hhead
      · rw [List.mem_singleton] at hm2
        subst hm2
        exact absurd (hmem_of_head s hhead) hsr
  · intro s m hetm hm hlast
    by_cases hsr : s ∈ pathSegs r.path
    · have e5 := (recordPathSegments_self stride hst u r.fromId r.toId r.path
        s hnd hunit hsr).2.2.2.2.1
      have e6 := (recordPathSegments_self stride hst u r.fromId r.toId r.path
        s hnd hunit hsr).2.2.2.2.2
      rw [e6] at hetm
      by_cases hcm : ((pathSegs r.path).getLast? = some s)
          ∧ u.endTarget s ≠ 0 ∧ u.endTarget s ≠ r.toId
      · rw [if_pos hcm] at hetm
        cases hetm
      · rw [if_neg hcm] at hetm
        rw [e5]
        rcases List.mem_append.mp hm with hm2 | hm2
        · have hb5 := hinv.last_id s m hetm hm2 hlast
          by_cases hcs : ((pathSegs r.path).getLast? = some s)
              ∧ u.endTarget s = 0
          · exact absurd hlast (hinv.no_last_of_et0 s m hcs.2 hm2)
          · rw [if_neg hcs]
            exact hb5
        · rw [List.mem_singleton] at hm2
          subst hm2
          by_cases het0 : u.endTarget s = 0
          · rw [if_pos ⟨hlast, het0⟩]
          · rw [if_neg (fun hc => het0 hc.2)]
            by_cases hne : u.endTarget s ≠ m.toId
            · exact absurd ⟨hlast, het0, hne⟩ hcm
            · push_neg at hne
              exact hne.symm
    · have e5 := (recordPathSegments_frame u r.fromId r.toId r.path s
        hsr).2.2.2.2.1
      have e6 := (recordPathSegments_frame u r.fromId r.toId r.path s
        hsr).2.2.2.2.2
      rw [e6] at hetm
      rw [e5]
      rcases List.mem_append.mp hm with hm2 | hm2
      · exact hinv.last_id s m hetm hm2 hlast
      · rw [List.mem_singleton] at hm2
        subst hm2
        exact absurd (hmem_of_last s hlast) hsr
  · rw [List.pairwise_append]
    refine ⟨hinv.pairwise, List.pairwise_singleton _ r, ?_⟩
    intro i hi y hy
    rw [List.mem_singleton] at hy
    subst hy
    intro s hsi hsr
    obtain ⟨⟨a, b⟩, hab, hkey⟩ := List.mem_map.mp hsr
    subst hkey
    have hused : u.segmentUsed (segmentKey a b) = true :=
      hinv.used_of_mem _ i hi hsi
    have hall := hstep (a, b) hab
    obtain ⟨hmid, hcases⟩ := segAllow_analysis u (y.path.head?.getD 0)
      (y.path.getLast?.getD 0) y.fromId y.toId a b hused hall
    rcases hcases with ⟨hS, hE, hssm, hssv, hetm, hetv⟩ |
      ⟨hS, hE, hetm, hetv, hssm, hssv⟩ | ⟨hS, hE, hssm, hssv, hetm, hetv⟩
    · have hheadr := step_from_head y.path hnd a b hab hS
      have hlastr := step_to_last y.path hnd a b hab hE
      rcases hinv.endpoint_of_not_middle _ i hmid hi hsi with hhi | hli
      · have hssne : u.startSource (segmentKey a b) ≠ 0 := by
          intro h0
          exact hinv.no_first_of_ss0 _ i h0 hi hhi
        have hssq : u.startSource (segmentKey a b) = y.fromId := by
          rcases hssv with h | h
          · exact absurd h hssne
          · exact h
        have hfi := hinv.first_id _ i hssm hi hhi
        exact Or.inl ⟨by rw [hfi, hssq], hhi, hheadr⟩
      · have hetne : u.endTarget (segmentKey a b) ≠ 0 := by
          intro h0
          exact hinv.no_last_of_et0 _ i h0 hi hli
        have hetq : u.endTarget (segmentKey a b) = y.toId := by
          rcases hetv with h | h
          · exact absurd h hetne
          · exact h
        have hti := hinv.last_id _ i hetm hi hli
        exact Or.inr ⟨by rw [hti, hetq], hli, hlastr⟩
    · have hheadr := step_from_head y.path hnd a b hab hS
      rcases hinv.endpoint_of_not_middle _ i hmid hi hsi with hhi | hli
      · have hfi := hinv.first_id _ i hssm hi hhi
        exact Or.inl ⟨by rw [hfi, hssv], hhi, hheadr⟩
      · exact absurd hli (hinv.no_last_of_et0 _ i hetv hi)
    · have hlastr := step_to_last y.path hnd a b hab hE
      rcases hinv.endpoint_of_not_middle _ i hmid hi hsi with hhi | hli
      · exact absurd hhi (hinv.no_first_of_ss0 _ i hssv hi)
      · have hti := hinv.last_id _ i hetm hi hli
        exact Or.inr ⟨by rw [hti, hetv], hli, hlastr⟩

end BM

namespace BM

theorem StateInv_init : StateInv [] makeSegmentUsageMap := by
  constructor
  · intro s r hr
    cases hr
  · intro s r _ hr
    cases hr
  · intro s r _ hr
    cases hr
  · intro s r _ hr
    cases hr
  · intro s r _ hr
    cases hr
  · intro s r _ hr
    cases hr
  · exact List.Pairwise.nil

theorem trace_inv (stride : Nat) (hst : 2 ≤ stride) :
    ∀ (rs done : List RoutedEdgeRec) (u : SegmentUsageMap),
      StateInv done u → AdmissibleTrace stride u rs →
      List.Pairwise shareOK (done ++ rs) := by
  intro rs
  induction rs with
  | nil =>
    intro done u hinv _
    rw [List.append_nil]
    exact hinv.pairwise
  | cons r rs ih =>
    intro done u hinv hadm
    obtain ⟨hrec, hrest⟩ := hadm
    have hrec2 := ih (done ++ [r])
      (recordPathSegments u r.fromId r.toId r.path)
      (trace_step stride hst done u r hinv hrec) hrest
    rw [List.append_assoc] at hrec2
    exact hrec2

end BM

/-- C2: for every routing trace in which each edge's recorded (un-merged)
path passed the inline segment-sharing check against the usage table
accumulated from the earlier edges (which is exactly what `getPathStrict`
and the self-loop validator enforce, and `recordPathSegments` records),
every pair of recorded edges sharing at least one unit segment `s` either
has equal source ids with `s` the first segment of both paths, or equal
target ids with `s` the last segment of both paths. -/
theorem C2_shared_segments_endpoints (stride : Nat)
    (records : List BM.RoutedEdgeRec) (hst : 2 ≤ stride)
    (hadm : BM.AdmissibleTrace stride BM.makeSegmentUsageMap records) :
    List.Pairwise BM.shareOK records := by
  have h := BM.trace_inv stride hst records [] BM.makeSegmentUsageMap
    BM.StateInv_init hadm
  simpa using h

/-- Witness for C2: two concrete edges with the same source node leaving
through the same port cell, sharing their first segment `0 → 1` on a grid
of stride 4; the second edge's steps pass the sharing check against the
table recorded for the first. -/
theorem C2_shared_segments_endpoints_witness :
    (2 ≤ 4 ∧ BM.AdmissibleTrace 4 BM.makeSegmentUsageMap
        [⟨1, 2, [0, 1, 2]⟩, ⟨1, 3, [0, 1, 5]⟩])
    ∧ List.Pairwise BM.shareOK
        [⟨1, 2, [0, 1, 2]⟩, ⟨1, 3, [0, 1, 5]⟩] := by
  have hadm : BM.AdmissibleTrace 4 BM.makeSegmentUsageMap
      [⟨1, 2, [0, 1, 2]⟩, ⟨1, 3, [0, 1, 5]⟩] := by
    refine ⟨⟨?_, ?_, ?_, ?_, ?_, ?_⟩, ⟨?_, ?_, ?_, ?_, ?_, ?_⟩, trivial⟩
    · decide
    · decide
    · decide
    · decide
    · intro ab hab
      fin_cases hab <;> decide
    · intro ab hab
      fin_cases hab <;> decide
    · decide
    · decide
    · decide
    · decide
    · intro ab hab
      fin_cases hab <;> decide
    · intro ab hab
      fin_cases hab <;> decide
  exact ⟨⟨by decide, hadm⟩,
    C2_shared_segments_endpoints 4 _ (by decide) hadm⟩

-- ===========================================================================
-- C5 / C7: the candidate stage of determinePath
-- ===========================================================================

namespace BM

/-- A successful `findSome?` comes from some list element. -/
theorem findSome?_some {α β : Type} (f : α → Option β) (l : List α) (b : β)
    (h : l.findSome? f = some b) : ∃ a ∈ l, f a = some b := by
  induction l with
  | nil => simp [List.findSome?] at h
  | cons a rest ih =>
    rw [List.findSome?] at h
    cases hf : f a with
    | some b' =>
      rw [hf] at h
      exact ⟨a, List.mem_cons_self a rest, hf.trans h⟩
    | none =>
      rw [hf] at h
      obtain ⟨x, hx, hfx⟩ := ih h
      exact ⟨x, List.mem_cons_of_mem a hx, hfx⟩

/-- An accepted deterministic self-loop path is valid and keeps at least 4
merged points. -/
theorem buildDeterministicSelfLoopPath_some (ctx : AStarContext)
    (usageMap : Option SegmentUsageMap) (usedPoints : Option UsedPointSet)
    (edgeFromId edgeToId : Nat) (c : Candidate) (clearance : Nat)
    (p : List GridCoord)
    (h : buildDeterministicSelfLoopPath ctx usageMap usedPoints edgeFromId
      edgeToId c clearance = some p) :
    isDeterministicSelfLoopPathValid ctx usageMap usedPoints edgeFromId
      edgeToId c p = true ∧ 4 ≤ (mergePath p).length := by
  unfold buildDeterministicSelfLoopPath at h
  split at h
  · split_ifs at h with hcl
    obtain ⟨mid, _, hmid⟩ := findSome?_some _ _ _ h
    dsimp only at hmid
    split_ifs at hmid with hc
    simp only [Bool.and_eq_true, decide_eq_true_eq] at hc
    cases hmid
    exact hc
  · cases h

end BM

/-- C5: for every non-self-loop edge routed while the segment-usage table is
non-empty, `determinePath` tries the strict searches in exactly the order
given by `strictTiers` — base, expanded-start, expanded-all candidates under
the fast bounds schedule `[12, 24, 48]`, then the same three candidate sets
under the full schedule `[12, 24, 48, 96, 192, 384]` — takes the first tier
that yields a pick, and sets the edge's path to the empty list when every
tier fails. -/
theorem C5_strict_retry_schedule (graphDirection : String)
    (edge : BM.AsciiEdgeRec) (ctx : BM.AStarContext) (baseMaxX baseMaxY : Nat)
    (um : BM.SegmentUsageMap) (usedPoints : Option BM.UsedPointSet)
    (hns : edge.fromNode.index ≠ edge.toNode.index)
    (hcnt : um.usedCount ≠ 0) :
    BM.ROUTING_BOUNDS_EXPAND_STEPS_FAST = [12, 24, 48]
    ∧ BM.ROUTING_BOUNDS_EXPAND_STEPS_FULL = [12, 24, 48, 96, 192, 384]
    ∧ (∀ b, (BM.strictTiers graphDirection edge ctx baseMaxX baseMaxY
          (some um) usedPoints false).findSome? (fun t => t) = some b →
        BM.determinePath graphDirection edge ctx baseMaxX baseMaxY (some um)
            usedPoints =
          ⟨b.1.startDir, b.1.endDir,
            (BM.mergePathIdx b.2.1 ctx.stride).map
              (BM.idxToGridCoord ctx.stride), b.2.1⟩)
    ∧ ((BM.strictTiers graphDirection edge ctx baseMaxX baseMaxY
          (some um) usedPoints false).findSome? (fun t => t) = none →
        BM.determinePath graphDirection edge ctx baseMaxX baseMaxY (some um)
            usedPoints =
          ⟨(BM.determineStartAndEndDir edge graphDirection).1,
            (BM.determineStartAndEndDir edge graphDirection).2.1, [], []⟩) := by
  have hb : (edge.fromNode.index == edge.toNode.index) = false :=
    beq_eq_false_iff_ne.mpr hns
  refine ⟨rfl, rfl, ?_, ?_⟩
  · intro b hbe
    unfold BM.determinePath BM.determinePathAStarStage
    simp only [hb, Bool.false_eq_true, if_false, if_neg hcnt, hbe]
  · intro hbe
    unfold BM.determinePath BM.determinePathAStarStage
    simp only [hb, Bool.false_eq_true, if_false, if_neg hcnt, hbe]

/-- Witness for C5 at a concrete input: a non-self-loop edge between two
distinct nodes sharing a cell on a 1×1 grid with a non-empty usage table;
every candidate is degenerate, so all six tiers fail and the routed path is
empty. -/
theorem C5_strict_retry_schedule_witness :
    (BM.determinePath "LR" BM.c5Edge BM.c5Ctx 0 0 (some BM.c3WitnessMap)
      none).path = [] := by
  have h := (C5_strict_retry_schedule "LR" BM.c5Edge BM.c5Ctx 0 0
    BM.c3WitnessMap none (by decide) (by decide)).2.2.2 (by decide)
  rw [h]

/-- C7 (corrected): for a self-loop edge the router first tries the
deterministic excursion builder — candidate-major over the base (else
expanded-start) candidates, clearance 1..12 in increasing order — and, when
some variant is accepted, uses it: the accepted path is a valid excursion
with at least 4 merged points.  When every candidate/clearance combination
is rejected, the router does NOT leave the path empty: it falls through to
the ordinary A*-based candidate stage (`determinePathAStarStage`), contrary
to the claim's "without calling A*". -/
theorem C7_selfloop_routing (graphDirection : String)
    (edge : BM.AsciiEdgeRec) (ctx : BM.AStarContext) (baseMaxX baseMaxY : Nat)
    (usageMap : Option BM.SegmentUsageMap)
    (usedPoints : Option BM.UsedPointSet)
    (hsl : edge.fromNode.index = edge.toNode.index) :
    (∀ c p,
        BM.selfLoopRoute ctx usageMap usedPoints (edge.fromNode.index + 1)
            (edge.toNode.index + 1)
            (if (BM.baseCandidatesOf ctx.stride edge graphDirection).isEmpty
              then BM.expandedStartCandidatesOf ctx.stride edge graphDirection
              else BM.baseCandidatesOf ctx.stride edge graphDirection)
          = some (c, p) →
        BM.determinePath graphDirection edge ctx baseMaxX baseMaxY usageMap
            usedPoints =
          ⟨c.startDir, c.endDir, BM.mergePath p,
            p.map (fun q => (BM.gridCoordToIdx ctx.stride q).toNat)⟩
        ∧ (∃ clearance ∈ BM.selfLoopClearances,
            BM.buildDeterministicSelfLoopPath ctx usageMap usedPoints
              (edge.fromNode.index + 1) (edge.toNode.index + 1) c clearance
              = some p)
        ∧ BM.isDeterministicSelfLoopPathValid ctx usageMap usedPoints
            (edge.fromNode.index + 1) (edge.toNode.index + 1) c p = true
        ∧ 4 ≤ (BM.mergePath p).length)
    ∧ (BM.selfLoopRoute ctx usageMap usedPoints (edge.fromNode.index + 1)
            (edge.toNode.index + 1)
            (if (BM.baseCandidatesOf ctx.stride edge graphDirection).isEmpty
              then BM.expandedStartCandidatesOf ctx.stride edge graphDirection
              else BM.baseCandidatesOf ctx.stride edge graphDirection)
          = none →
        BM.determinePath graphDirection edge ctx baseMaxX baseMaxY usageMap
            usedPoints =
          BM.determinePathAStarStage graphDirection edge ctx baseMaxX
            baseMaxY usageMap usedPoints) := by
  have hb : (edge.fromNode.index == edge.toNode.index) = true :=
    beq_iff_eq.mpr hsl
  constructor
  · intro c p hroute
    have hcp : ∃ c0 ∈ (if (BM.baseCandidatesOf ctx.stride edge
          graphDirection).isEmpty
        then BM.expandedStartCandidatesOf ctx.stride edge graphDirection
        else BM.baseCandidatesOf ctx.stride edge graphDirection),
        BM.selfLoopClearances.findSome? (fun clearance =>
          (BM.buildDeterministicSelfLoopPath ctx usageMap usedPoints
            (edge.fromNode.index + 1) (edge.toNode.index + 1) c0
            clearance).map (fun q => (c0, q))) = some (c, p) :=
      BM.findSome?_some _ _ _ hroute
    obtain ⟨c0, _, hc0⟩ := hcp
    obtain ⟨cl, hclmem, hcl⟩ := BM.findSome?_some _ _ _ hc0
    obtain ⟨p0, hp0, hpe⟩ := Option.map_eq_some'.mp hcl
    obtain ⟨hc0c, hp0p⟩ := Prod.mk.injEq .. ▸ hpe
    subst hc0c
    subst hp0p
    obtain ⟨hvalid, hlen⟩ := BM.buildDeterministicSelfLoopPath_some ctx
      usageMap usedPoints (edge.fromNode.index + 1) (edge.toNode.index + 1)
      c0 cl p0 hp0
    refine ⟨?_, ⟨cl, hclmem, hp0⟩, hvalid, hlen⟩
    unfold BM.determinePath
    simp only [hb, if_true, hroute]
  · intro hroute
    unfold BM.determinePath
    simp only [hb, if_true, hroute]

/-- Witness for C7's amended rule at a concrete input: the self-loop on the
node at `(1,1)` of an 8×8 grid is routed by the accepted clearance-1
excursion, whose merged path has at least 4 points. -/
theorem C7_selfloop_routing_witness :
    4 ≤ (BM.determinePath "LR" BM.c7bEdge BM.c7bCtx 3 3 none none).path.length
    := by
  obtain ⟨heq, -, -, hlen⟩ :=
    (C7_selfloop_routing "LR" BM.c7bEdge BM.c7bCtx 3 3 none none rfl).1
      BM.c7bCand BM.c7bPath (by decide)
  rw [heq]
  exact hlen

/-- Counterexample to C7 as frozen: on `c7Ctx` (two wall cells next to the
node's 3×3 block) every candidate/clearance combination of the
deterministic self-loop builder is rejected, yet the routed path is not
empty — it is exactly the path found by the unconstrained A* search
`getPath`, so the self-loop was routed by calling A*. -/
theorem C7_selfloop_counterexample :
    BM.selfLoopRoute BM.c7Ctx none none 1 1
        (BM.baseCandidatesOf BM.c7Ctx.stride BM.c7Edge "LR") = none
    ∧ (BM.determinePath "LR" BM.c7Edge BM.c7Ctx 2 2 none none).path ≠ []
    ∧ BM.getPath BM.c7Ctx 7 11 (BM.computeSearchBounds BM.c7Ctx 2 2 12)
        = some [7, 8, 13, 14, 19, 24, 23, 22, 21, 16, 11]
    ∧ (BM.determinePath "LR" BM.c7Edge BM.c7Ctx 2 2 none none).recordIdx
        = [7, 8, 13, 14, 19, 24, 23, 22, 21, 16, 11] := by
  refine ⟨by decide, by decide, by decide, by decide⟩


-- ===========================================================================
-- C9: root identification and root placement
-- ===========================================================================

namespace BM

/-- Characterization of the root scan after `k` nodes: the seen-name set
holds exactly the names of the first `k` nodes and of their edge children,
and the pushed roots are exactly the nodes satisfying `specIsRoot`. -/
theorem rootScan_spec (g : LGraph) (k : Nat) :
    (∀ s, s ∈ ((List.range k).foldl (rootScanStep g) ([], [])).1 ↔
      ((∃ j, j < k ∧ s = nodeName g j)
        ∨ (∃ e, e ∈ g.edges ∧ s = nodeName g e.toIdx
            ∧ ∃ j, j < k ∧ nodeName g e.fromIdx = nodeName g j)))
    ∧ ((List.range k).foldl (rootScanStep g) ([], [])).2
        = (List.range k).filter (specIsRoot g) := by
  induction k with
  | zero => simp
  | succ k ih =>
    obtain ⟨ihm, ihr⟩ := ih
    rw [List.range_succ, List.foldl_append, List.foldl_cons, List.foldl_nil,
      List.filter_append, List.filter_cons, List.filter_nil]
    have hmem : ∀ s, s ∈ ((List.range k).foldl (rootScanStep g) ([], [])).1
        ↔ ((∃ j, j < k ∧ s = nodeName g j)
          ∨ (∃ e, e ∈ g.edges ∧ s = nodeName g e.toIdx
              ∧ ∃ j, j < k ∧ nodeName g e.fromIdx = nodeName g j)) := ihm
    constructor
    · intro s
      simp only [rootScanStep, List.mem_append, List.mem_singleton,
        List.mem_map, hmem]
      constructor
      · rintro (((⟨j, hj, hs⟩ | ⟨e, he, hs, j, hj, hn⟩) | hnamek)
          | ⟨c, hc, hs⟩)
        · exact Or.inl ⟨j, Nat.lt_succ_of_lt hj, hs⟩
        · exact Or.inr ⟨e, he, hs, j, Nat.lt_succ_of_lt hj, hn⟩
        · exact Or.inl ⟨k, Nat.lt_succ_self k, hnamek⟩
        · simp only [getChildrenIdx, List.mem_map, List.mem_filter,
            beq_iff_eq] at hc
          obtain ⟨e, ⟨he, hn⟩, hc⟩ := hc
          rw [← hc] at hs
          exact Or.inr ⟨e, he, hs.symm, k, Nat.lt_succ_self k, hn⟩
      · rintro (⟨j, hj, hs⟩ | ⟨e, he, hs, j, hj, hn⟩)
        · rcases Nat.lt_succ_iff_lt_or_eq.mp hj with hj' | hj'
          · exact Or.inl (Or.inl (Or.inl ⟨j, hj', hs⟩))
          · exact Or.inl (Or.inr (hj' ▸ hs))
        · rcases Nat.lt_succ_iff_lt_or_eq.mp hj with hj' | hj'
          · exact Or.inl (Or.inl (Or.inr ⟨e, he, hs, j, hj', hn⟩))
          · refine Or.inr ⟨e.toIdx, ?_, hs.symm⟩
            simp only [getChildrenIdx, List.mem_map, List.mem_filter,
              beq_iff_eq]
            exact ⟨e, ⟨he, hj' ▸ hn⟩, rfl⟩
    · have hiff : nodeName g k ∈
          ((List.range k).foldl (rootScanStep g) ([], [])).1
          ↔ ¬specIsRoot g k = true := by
        rw [hmem]
        simp only [specIsRoot, Bool.and_eq_true, Bool.not_eq_true',
          decide_eq_true_eq, Bool.not_eq_false, List.any_eq_true,
          beq_iff_eq, not_and_or, not_forall]
        constructor
        · rintro (⟨j, hj, hs⟩ | ⟨e, he, hs, j, hj, hn⟩)
          · exact Or.inl ⟨j, hj, fun h => h hs.symm⟩
          · exact Or.inr ⟨e, he, hs.symm, j, hj, hn⟩
        · rintro (⟨j, hj, hs⟩ | ⟨e, he, hs, j, hj, hn⟩)
          · exact Or.inl ⟨j, hj, (not_ne_iff.mp hs).symm⟩
          · exact Or.inr ⟨e, he, hs.symm, j, hj, hn⟩
      simp only [rootScanStep]
      cases hsr : specIsRoot g k with
      | false =>
        have hin : nodeName g k ∈
            ((List.range k).foldl (rootScanStep g) ([], [])).1 := by
          rw [hiff, hsr]
          simp
        rw [if_pos hin, ihr]
        simp
      | true =>
        have hin : nodeName g k ∉
            ((List.range k).foldl (rootScanStep g) ([], [])).1 :=
          fun h => (hiff.mp h) hsr
        rw [if_neg hin, ihr]
        simp

/-- The roots pushed by the scan are exactly the nodes with no earlier
same-named node and no incoming edge from an earlier node's name. -/
theorem rootIndicesOf_spec (g : LGraph) :
    rootIndicesOf g = (List.range g.nodes.length).filter (specIsRoot g) :=
  (rootScan_spec g g.nodes.length).2

/-- The root list is duplicate-free. -/
theorem rootIndicesOf_nodup (g : LGraph) : (rootIndicesOf g).Nodup := by
  rw [rootIndicesOf_spec]
  exact (List.nodup_range _).filter _

/-- Membership of the root-placement grid blocks. -/
theorem mem_gridBlocks (m t : Nat) (c : GridCoord) :
    c ∈ gridBlocks m t ↔
      ∃ j : Nat, j < t ∧ ∃ dx : Nat, dx < 3 ∧ ∃ dy : Nat, dy < 3
        ∧ c = ⟨(m : Int) + (dx : Int), (m : Int) + 4 * (j : Int) + (dy : Int)⟩
    := by
  constructor
  · intro h
    rw [gridBlocks, List.mem_flatMap] at h
    obtain ⟨j, hj, hb⟩ := h
    rw [List.mem_range] at hj
    rw [block9, List.mem_flatMap] at hb
    obtain ⟨dx, hdx, hm⟩ := hb
    rw [List.mem_range] at hdx
    rw [List.mem_map] at hm
    obtain ⟨dy, hdy, heq⟩ := hm
    rw [List.mem_range] at hdy
    exact ⟨j, hj, dx, hdx, dy, hdy, heq.symm⟩
  · rintro ⟨j, hj, dx, hdx, dy, hdy, hc⟩
    rw [gridBlocks, List.mem_flatMap]
    refine ⟨j, List.mem_range.mpr hj, ?_⟩
    rw [block9, List.mem_flatMap]
    refine ⟨dx, List.mem_range.mpr hdx, ?_⟩
    rw [List.mem_map]
    exact ⟨dy, List.mem_range.mpr hdy, hc.symm⟩

/-- A conflict-free reservation returns the requested spot and adds its 3×3
block. -/
theorem reserveSpot_free (dir : String) (grid : List GridCoord)
    (requested : GridCoord) (h : requested ∉ grid) :
    reserveSpotInGrid dir grid requested
      = (requested, grid ++ block9 requested) := by
  unfold reserveSpotInGrid reserveSpotAux
  simp [h]

/-- The next root request is never occupied by the previous root blocks. -/
theorem next_root_free (m t : Nat) :
    (⟨(m : Int), (m : Int) + 4 * t⟩ : GridCoord) ∉ gridBlocks m t := by
  rw [mem_gridBlocks]
  rintro ⟨j, hj, dx, hdx, dy, hdy, hc⟩
  rw [GridCoord.mk.injEq] at hc
  obtain ⟨hx, hy⟩ := hc
  omega

/-- The grid blocks grow by one block per placement. -/
theorem gridBlocks_succ (m t : Nat) :
    gridBlocks m (t + 1)
      = gridBlocks m t ++ block9 ⟨(m : Int), (m : Int) + 4 * t⟩ := by
  unfold gridBlocks
  rw [List.range_succ, List.flatMap_append]
  simp

/-- The external-root placement fold on an `LR` graph: starting from the
state of `t` earlier conflict-free placements, the `k`-th root of the list
is placed at `(margin, margin + 4 * (t + k))`, and other nodes keep their
coordinates. -/
theorem placeRoots_spec (margin : Nat) (rs : List Nat) :
    ∀ (t : Nat) (pp : PlacePhase), rs.Nodup →
      pp.grid = gridBlocks margin t →
      pp.highest = (fun l => if l = 0 then 4 * t else 0) →
      (∀ k i, rs.get? k = some i →
        (rs.foldl (placeOneRoot "LR" margin 0) pp).nodeCoord i
          = some ⟨(margin : Int), (margin : Int) + 4 * (t + k)⟩)
      ∧ (∀ i, i ∉ rs →
        (rs.foldl (placeOneRoot "LR" margin 0) pp).nodeCoord i
          = pp.nodeCoord i) := by
  induction rs with
  | nil =>
    intro t pp _ _ _
    refine ⟨fun k i h => ?_, fun i _ => rfl⟩
    simp at h
  | cons r rest ih =>
    intro t pp hnd hg hh
    have hreq : placeOneRootRequest "LR" margin 0 pp
        = ⟨(margin : Int), (margin : Int) + 4 * t⟩ := by
      have h0 : pp.highest 0 = 4 * t := by simp [hh]
      unfold placeOneRootRequest
      rw [if_pos rfl, h0, GridCoord.mk.injEq]
      constructor
      · ring
      · push_cast
        ring
    have hstep : placeOneRoot "LR" margin 0 pp r =
        { grid := gridBlocks margin (t + 1),
          nodeCoord := Function.update pp.nodeCoord r
            (some ⟨(margin : Int), (margin : Int) + 4 * t⟩),
          highest := fun l => if l = 0 then 4 * (t + 1) else 0,
          requests := pp.requests
            ++ [⟨(margin : Int), (margin : Int) + 4 * t⟩] } := by
      unfold placeOneRoot
      rw [hreq, hg, reserveSpot_free _ _ _ (next_root_free margin t),
        ← gridBlocks_succ]
      simp only [PlacePhase.mk.injEq, true_and, and_true]
      funext l
      rw [Function.update_apply]
      by_cases hl : l = (0 : Int)
      · subst hl
        simp [hh] <;> omega
      · simp [hh, hl]
    rw [List.foldl_cons, hstep]
    have hnd' := hnd
    rw [List.nodup_cons] at hnd'
    obtain ⟨hrni, hndr⟩ := hnd'
    obtain ⟨ih1, ih2⟩ := ih (t + 1)
      { grid := gridBlocks margin (t + 1),
        nodeCoord := Function.update pp.nodeCoord r
          (some ⟨(margin : Int), (margin : Int) + 4 * t⟩),
        highest := fun l => if l = 0 then 4 * (t + 1) else 0,
        requests := pp.requests
          ++ [⟨(margin : Int), (margin : Int) + 4 * t⟩] }
      hndr rfl rfl
    constructor
    · intro k i hk
      match k, hk with
      | 0, hk =>
        have hi : i = r := by
          simp only [List.get?_cons_zero, Option.some.injEq] at hk
          exact hk.symm
        subst hi
        rw [ih2 i hrni]
        simp only [Function.update_same, Option.some.injEq,
          GridCoord.mk.injEq, true_and]
        norm_num
      | k + 1, hk =>
        simp only [List.get?_cons_succ] at hk
        rw [ih1 k i hk]
        simp only [Option.some.injEq, GridCoord.mk.injEq, true_and]
        push_cast
        ring
    · intro i hi
      have hir : i ≠ r := fun h => hi (h ▸ List.mem_cons_self r rest)
      have hirest : i ∉ rest := fun h => hi (List.mem_cons_of_mem r h)
      rw [ih2 i hirest]
      simp only [Function.update_noteq hir]

/-- The child-placement fold at one level never changes an already placed
node's coordinate. -/
theorem placeChildStep_fold_preserve (dir : String) (margin : Nat)
    (childLevel : Int) (cs : List Nat) :
    ∀ (pp : PlacePhase) (i : Nat) (v : GridCoord),
      pp.nodeCoord i = some v →
      ((cs.foldl (placeChildStep dir margin childLevel) pp).nodeCoord i)
        = some v := by
  induction cs with
  | nil => intro pp i v h; exact h
  | cons c rest ih =>
    intro pp i v h
    rw [List.foldl_cons]
    refine ih _ i v ?_
    unfold placeChildStep
    by_cases hc : (pp.nodeCoord c).isSome
    · rw [if_pos hc]
      exact h
    · rw [if_neg hc]
      have hci : c ≠ i := by
        intro he
        rw [he, h] at hc
        exact hc rfl
      unfold placeOneRoot
      simp only [Function.update_noteq (Ne.symm hci)]
      exact h

/-- One child-placement iteration never changes an already placed node's
coordinate. -/
theorem placeChildrenOfNode_preserve (g : LGraph) (dir : String)
    (margin : Nat) (pp : PlacePhase) (n : Nat) (i : Nat) (v : GridCoord)
    (h : pp.nodeCoord i = some v) :
    (placeChildrenOfNode g dir margin pp n).nodeCoord i = some v := by
  unfold placeChildrenOfNode
  exact placeChildStep_fold_preserve dir margin _ _ pp i v h

/-- The child-placement loop never changes an already placed node's
coordinate. -/
theorem placeChildren_fold_preserve (g : LGraph) (dir : String)
    (margin : Nat) (l : List Nat) :
    ∀ (pp : PlacePhase) (i : Nat) (v : GridCoord),
      pp.nodeCoord i = some v →
      ((l.foldl (placeChildrenOfNode g dir margin) pp).nodeCoord i)
        = some v := by
  induction l with
  | nil => intro pp i v h; exact h
  | cons n rest ih =>
    intro pp i v h
    rw [List.foldl_cons]
    exact ih _ i v (placeChildrenOfNode_preserve g dir margin pp n i v h)

/-- Membership of the `TD` root-placement grid blocks. -/
theorem mem_gridBlocksTD (m t : Nat) (c : GridCoord) :
    c ∈ gridBlocksTD m t ↔
      ∃ j : Nat, j < t ∧ ∃ dx : Nat, dx < 3 ∧ ∃ dy : Nat, dy < 3
        ∧ c = ⟨(m : Int) + 4 * (j : Int) + (dx : Int), (m : Int) + (dy : Int)⟩
    := by
  constructor
  · intro h
    rw [gridBlocksTD, List.mem_flatMap] at h
    obtain ⟨j, hj, hb⟩ := h
    rw [List.mem_range] at hj
    rw [block9, List.mem_flatMap] at hb
    obtain ⟨dx, hdx, hm⟩ := hb
    rw [List.mem_range] at hdx
    rw [List.mem_map] at hm
    obtain ⟨dy, hdy, heq⟩ := hm
    rw [List.mem_range] at hdy
    exact ⟨j, hj, dx, hdx, dy, hdy, heq.symm⟩
  · rintro ⟨j, hj, dx, hdx, dy, hdy, hc⟩
    rw [gridBlocksTD, List.mem_flatMap]
    refine ⟨j, List.mem_range.mpr hj, ?_⟩
    rw [block9, List.mem_flatMap]
    refine ⟨dx, List.mem_range.mpr hdx, ?_⟩
    rw [List.mem_map]
    exact ⟨dy, List.mem_range.mpr hdy, hc.symm⟩

/-- The next `TD` root request is never occupied by the previous root
blocks. -/
theorem next_root_freeTD (m t : Nat) :
    (⟨(m : Int) + 4 * t, (m : Int)⟩ : GridCoord) ∉ gridBlocksTD m t := by
  rw [mem_gridBlocksTD]
  rintro ⟨j, hj, dx, hdx, dy, hdy, hc⟩
  rw [GridCoord.mk.injEq] at hc
  obtain ⟨hx, hy⟩ := hc
  omega

/-- The `TD` grid blocks grow by one block per placement. -/
theorem gridBlocksTD_succ (m t : Nat) :
    gridBlocksTD m (t + 1)
      = gridBlocksTD m t ++ block9 ⟨(m : Int) + 4 * t, (m : Int)⟩ := by
  unfold gridBlocksTD
  rw [List.range_succ, List.flatMap_append]
  simp

/-- The root placement fold on a `TD` graph: starting from the state of `t`
earlier conflict-free placements, the `k`-th root of the list is placed at
`(margin + 4 * (t + k), margin)`, and other nodes keep their
coordinates. -/
theorem placeRoots_specTD (margin : Nat) (rs : List Nat) :
    ∀ (t : Nat) (pp : PlacePhase), rs.Nodup →
      pp.grid = gridBlocksTD margin t →
      pp.highest = (fun l => if l = 0 then 4 * t else 0) →
      (∀ k i, rs.get? k = some i →
        (rs.foldl (placeOneRoot "TD" margin 0) pp).nodeCoord i
          = some ⟨(margin : Int) + 4 * (t + k), (margin : Int)⟩)
      ∧ (∀ i, i ∉ rs →
        (rs.foldl (placeOneRoot "TD" margin 0) pp).nodeCoord i
          = pp.nodeCoord i) := by
  induction rs with
  | nil =>
    intro t pp _ _ _
    refine ⟨fun k i h => ?_, fun i _ => rfl⟩
    simp at h
  | cons r rest ih =>
    intro t pp hnd hg hh
    have hreq : placeOneRootRequest "TD" margin 0 pp
        = ⟨(margin : Int) + 4 * t, (margin : Int)⟩ := by
      have h0 : pp.highest 0 = 4 * t := by simp [hh]
      unfold placeOneRootRequest
      rw [if_neg (by decide), h0, GridCoord.mk.injEq]
      constructor
      · push_cast
        ring
      · ring
    have hstep : placeOneRoot "TD" margin 0 pp r =
        { grid := gridBlocksTD margin (t + 1),
          nodeCoord := Function.update pp.nodeCoord r
            (some ⟨(margin : Int) + 4 * t, (margin : Int)⟩),
          highest := fun l => if l = 0 then 4 * (t + 1) else 0,
          requests := pp.requests
            ++ [⟨(margin : Int) + 4 * t, (margin : Int)⟩] } := by
      unfold placeOneRoot
      rw [hreq, hg, reserveSpot_free _ _ _ (next_root_freeTD margin t),
        ← gridBlocksTD_succ]
      simp only [PlacePhase.mk.injEq, true_and, and_true]
      funext l
      rw [Function.update_apply]
      by_cases hl : l = (0 : Int)
      · subst hl
        simp [hh] <;> omega
      · simp [hh, hl]
    rw [List.foldl_cons, hstep]
    have hnd' := hnd
    rw [List.nodup_cons] at hnd'
    obtain ⟨hrni, hndr⟩ := hnd'
    obtain ⟨ih1, ih2⟩ := ih (t + 1)
      { grid := gridBlocksTD margin (t + 1),
        nodeCoord := Function.update pp.nodeCoord r
          (some ⟨(margin : Int) + 4 * t, (margin : Int)⟩),
        highest := fun l => if l = 0 then 4 * (t + 1) else 0,
        requests := pp.requests
          ++ [⟨(margin : Int) + 4 * t, (margin : Int)⟩] }
      hndr rfl rfl
    constructor
    · intro k i hk
      match k, hk with
      | 0, hk =>
        have hi : i = r := by
          simp only [List.get?_cons_zero, Option.some.injEq] at hk
          exact hk.symm
        subst hi
        rw [ih2 i hrni]
        simp only [Function.update_same, Option.some.injEq,
          GridCoord.mk.injEq, and_true]
        norm_num
      | k + 1, hk =>
        simp only [List.get?_cons_succ] at hk
        rw [ih1 k i hk]
        simp only [Option.some.injEq, GridCoord.mk.injEq, and_true]
        push_cast
        ring
    · intro i hi
      have hir : i ≠ r := fun h => hi (h ▸ List.mem_cons_self r rest)
      have hirest : i ∉ rest := fun h => hi (List.mem_cons_of_mem r h)
      rw [ih2 i hirest]
      simp only [Function.update_noteq hir]

end BM

/-- C9 (corrected): in every layout attempt the set of root nodes is
exactly the set of nodes with no earlier same-named node and no incoming
edge whose source name belongs to an earlier node (NOT the set of nodes
that are not the target of any edge — a node targeted only by later nodes
is still pushed as a root, see the counterexample); under `LR` whenever
the code's subgraph-separation flag is off, the `k`-th root is placed at
column `0 + margin`, row `margin + 4k`; under `TD` (where the separation
flag is always off) the `k`-th root is placed at row `0 + margin`, column
`margin + 4k` — successive roots 4 grid units apart in input order. -/
theorem C9_roots_and_placement :
    (∀ g : BM.LGraph, BM.rootIndicesOf g
        = (List.range g.nodes.length).filter (BM.specIsRoot g))
    ∧ (∀ (g : BM.LGraph) (margin : Nat) (c0 : Nat → Option BM.GridCoord)
        (k i : Nat), g.config.graphDirection = "LR" →
        BM.shouldSeparateB g = false →
        (BM.rootIndicesOf g).get? k = some i →
        (BM.placePhase g margin [] c0).nodeCoord i
          = some ⟨(margin : Int), (margin : Int) + 4 * k⟩)
    ∧ (∀ (g : BM.LGraph) (margin : Nat) (c0 : Nat → Option BM.GridCoord)
        (k i : Nat), g.config.graphDirection = "TD" →
        (BM.rootIndicesOf g).get? k = some i →
        (BM.placePhase g margin [] c0).nodeCoord i
          = some ⟨(margin : Int) + 4 * k, (margin : Int)⟩) := by
  refine ⟨BM.rootIndicesOf_spec, ?_, ?_⟩
  · intro g margin c0 k i hLR hsep hk
    have hext : BM.externalRootNodesOf g = BM.rootIndicesOf g := by
      unfold BM.externalRootNodesOf
      rw [hsep]
      simp
    have hpr : BM.placePhaseRoots g margin [] c0
        = (BM.rootIndicesOf g).foldl
            (BM.placeOneRoot g.config.graphDirection margin 0)
            ⟨[], c0, fun _ => 0, []⟩ := by
      unfold BM.placePhaseRoots
      rw [hsep, Bool.false_and, hext]
      simp
    unfold BM.placePhase
    rw [hpr, hLR]
    obtain ⟨h1, -⟩ := BM.placeRoots_spec margin (BM.rootIndicesOf g) 0
      ⟨[], c0, fun _ => 0, []⟩ (BM.rootIndicesOf_nodup g) rfl
      (by funext l; simp)
    have hroot := h1 k i hk
    refine BM.placeChildren_fold_preserve g "LR" margin _ _ i _ ?_
    rw [hroot]
    simp only [Option.some.injEq, BM.GridCoord.mk.injEq, true_and]
    push_cast
    ring
  · intro g margin c0 k i hTD hk
    have hsep : BM.shouldSeparateB g = false := by
      unfold BM.shouldSeparateB
      rw [hTD]
      rfl
    have hext : BM.externalRootNodesOf g = BM.rootIndicesOf g := by
      unfold BM.externalRootNodesOf
      rw [hsep]
      simp
    have hpr : BM.placePhaseRoots g margin [] c0
        = (BM.rootIndicesOf g).foldl
            (BM.placeOneRoot g.config.graphDirection margin 0)
            ⟨[], c0, fun _ => 0, []⟩ := by
      unfold BM.placePhaseRoots
      rw [hsep, Bool.false_and, hext]
      simp
    unfold BM.placePhase
    rw [hpr, hTD]
    obtain ⟨h1, -⟩ := BM.placeRoots_specTD margin (BM.rootIndicesOf g) 0
      ⟨[], c0, fun _ => 0, []⟩ (BM.rootIndicesOf_nodup g) rfl
      (by funext l; simp)
    have hroot := h1 k i hk
    refine BM.placeChildren_fold_preserve g "TD" margin _ _ i _ ?_
    rw [hroot]
    simp only [Option.some.injEq, BM.GridCoord.mk.injEq, and_true]
    push_cast
    ring

/-- Counterexample to C9 as frozen: in the graph with nodes `A`, `B` (in
this order) and the single edge `B → A`, node `A` (index 0) is the target
of an edge, yet the scan pushes it as a root — when `A` is visited, no
earlier node has added it as a child — so the root set is `{A, B}`, not the
set of nodes that are not the target of any edge (`{B}`). -/
theorem C9_targeted_root_counterexample :
    0 ∈ BM.rootIndicesOf BM.c9Graph
    ∧ (∃ e, e ∈ BM.c9Graph.edges ∧ e.toIdx = 0)
    ∧ BM.rootIndicesOf BM.c9Graph = [0, 1] := by
  refine ⟨by decide, ⟨⟨1, 0, ""⟩, by decide, rfl⟩, by decide⟩

/-- Witness for C9's amended rule at concrete inputs: in the `B → A` graph
at margin 1, under `LR` the first root (node `A`, despite being an edge
target) is placed at `(1, 1)`, and under `TD` the second root (node `B`)
is placed at `(1 + 4, 1)`. -/
theorem C9_roots_and_placement_witness :
    (BM.placePhase BM.c9Graph 1 [] (fun _ => none)).nodeCoord 0
      = some ⟨((1 : Nat) : Int), ((1 : Nat) : Int) + 4 * ((0 : Nat) : Int)⟩
    ∧ (BM.placePhase BM.c9GraphTD 1 [] (fun _ => none)).nodeCoord 1
      = some ⟨((1 : Nat) : Int) + 4 * ((1 : Nat) : Int), ((1 : Nat) : Int)⟩ :=
  ⟨C9_roots_and_placement.2.1 BM.c9Graph 1 (fun _ => none) 0 0 rfl
     (by decide) (by decide),
   C9_roots_and_placement.2.2 BM.c9GraphTD 1 (fun _ => none) 1 1 rfl
     (by decide)⟩


-- ===========================================================================
-- C6: the layout-margin retry loop
-- ===========================================================================

namespace BM

/-- The margin shift is injective. -/
theorem shiftCoord_inj (m : Nat) (a b : GridCoord)
    (h : shiftCoord m a = shiftCoord m b) : a = b := by
  unfold shiftCoord at h
  rw [GridCoord.mk.injEq] at h
  rw [GridCoord.mk.injEq]
  omega

/-- Shifted membership in a shifted grid. -/
theorem mem_map_shift (m : Nat) (l : List GridCoord) (c : GridCoord) :
    shiftCoord m c ∈ l.map (shiftCoord m) ↔ c ∈ l := by
  constructor
  · intro h
    rw [List.mem_map] at h
    obtain ⟨a, ha, he⟩ := h
    rw [shiftCoord_inj m a c he] at ha
    exact ha
  · intro h
    exact List.mem_map_of_mem _ h

/-- The 3×3 block of a shifted coordinate is the shifted block. -/
theorem block9_shift (m : Nat) (c : GridCoord) :
    block9 (shiftCoord m c) = (block9 c).map (shiftCoord m) := by
  unfold block9 shiftCoord
  rw [List.map_flatMap]
  refine congrArg _ ?_
  funext dx
  rw [List.map_map]
  refine List.map_congr_left ?_
  intro dy _
  simp only [Function.comp_apply, GridCoord.mk.injEq]
  constructor <;> ring

/-- The reservation walk commutes with the margin shift. -/
theorem reserveSpotAux_eqv (dir : String) (m : Nat) :
    ∀ (fuel : Nat) (grid : List GridCoord) (req : GridCoord),
      reserveSpotAux dir (grid.map (shiftCoord m)) fuel (shiftCoord m req)
        = (reserveSpotAux dir grid fuel req).map
            (fun r => (shiftCoord m r.1, r.2.map (shiftCoord m))) := by
  intro fuel
  induction fuel with
  | zero => intro grid req; rfl
  | succ fuel ih =>
    intro grid req
    unfold reserveSpotAux
    by_cases hmem : req ∈ grid
    · rw [if_pos ((mem_map_shift m grid req).mpr hmem), if_pos hmem]
      by_cases hd : dir = "LR"
      · rw [if_pos hd, if_pos hd]
        have harg : (⟨(shiftCoord m req).x, (shiftCoord m req).y + 4⟩ :
            GridCoord) = shiftCoord m ⟨req.x, req.y + 4⟩ := by
          unfold shiftCoord
          rw [GridCoord.mk.injEq]
          constructor <;> ring
        rw [harg, ih]
      · rw [if_neg hd, if_neg hd]
        have harg : (⟨(shiftCoord m req).x + 4, (shiftCoord m req).y⟩ :
            GridCoord) = shiftCoord m ⟨req.x + 4, req.y⟩ := by
          unfold shiftCoord
          rw [GridCoord.mk.injEq]
          constructor <;> ring
        rw [harg, ih]
    · rw [if_neg (fun hc => hmem ((mem_map_shift m grid req).mp hc)),
        if_neg hmem]
      rw [Option.map_some']
      rw [block9_shift, List.map_append]

/-- `reserveSpotInGrid` commutes with the margin shift. -/
theorem reserveSpot_eqv (dir : String) (m : Nat) (grid : List GridCoord)
    (req : GridCoord) :
    reserveSpotInGrid dir (grid.map (shiftCoord m)) (shiftCoord m req)
      = (shiftCoord m (reserveSpotInGrid dir grid req).1,
         (reserveSpotInGrid dir grid req).2.map (shiftCoord m)) := by
  unfold reserveSpotInGrid
  rw [List.length_map, reserveSpotAux_eqv]
  cases reserveSpotAux dir grid (grid.length + 1) req with
  | none => rfl
  | some r => rfl

/-- The root request of the margin-`m` run is the shifted margin-`0`
request. -/
theorem placeOneRootRequest_eqv (dir : String) (m : Nat) (level : Int)
    (p0 pm : PlacePhase) (h : EqvPP m p0 pm) :
    placeOneRootRequest dir m level pm
      = shiftCoord m (placeOneRootRequest dir 0 level p0) := by
  obtain ⟨-, -, hh, -⟩ := h
  unfold placeOneRootRequest shiftCoord
  by_cases hd : dir = "LR"
  · rw [if_pos hd, if_pos hd, hh, GridCoord.mk.injEq]
    constructor <;> push_cast <;> ring
  · rw [if_neg hd, if_neg hd, hh, GridCoord.mk.injEq]
    constructor <;> push_cast <;> ring

/-- One root placement preserves margin equivariance. -/
theorem placeOneRoot_eqv (dir : String) (m : Nat) (level : Int)
    (p0 pm : PlacePhase) (i : Nat) (h : EqvPP m p0 pm) :
    EqvPP m (placeOneRoot dir 0 level p0 i)
      (placeOneRoot dir m level pm i) := by
  obtain ⟨hg, hc, hh, hr⟩ := h
  have hreq := placeOneRootRequest_eqv dir m level p0 pm ⟨hg, hc, hh, hr⟩
  unfold placeOneRoot
  rw [hreq, hg, reserveSpot_eqv]
  refine ⟨rfl, ?_, ?_, ?_⟩
  · intro i'
    by_cases hii : i' = i
    · subst hii
      simp only [Function.update_same]
      rfl
    · simp only [Function.update_noteq hii]
      exact hc i'
  · rw [hh]
  · rw [hr, List.map_append]
    rfl

/-- One child placement preserves margin equivariance (at equal child
levels). -/
theorem placeChildStep_eqv (dir : String) (m : Nat) (level : Int)
    (p0 pm : PlacePhase) (c : Nat) (h : EqvPP m p0 pm) :
    EqvPP m (placeChildStep dir 0 level p0 c)
      (placeChildStep dir m level pm c) := by
  obtain ⟨hg, hc, hh, hr⟩ := h
  unfold placeChildStep
  have hsome : (pm.nodeCoord c).isSome = (p0.nodeCoord c).isSome := by
    rw [hc c]
    cases p0.nodeCoord c <;> rfl
  by_cases h0 : (p0.nodeCoord c).isSome
  · rw [if_pos h0, if_pos (hsome.trans h0)]
    exact ⟨hg, hc, hh, hr⟩
  · rw [if_neg h0, if_neg (fun hm0 => h0 (hsome ▸ hm0))]
    exact placeOneRoot_eqv dir m level p0 pm c ⟨hg, hc, hh, hr⟩

/-- The root-placement fold preserves margin equivariance. -/
theorem placeRoots_eqv (dir : String) (m : Nat) (level : Int)
    (rs : List Nat) :
    ∀ (p0 pm : PlacePhase), EqvPP m p0 pm →
      EqvPP m (rs.foldl (placeOneRoot dir 0 level) p0)
        (rs.foldl (placeOneRoot dir m level) pm) := by
  induction rs with
  | nil => intro p0 pm h; exact h
  | cons r rest ih =>
    intro p0 pm h
    rw [List.foldl_cons, List.foldl_cons]
    exact ih _ _ (placeOneRoot_eqv dir m level p0 pm r h)

/-- The child-placement fold at one level preserves margin equivariance. -/
theorem placeChildFold_eqv (dir : String) (m : Nat) (level : Int)
    (cs : List Nat) :
    ∀ (p0 pm : PlacePhase), EqvPP m p0 pm →
      EqvPP m (cs.foldl (placeChildStep dir 0 level) p0)
        (cs.foldl (placeChildStep dir m level) pm) := by
  induction cs with
  | nil => intro p0 pm h; exact h
  | cons c rest ih =>
    intro p0 pm h
    rw [List.foldl_cons, List.foldl_cons]
    exact ih _ _ (placeChildStep_eqv dir m level p0 pm c h)

end BM

namespace BM

/-- A root placement places its node. -/
theorem placeOneRoot_coord_self (dir : String) (margin : Nat) (level : Int)
    (pp : PlacePhase) (i : Nat) :
    ((placeOneRoot dir margin level pp i).nodeCoord i).isSome := by
  unfold placeOneRoot
  simp [Function.update_same]

/-- A root placement keeps every placed node placed. -/
theorem placeOneRoot_coord_mono (dir : String) (margin : Nat) (level : Int)
    (pp : PlacePhase) (i j : Nat) (h : (pp.nodeCoord j).isSome) :
    ((placeOneRoot dir margin level pp i).nodeCoord j).isSome := by
  unfold placeOneRoot
  by_cases hj : j = i
  · subst hj
    simp [Function.update_same]
  · simp only [Function.update_noteq hj]
    exact h

/-- The root-placement fold places every listed node and keeps placed
nodes placed. -/
theorem placeRootsFold_some (dir : String) (margin : Nat) (level : Int)
    (rs : List Nat) :
    ∀ (pp : PlacePhase) (i : Nat), i ∈ rs ∨ (pp.nodeCoord i).isSome →
      ((rs.foldl (placeOneRoot dir margin level) pp).nodeCoord i).isSome := by
  induction rs with
  | nil =>
    intro pp i h
    rcases h with h | h
    · cases h
    · exact h
  | cons r rest ih =>
    intro pp i h
    rw [List.foldl_cons]
    rcases h with h | h
    · rcases List.mem_cons.mp h with h | h
      · subst h
        exact ih _ i (Or.inr (placeOneRoot_coord_self dir margin level pp i))
      · exact ih _ i (Or.inl h)
    · exact ih _ i
        (Or.inr (placeOneRoot_coord_mono dir margin level pp r i h))

/-- A child-placement step places its child and keeps placed nodes
placed. -/
theorem placeChildStep_coord_self (dir : String) (margin : Nat)
    (level : Int) (pp : PlacePhase) (c : Nat) :
    ((placeChildStep dir margin level pp c).nodeCoord c).isSome := by
  unfold placeChildStep
  by_cases hc : (pp.nodeCoord c).isSome
  · rw [if_pos hc]
    exact hc
  · rw [if_neg hc]
    exact placeOneRoot_coord_self dir margin level pp c

/-- A child-placement step keeps every placed node placed. -/
theorem placeChildStep_coord_mono (dir : String) (margin : Nat)
    (level : Int) (pp : PlacePhase) (c j : Nat)
    (h : (pp.nodeCoord j).isSome) :
    ((placeChildStep dir margin level pp c).nodeCoord j).isSome := by
  unfold placeChildStep
  by_cases hc : (pp.nodeCoord c).isSome
  · rw [if_pos hc]
    exact h
  · rw [if_neg hc]
    exact placeOneRoot_coord_mono dir margin level pp c j h

/-- The child fold places every listed child and keeps placed nodes
placed. -/
theorem placeChildFold_some (dir : String) (margin : Nat) (level : Int)
    (cs : List Nat) :
    ∀ (pp : PlacePhase) (c : Nat), c ∈ cs ∨ (pp.nodeCoord c).isSome →
      ((cs.foldl (placeChildStep dir margin level) pp).nodeCoord c).isSome
    := by
  induction cs with
  | nil =>
    intro pp c h
    rcases h with h | h
    · cases h
    · exact h
  | cons d rest ih =>
    intro pp c h
    rw [List.foldl_cons]
    rcases h with h | h
    · rcases List.mem_cons.mp h with h | h
      · subst h
        exact ih _ c
          (Or.inr (placeChildStep_coord_self dir margin level pp c))
      · exact ih _ c (Or.inl h)
    · exact ih _ c
        (Or.inr (placeChildStep_coord_mono dir margin level pp d c h))

/-- One node's child-placement iteration keeps every placed node placed. -/
theorem placeChildrenOfNode_some_mono (g : LGraph) (dir : String)
    (margin : Nat) (pp : PlacePhase) (n j : Nat)
    (h : (pp.nodeCoord j).isSome) :
    ((placeChildrenOfNode g dir margin pp n).nodeCoord j).isSome := by
  unfold placeChildrenOfNode
  exact placeChildFold_some dir margin _ _ pp j (Or.inr h)

/-- One node's child-placement iteration places all of its children. -/
theorem placeChildrenOfNode_children_some (g : LGraph) (dir : String)
    (margin : Nat) (pp : PlacePhase) (n c : Nat)
    (hc : c ∈ getChildrenIdx g n) :
    ((placeChildrenOfNode g dir margin pp n).nodeCoord c).isSome := by
  unfold placeChildrenOfNode
  exact placeChildFold_some dir margin _ _ pp c (Or.inl hc)

/-- The whole child phase keeps every placed node placed. -/
theorem childPhaseFold_mono (g : LGraph) (dir : String) (margin : Nat)
    (l : List Nat) :
    ∀ (pp : PlacePhase) (j : Nat), (pp.nodeCoord j).isSome →
      ((l.foldl (placeChildrenOfNode g dir margin) pp).nodeCoord j).isSome
    := by
  induction l with
  | nil => intro pp j h; exact h
  | cons n rest ih =>
    intro pp j h
    rw [List.foldl_cons]
    exact ih _ j (placeChildrenOfNode_some_mono g dir margin pp n j h)

/-- Distinct node indices of a duplicate-free node list carry distinct
names. -/
theorem nodeName_inj (g : LGraph)
    (hND : (g.nodes.map LNode.name).Nodup) (a b : Nat)
    (ha : a < g.nodes.length) (hb : b < g.nodes.length)
    (h : nodeName g a = nodeName g b) : a = b := by
  have hma : (g.nodes.map LNode.name).get? a = some (nodeName g a) := by
    unfold nodeName
    rw [List.get?_map, List.get?_eq_get ha]
    rfl
  have hmb : (g.nodes.map LNode.name).get? b = some (nodeName g b) := by
    unfold nodeName
    rw [List.get?_map, List.get?_eq_get hb]
    rfl
  have : (g.nodes.map LNode.name).get? a
      = (g.nodes.map LNode.name).get? b := by
    rw [hma, hmb, h]
  exact List.get?_inj (by rwa [List.length_map]) hND this

/-- Under well-formed edges and duplicate-free names, every node is either
a root or a child of an earlier node. -/
theorem root_or_child (g : LGraph)
    (hND : (g.nodes.map LNode.name).Nodup)
    (hwf : ∀ e ∈ g.edges, e.fromIdx < g.nodes.length
      ∧ e.toIdx < g.nodes.length)
    (i : Nat) (hi : i < g.nodes.length) :
    i ∈ rootIndicesOf g ∨ ∃ j, j < i ∧ i ∈ getChildrenIdx g j := by
  by_cases hr : specIsRoot g i = true
  · exact Or.inl (by
      rw [rootIndicesOf_spec]
      exact List.mem_filter.mpr ⟨List.mem_range.mpr hi, hr⟩)
  · right
    simp only [specIsRoot, Bool.and_eq_true, decide_eq_true_eq,
      Bool.not_eq_true', Bool.not_eq_false, List.any_eq_true, beq_iff_eq,
      not_and_or, not_forall] at hr
    rcases hr with ⟨j, hj, hne⟩ | ⟨e, he, hto, j, hj, hfrom⟩
    · exfalso
      have hji : j = i := nodeName_inj g hND j i
        (lt_trans hj hi) hi (not_ne_iff.mp hne)
      omega
    · have hto' : e.toIdx = i := nodeName_inj g hND e.toIdx i
        ((hwf e he).2) hi hto
      refine ⟨j, hj, ?_⟩
      rw [← hto']
      unfold getChildrenIdx
      rw [List.mem_map]
      exact ⟨e, List.mem_filter.mpr ⟨he, by rw [beq_iff_eq]; exact hfrom⟩,
        rfl⟩

/-- When the roots are placed, every node is placed by the time the child
phase visits it. -/
theorem visit_placed (g : LGraph) (dir : String) (margin : Nat)
    (hND : (g.nodes.map LNode.name).Nodup)
    (hwf : ∀ e ∈ g.edges, e.fromIdx < g.nodes.length
      ∧ e.toIdx < g.nodes.length)
    (pp : PlacePhase)
    (hro : ∀ r ∈ rootIndicesOf g, (pp.nodeCoord r).isSome)
    (i : Nat) (hi : i < g.nodes.length) :
    (((List.range i).foldl (placeChildrenOfNode g dir margin) pp).nodeCoord
      i).isSome := by
  rcases root_or_child g hND hwf i hi with hr | ⟨j, hj, hc⟩
  · exact childPhaseFold_mono g dir margin _ pp i (hro i hr)
  · have hisplit : List.range i
        = List.range (j + 1)
          ++ (List.range (i - (j + 1))).map (fun k => (j + 1) + k) := by
      conv_lhs => rw [show i = (j + 1) + (i - (j + 1)) by omega]
      rw [List.range_add]
    rw [hisplit, List.foldl_append]
    refine childPhaseFold_mono g dir margin _ _ i ?_
    have hstep : (List.range (j + 1)).foldl
          (placeChildrenOfNode g dir margin) pp
        = placeChildrenOfNode g dir margin
            ((List.range j).foldl (placeChildrenOfNode g dir margin) pp)
            j := by
      rw [List.range_succ, List.foldl_append, List.foldl_cons,
        List.foldl_nil]
    rw [hstep]
    exact placeChildrenOfNode_children_some g dir margin _ j i hc

/-- Margin equivariance of one node's child-placement iteration, given the
node is placed. -/
theorem placeChildrenOfNode_eqv (g : LGraph) (dir : String) (m : Nat)
    (p0 pm : PlacePhase) (n : Nat) (h : EqvPP m p0 pm)
    (hs : (p0.nodeCoord n).isSome) :
    EqvPP m (placeChildrenOfNode g dir 0 p0 n)
      (placeChildrenOfNode g dir m pm n) := by
  obtain ⟨hg, hc, hh, hr⟩ := h
  obtain ⟨v, hv⟩ := Option.isSome_iff_exists.mp hs
  have hvm : pm.nodeCoord n = some (shiftCoord m v) := by
    rw [hc n, hv]
    rfl
  unfold placeChildrenOfNode
  rw [hv, hvm]
  simp only [Option.getD_some]
  have hlev : (if dir = "LR" then (shiftCoord m v).x - (m : Int)
        else (shiftCoord m v).y - (m : Int)) + 4
      = (if dir = "LR" then v.x - ((0 : Nat) : Int)
        else v.y - ((0 : Nat) : Int)) + 4 := by
    by_cases hd : dir = "LR"
    · rw [if_pos hd, if_pos hd]
      unfold shiftCoord
      push_cast
      ring
    · rw [if_neg hd, if_neg hd]
      unfold shiftCoord
      push_cast
      ring
  rw [hlev]
  exact placeChildFold_eqv dir m _ _ p0 pm ⟨hg, hc, hh, hr⟩

/-- Margin equivariance of the whole child phase (under duplicate-free
names and well-formed edges, with the roots already placed). -/
theorem childPhase_eqv (g : LGraph) (dir : String) (m : Nat)
    (hND : (g.nodes.map LNode.name).Nodup)
    (hwf : ∀ e ∈ g.edges, e.fromIdx < g.nodes.length
      ∧ e.toIdx < g.nodes.length)
    (p0 pm : PlacePhase) (h : EqvPP m p0 pm)
    (hro : ∀ r ∈ rootIndicesOf g, (p0.nodeCoord r).isSome) :
    ∀ i, i ≤ g.nodes.length →
      EqvPP m ((List.range i).foldl (placeChildrenOfNode g dir 0) p0)
        ((List.range i).foldl (placeChildrenOfNode g dir m) pm) := by
  intro i
  induction i with
  | zero => intro _; exact h
  | succ i ih =>
    intro hle
    have hi : i < g.nodes.length := by omega
    rw [List.range_succ, List.foldl_append, List.foldl_cons, List.foldl_nil,
      List.foldl_append, List.foldl_cons, List.foldl_nil]
    exact placeChildrenOfNode_eqv g dir m _ _ i (ih (by omega))
      (visit_placed g dir 0 hND hwf p0 hro i hi)

/-- The root part of the placement phase is margin equivariant, and places
every root. -/
theorem placePhaseRoots_eqv (g : LGraph) (m : Nat)
    (c0 : Nat → Option GridCoord) (hc0 : ∀ i, c0 i = none) :
    EqvPP m (placePhaseRoots g 0 [] c0) (placePhaseRoots g m [] c0) := by
  have h0 : EqvPP m (⟨[], c0, fun _ => 0, []⟩ : PlacePhase)
      ⟨[], c0, fun _ => 0, []⟩ := by
    refine ⟨rfl, ?_, rfl, rfl⟩
    intro i
    show c0 i = (c0 i).map (shiftCoord m)
    rw [hc0 i]
    rfl
  unfold placePhaseRoots
  by_cases hsep : (shouldSeparateB g && !(subgraphRootNodesOf g).isEmpty)
      = true
  · rw [if_pos hsep, if_pos hsep]
    exact placeRoots_eqv _ m 4 _ _ _
      (placeRoots_eqv _ m 0 _ _ _ h0)
  · rw [if_neg hsep, if_neg hsep]
    exact placeRoots_eqv _ m 0 _ _ _ h0

/-- The root part of the placement phase places every root. -/
theorem placePhaseRoots_roots_some (g : LGraph) (margin : Nat)
    (grid0 : List GridCoord) (coord0 : Nat → Option GridCoord) :
    ∀ r ∈ rootIndicesOf g,
      ((placePhaseRoots g margin grid0 coord0).nodeCoord r).isSome := by
  intro r hr
  unfold placePhaseRoots
  by_cases hsep : (shouldSeparateB g && !(subgraphRootNodesOf g).isEmpty)
      = true
  · rw [if_pos hsep]
    have hss : shouldSeparateB g = true := by
      have h' := hsep
      rw [Bool.and_eq_true] at h'
      exact h'.1
    by_cases hin : isNodeInAnySubgraph g r = true
    · refine placeRootsFold_some _ margin 4 _ _ r (Or.inl ?_)
      unfold subgraphRootNodesOf
      rw [if_pos hss]
      exact List.mem_filter.mpr ⟨hr, hin⟩
    · refine placeRootsFold_some _ margin 4 _ _ r (Or.inr ?_)
      refine placeRootsFold_some _ margin 0 _ _ r (Or.inl ?_)
      unfold externalRootNodesOf
      rw [if_pos hss]
      refine List.mem_filter.mpr ⟨hr, ?_⟩
      have hin' : isNodeInAnySubgraph g r = false := by
        revert hin
        cases isNodeInAnySubgraph g r <;> simp
      rw [hin']
      rfl
  · rw [if_neg hsep]
    refine placeRootsFold_some _ margin 0 _ _ r (Or.inl ?_)
    by_cases hss : shouldSeparateB g = true
    · have hempty : (subgraphRootNodesOf g).isEmpty = true := by
        by_contra hne
        have hne' : (subgraphRootNodesOf g).isEmpty = false := by
          revert hne
          cases (subgraphRootNodesOf g).isEmpty <;> simp
        exact hsep (by rw [hss, hne']; rfl)
      unfold externalRootNodesOf
      rw [if_pos hss]
      refine List.mem_filter.mpr ⟨hr, ?_⟩
      by_cases hin : isNodeInAnySubgraph g r = true
      · exfalso
        have hrin : r ∈ subgraphRootNodesOf g := by
          unfold subgraphRootNodesOf
          rw [if_pos hss]
          exact List.mem_filter.mpr ⟨hr, hin⟩
        rw [List.isEmpty_iff] at hempty
        rw [hempty] at hrin
        cases hrin
      · have hin' : isNodeInAnySubgraph g r = false := by
          revert hin
          cases isNodeInAnySubgraph g r <;> simp
        rw [hin']
        rfl
    · unfold externalRootNodesOf
      rw [Bool.not_eq_true] at hss
      rw [hss]
      simp only [Bool.false_eq_true, if_false]
      exact hr

/-- The whole placement phase is margin equivariant on the reset state. -/
theorem placePhase_eqv (g : LGraph) (m : Nat)
    (hND : (g.nodes.map LNode.name).Nodup)
    (hwf : ∀ e ∈ g.edges, e.fromIdx < g.nodes.length
      ∧ e.toIdx < g.nodes.length) :
    EqvPP m (placePhase g 0 [] (fun _ => none))
      (placePhase g m [] (fun _ => none)) := by
  unfold placePhase
  exact childPhase_eqv g g.config.graphDirection m hND hwf _ _
    (placePhaseRoots_eqv g m _ (fun _ => rfl))
    (placePhaseRoots_roots_some g 0 [] _)
    g.nodes.length le_rfl

end BM

/-- C6 (the layout-margin retry loop): the attempts run at margins 0, 1, 2,
3, 4 in this order, each on the fully reset layout state (so the result
never depends on the incoming state); an attempt fails exactly when some
routed edge path has fewer than 2 points; the first successful attempt's
layout is kept (with the last attempt's state left in place when every
margin fails); and, for duplicate-free node names and well-formed edges,
every requested node position of the margin-`m` attempt is the
corresponding margin-0 request shifted by `(m, m)`. -/
theorem C6_layout_margin_retry :
    (∀ (g : BM.LGraph) (st st' : BM.LayoutState),
        BM.createMapping g st = BM.createMapping g st')
    ∧ (∀ (g : BM.LGraph) (m : Nat) (st : BM.LayoutState),
        (BM.createMappingOnce g m st).1 = false
          ↔ ∃ j, j < g.edges.length
              ∧ ((BM.createMappingOnce g m st).2.edgePath j).length < 2)
    ∧ (∀ (g : BM.LGraph) (st : BM.LayoutState),
        (∃ k, k < 5
          ∧ (∀ j, j < k →
              (BM.createMappingOnce g j BM.resetLayoutState).1 = false)
          ∧ (BM.createMappingOnce g k BM.resetLayoutState).1 = true
          ∧ BM.createMapping g st
              = (BM.createMappingOnce g k BM.resetLayoutState).2)
        ∨ ((∀ j, j < 5 →
              (BM.createMappingOnce g j BM.resetLayoutState).1 = false)
            ∧ BM.createMapping g st
                = (BM.createMappingOnce g 4 BM.resetLayoutState).2))
    ∧ (∀ (g : BM.LGraph) (m : Nat),
        (g.nodes.map BM.LNode.name).Nodup →
        (∀ e ∈ g.edges, e.fromIdx < g.nodes.length
          ∧ e.toIdx < g.nodes.length) →
        (BM.placePhase g m [] (fun _ => none)).requests
          = ((BM.placePhase g 0 [] (fun _ => none)).requests).map
              (BM.shiftCoord m)) := by
  refine ⟨?_, ?_, ?_, ?_⟩
  · intro g st st'
    simp only [BM.createMapping, BM.createMappingAux]
  · intro g m st
    have hkey : (BM.createMappingOnce g m st).1
        = !(List.range g.edges.length).any
            (fun j => decide
              (((BM.createMappingOnce g m st).2.edgePath j).length < 2)) :=
      rfl
    rw [hkey]
    simp only [Bool.not_eq_false', List.any_eq_true, List.mem_range,
      decide_eq_true_eq]
  · intro g st
    by_cases h0 : (BM.createMappingOnce g 0 BM.resetLayoutState).1 = true
    · refine Or.inl ⟨0, by omega, fun j hj => by omega, h0, ?_⟩
      simp only [BM.createMapping, BM.createMappingAux]
      rw [if_pos h0]
    · have h0f : (BM.createMappingOnce g 0 BM.resetLayoutState).1 = false
          := by
        revert h0
        cases (BM.createMappingOnce g 0 BM.resetLayoutState).1 <;> simp
      by_cases h1 : (BM.createMappingOnce g 1 BM.resetLayoutState).1 = true
      · refine Or.inl ⟨1, by omega, ?_, h1, ?_⟩
        · intro j hj
          interval_cases j
          exact h0f
        · simp only [BM.createMapping, BM.createMappingAux]
          rw [if_neg (by rw [h0f]; simp), if_pos h1]
      · have h1f : (BM.createMappingOnce g 1 BM.resetLayoutState).1 = false
            := by
          revert h1
          cases (BM.createMappingOnce g 1 BM.resetLayoutState).1 <;> simp
        by_cases h2 :
            (BM.createMappingOnce g 2 BM.resetLayoutState).1 = true
        · refine Or.inl ⟨2, by omega, ?_, h2, ?_⟩
          · intro j hj
            interval_cases j
            · exact h0f
            · exact h1f
          · simp only [BM.createMapping, BM.createMappingAux]
            rw [if_neg (by rw [h0f]; simp), if_neg (by rw [h1f]; simp),
              if_pos h2]
        · have h2f :
              (BM.createMappingOnce g 2 BM.resetLayoutState).1 = false := by
            revert h2
            cases (BM.createMappingOnce g 2 BM.resetLayoutState).1 <;> simp
          by_cases h3 :
              (BM.createMappingOnce g 3 BM.resetLayoutState).1 = true
          · refine Or.inl ⟨3, by omega, ?_, h3, ?_⟩
            · intro j hj
              interval_cases j
              · exact h0f
              · exact h1f
              · exact h2f
            · simp only [BM.createMapping, BM.createMappingAux]
              rw [if_neg (by rw [h0f]; simp), if_neg (by rw [h1f]; simp),
                if_neg (by rw [h2f]; simp), if_pos h3]
          · have h3f :
                (BM.createMappingOnce g 3 BM.resetLayoutState).1 = false
                := by
              revert h3
              cases (BM.createMappingOnce g 3 BM.resetLayoutState).1 <;>
                simp
            by_cases h4 :
                (BM.createMappingOnce g 4 BM.resetLayoutState).1 = true
            · refine Or.inl ⟨4, by omega, ?_, h4, ?_⟩
              · intro j hj
                interval_cases j
                · exact h0f
                · exact h1f
                · exact h2f
                · exact h3f
              · simp only [BM.createMapping, BM.createMappingAux]
                rw [if_neg (by rw [h0f]; simp), if_neg (by rw [h1f]; simp),
                  if_neg (by rw [h2f]; simp), if_neg (by rw [h3f]; simp),
                  if_pos h4]
            · have h4f :
                  (BM.createMappingOnce g 4 BM.resetLayoutState).1 = false
                  := by
                revert h4
                cases (BM.createMappingOnce g 4 BM.resetLayoutState).1 <;>
                  simp
              refine Or.inr ⟨?_, ?_⟩
              · intro j hj
                interval_cases j
                · exact h0f
                · exact h1f
                · exact h2f
                · exact h3f
                · exact h4f
              · simp only [BM.createMapping, BM.createMappingAux]
                rw [if_neg (by rw [h0f]; simp), if_neg (by rw [h1f]; simp),
                  if_neg (by rw [h2f]; simp), if_neg (by rw [h3f]; simp),
                  if_neg (by rw [h4f]; simp)]
  · intro g m hND hwf
    exact (BM.placePhase_eqv g m hND hwf).2.2.2

/-- Witness for C6 at a concrete input: on the one-node, no-edge graph the
margin-2 placement requests are the margin-0 requests shifted by
`(2, 2)`. -/
theorem C6_layout_margin_retry_witness :
    (BM.placePhase BM.c6Graph 2 [] (fun _ => none)).requests
      = ((BM.placePhase BM.c6Graph 0 [] (fun _ => none)).requests).map
          (BM.shiftCoord 2) :=
  C6_layout_margin_retry.2.2.2 BM.c6Graph 2 (by decide) (by decide)


-- ===========================================================================
-- C8: the label-line selection
-- ===========================================================================

namespace BM

/-- Fold of `max` over a list with a shifted start. -/
theorem foldr_max_init (ns : List Nat) :
    ∀ c d : Nat, ns.foldr max (max c d) = max (ns.foldr max c) d := by
  induction ns with
  | nil => intro c d; rfl
  | cons n ns ih =>
    intro c d
    rw [List.foldr_cons, List.foldr_cons, ih]
    omega

/-- The width maximum over an extended segment list. -/
theorem maxW_append {α : Type} (w : α → Nat) (l : List α) (x : α) :
    ((l ++ [x]).map w).foldr max 0 = max ((l.map w).foldr max 0) (w x) := by
  rw [List.map_append, List.foldr_append]
  show (l.map w).foldr max (max (w x) 0) = _
  rw [Nat.max_comm (w x) 0, foldr_max_init]

/-- Every width is bounded by the width maximum. -/
theorem le_maxW {α : Type} (w : α → Nat) (l : List α) :
    ∀ x ∈ l, w x ≤ (l.map w).foldr max 0 := by
  induction l with
  | nil => intro x h; cases h
  | cons a l ih =>
    intro x h
    rw [List.map_cons, List.foldr_cons]
    rcases List.mem_cons.mp h with h | h
    · subst h
      omega
    · have := ih x h
      omega

/-- A non-empty list attains its width maximum. -/
theorem maxW_attained {α : Type} (w : α → Nat) :
    ∀ (l : List α), l ≠ [] → ∃ y ∈ l, w y = (l.map w).foldr max 0 := by
  intro l
  induction l with
  | nil => intro h; exact absurd rfl h
  | cons a t iht =>
    intro _
    cases t with
    | nil =>
      refine ⟨a, List.mem_cons_self a [], ?_⟩
      simp only [List.map_cons, List.map_nil, List.foldr_cons,
        List.foldr_nil]
      omega
    | cons b t2 =>
      obtain ⟨y, hy, hmax⟩ := iht (by simp)
      rw [List.map_cons, List.foldr_cons]
      rcases Nat.le_total (w a) (((b :: t2).map w).foldr max 0) with h | h
      · exact ⟨y, List.mem_cons_of_mem a hy, by omega⟩
      · exact ⟨a, List.mem_cons_self a (b :: t2), by omega⟩

/-- The first-strictly-wider fold starting from `none` finds the first
element of maximal width. -/
theorem foldl_firstMaxStep_none {α : Type} (w : α → Nat) (l : List α) :
    l.foldl (firstMaxStep w) none
      = (l.find? (fun x => decide (w x = (l.map w).foldr max 0))).map
          (fun x => (x, w x)) := by
  induction l using List.reverseRecOn with
  | nil => rfl
  | append_singleton l x ih =>
    rw [List.foldl_append, List.foldl_cons, List.foldl_nil, ih]
    cases hl : l.find? (fun y => decide (w y = (l.map w).foldr max 0)) with
    | none =>
      have hempty : l = [] := by
        by_contra hne
        obtain ⟨y, hy, hmax⟩ := maxW_attained w l hne
        have := List.find?_eq_none.mp hl y hy
        rw [decide_eq_true_eq] at this
        exact this hmax
      subst hempty
      simp only [Option.map_none', List.nil_append]
      have hstep : firstMaxStep w none x = some (x, w x) := rfl
      rw [hstep]
      have hx : (([x].map w).foldr max 0) = w x := by
        simp only [List.map_cons, List.map_nil, List.foldr_cons,
          List.foldr_nil]
        omega
      have hdec : (decide (w x = ([x].map w).foldr max 0)) = true := by
        rw [decide_eq_true_eq, hx]
      rw [List.find?_cons, hdec]
      rfl
    | some a =>
      have hpred := List.find?_some hl
      rw [decide_eq_true_eq] at hpred
      simp only [Option.map_some']
      have hstep : firstMaxStep w (some (a, w a)) x
          = if w a < w x then some (x, w x) else some (a, w a) := rfl
      rw [hstep]
      rw [maxW_append]
      rcases Nat.lt_or_ge ((l.map w).foldr max 0) (w x) with hlt | hle
      · rw [if_pos (by omega)]
        have hmx : max ((l.map w).foldr max 0) (w x) = w x := by omega
        rw [hmx]
        have hnone : l.find? (fun y => decide (w y = w x)) = none := by
          rw [List.find?_eq_none]
          intro y hy
          have := le_maxW w l y hy
          rw [decide_eq_true_eq]
          omega
        rw [List.find?_append, hnone, Option.none_or]
        have hdec : (decide (w x = w x)) = true := by
          rw [decide_eq_true_eq]
        rw [List.find?_cons, hdec]
        rfl
      · rw [if_neg (by omega)]
        have hmx : max ((l.map w).foldr max 0) (w x)
            = (l.map w).foldr max 0 := by omega
        rw [hmx, List.find?_append, hl]
        rfl

end BM

namespace BM

/-- `fbStep` on an unlocked accumulator, written as a plain triple. -/
theorem fbStep_eq {α : Type} (lenLabel : Nat) (w : α → Nat) (a : α)
    (s : Nat) (x : α) :
    fbStep lenLabel w (a, s, false) x
      = if lenLabel ≤ w x then (x, s, true)
        else if s < w x then (x, w x, false) else (a, s, false) := rfl

/-- `fbStep` on a locked accumulator keeps it. -/
theorem fbStep_locked {α : Type} (lenLabel : Nat) (w : α → Nat) (a : α)
    (s : Nat) (x : α) :
    fbStep lenLabel w (a, s, true) x = (a, s, true) := rfl

/-- `Option.or` with a `some` on the left. -/
theorem option_some_or {α : Type} (a : α) (o : Option α) :
    (Option.some a).or o = some a := rfl

/-- When no element is wide enough, the original-rule fallback fold carries
the running width maximum and the first element of positive maximal width
(keeping the initial element when every width is zero). -/
theorem foldl_fbStep_none {α : Type} (lenLabel : Nat) (w : α → Nat)
    (fb0 : α) :
    ∀ (l : List α),
      l.find? (fun z => decide (lenLabel ≤ w z)) = none →
      l.foldl (fbStep lenLabel w) (fb0, 0, false)
        = ((l.find? (fun z => decide (0 < w z)
              && decide (w z = (l.map w).foldr max 0))).getD fb0,
           (l.map w).foldr max 0, false) := by
  intro l
  induction l using List.reverseRecOn with
  | nil => intro _; rfl
  | append_singleton l x ih =>
    intro hfl
    rw [List.find?_append] at hfl
    cases hfll : l.find? (fun z => decide (lenLabel ≤ w z)) with
    | some y =>
      rw [hfll, option_some_or] at hfl
      exact absurd hfl (by simp)
    | none =>
      rw [hfll, Option.none_or] at hfl
      have hwx : ¬ lenLabel ≤ w x := by
        intro hle
        rw [List.find?_cons_of_pos _ (by
          rw [decide_eq_true_eq]; exact hle)] at hfl
        exact absurd hfl (by simp)
      rw [List.foldl_append, ih hfll, List.foldl_cons, List.foldl_nil]
      simp only [maxW_append]
      rw [List.find?_append]
      rcases Nat.lt_or_ge ((l.map w).foldr max 0) (w x) with hM | hM
      · have hmx : max ((l.map w).foldr max 0) (w x) = w x := by omega
        simp only [hmx]
        have hflinner : l.find? (fun z => decide (0 < w z)
            && decide (w z = w x)) = none := by
          rw [List.find?_eq_none]
          intro z hz
          have hle := le_maxW w l z hz
          simp only [Bool.and_eq_true, decide_eq_true_eq, not_and]
          intro _
          omega
        rw [hflinner, Option.none_or]
        have hdec : (decide (0 < w x) && decide (w x = w x)) = true := by
          simp only [Bool.and_eq_true, decide_eq_true_eq]
          exact ⟨by omega, trivial⟩
        rw [List.find?_cons, hdec]
        rw [fbStep_eq, if_neg hwx, if_pos hM]
        rfl
      · have hmx : max ((l.map w).foldr max 0) (w x)
            = (l.map w).foldr max 0 := by omega
        simp only [hmx]
        rw [fbStep_eq, if_neg hwx, if_neg (by omega)]
        cases hinner : l.find? (fun z => decide (0 < w z)
            && decide (w z = (l.map w).foldr max 0)) with
        | some z0 => rw [option_some_or]
        | none =>
          rw [Option.none_or]
          have hpx : (decide (0 < w x)
              && decide (w x = (l.map w).foldr max 0)) = false := by
            rcases Nat.eq_zero_or_pos (w x) with h0 | h0
            · rw [h0]
              rfl
            · exfalso
              have hl : l ≠ [] := by
                intro h0l
                subst h0l
                simp only [List.map_nil, List.foldr_nil] at hM
                omega
              obtain ⟨y, hy, hmax⟩ := maxW_attained w l hl
              have hny := List.find?_eq_none.mp hinner y hy
              simp only [Bool.and_eq_true, decide_eq_true_eq, not_and]
                at hny
              exact absurd hmax (hny (by omega))
          rw [List.find?_cons_of_neg _ (by rw [hpx]; simp)]
          rfl

/-- When some element is wide enough, the original-rule fallback fold locks
on the first such element. -/
theorem foldl_fbStep_some {α : Type} (lenLabel : Nat) (w : α → Nat)
    (fb0 : α) :
    ∀ (l : List α) (y : α),
      l.find? (fun z => decide (lenLabel ≤ w z)) = some y →
      ∃ s, l.foldl (fbStep lenLabel w) (fb0, 0, false) = (y, s, true) := by
  intro l
  induction l using List.reverseRecOn with
  | nil => intro y h; exact absurd h (by simp)
  | append_singleton l x ih =>
    intro y hfl
    rw [List.find?_append] at hfl
    cases hfll : l.find? (fun z => decide (lenLabel ≤ w z)) with
    | some y0 =>
      rw [hfll, option_some_or] at hfl
      obtain ⟨s, hs⟩ := ih y0 hfll
      cases hfl
      refine ⟨s, ?_⟩
      rw [List.foldl_append, hs, List.foldl_cons, List.foldl_nil,
        fbStep_locked]
    | none =>
      rw [hfll, Option.none_or] at hfl
      by_cases hwx : lenLabel ≤ w x
      · rw [List.find?_cons_of_pos _ (by
          rw [decide_eq_true_eq]; exact hwx)] at hfl
        cases hfl
        refine ⟨(l.map w).foldr max 0, ?_⟩
        rw [List.foldl_append, foldl_fbStep_none lenLabel w fb0 l hfll,
          List.foldl_cons, List.foldl_nil, fbStep_eq, if_pos hwx]
      · rw [List.find?_cons_of_neg _ (by
          simp only [decide_eq_true_eq]; exact hwx)] at hfl
        exact absurd hfl (by simp)

/-- The first element of the original-rule fallback fold: the first
wide-enough element, else the first element of positive maximal width,
else the initial element. -/
theorem foldl_fbStep_fst {α : Type} (lenLabel : Nat) (w : α → Nat)
    (fb0 : α) (l : List α) :
    (l.foldl (fbStep lenLabel w) (fb0, 0, false)).1
      = match l.find? (fun z => decide (lenLabel ≤ w z)) with
        | some y => y
        | none => (l.find? (fun z => decide (0 < w z)
            && decide (w z = (l.map w).foldr max 0))).getD fb0 := by
  cases hfl : l.find? (fun z => decide (lenLabel ≤ w z)) with
  | some y =>
    obtain ⟨s, hs⟩ := foldl_fbStep_some lenLabel w fb0 l y hfl
    rw [hs]
  | none =>
    rw [foldl_fbStep_none lenLabel w fb0 l hfl]

/-- The original-rule fallback pick, written with nested `Option.getD`. -/
theorem foldl_fbStep_fst_getD {α : Type} (lenLabel : Nat) (w : α → Nat)
    (fb0 : α) (l : List α) :
    (l.foldl (fbStep lenLabel w) (fb0, 0, false)).1
      = (l.find? (fun z => decide (lenLabel ≤ w z))).getD
          ((l.find? (fun z => decide (0 < w z)
            && decide (w z = (l.map w).foldr max 0))).getD fb0) := by
  rw [foldl_fbStep_fst]
  cases l.find? (fun z => decide (lenLabel ≤ w z)) <;> rfl

end BM

namespace BM

/-- One unfolding step of `determineLabelLine`'s scan loop, phrased with
the accumulator steps `fbStep` and `firstMaxStep` and the combined
non-overlap test `segNonOverlapping`. -/
theorem labelScanLoop_cons (st : LayoutState) (text : String)
    (lenLabel : Nat) (occupied : List LabelBox) (nodeBoxes : List NodeBox)
    (prev step : GridCoord) (rest : List GridCoord)
    (fb : GridCoord × GridCoord) (fbs : Nat) (fbf : Bool)
    (bno : Option ((GridCoord × GridCoord) × Nat)) :
    labelScanLoop st text lenLabel occupied nodeBoxes prev (step :: rest)
        fb fbs fbf bno
      = (if segNonOverlapping st text occupied nodeBoxes (prev, step) then
           if lenLabel ≤ calculateLineWidth st prev step then (prev, step)
           else
             labelScanLoop st text lenLabel occupied nodeBoxes step rest
               (fbStep lenLabel
                 (fun ab => calculateLineWidth st ab.1 ab.2)
                 (fb, fbs, fbf) (prev, step)).1
               (fbStep lenLabel
                 (fun ab => calculateLineWidth st ab.1 ab.2)
                 (fb, fbs, fbf) (prev, step)).2.1
               (fbStep lenLabel
                 (fun ab => calculateLineWidth st ab.1 ab.2)
                 (fb, fbs, fbf) (prev, step)).2.2
               (firstMaxStep (fun ab => calculateLineWidth st ab.1 ab.2)
                 bno (prev, step))
         else
           labelScanLoop st text lenLabel occupied nodeBoxes step rest
             (fbStep lenLabel (fun ab => calculateLineWidth st ab.1 ab.2)
               (fb, fbs, fbf) (prev, step)).1
             (fbStep lenLabel (fun ab => calculateLineWidth st ab.1 ab.2)
               (fb, fbs, fbf) (prev, step)).2.1
             (fbStep lenLabel (fun ab => calculateLineWidth st ab.1 ab.2)
               (fb, fbs, fbf) (prev, step)).2.2
             bno) := by
  simp only [labelScanLoop]
  unfold segNonOverlapping firstMaxStep fbStep
  cases hcb : getLabelBox st prev step text <;>
    cases fbf <;>
      cases bno <;>
        rfl

end BM

namespace BM

/-- `determineLabelLine`'s scan over the path's consecutive segments: it
returns the first non-overlapping segment wide enough for the label; when
there is none, the result of folding the widest-non-overlapping
accumulator over the non-overlapping segments; when that is empty too, the
first component of the original-rule fallback fold over all segments. -/
theorem labelScanLoop_spec (st : LayoutState) (text : String)
    (lenLabel : Nat) (occupied : List LabelBox)
    (nodeBoxes : List NodeBox) :
    ∀ (rest : List GridCoord) (prev : GridCoord)
      (fb : GridCoord × GridCoord) (fbs : Nat) (fbf : Bool)
      (bno : Option ((GridCoord × GridCoord) × Nat)),
      labelScanLoop st text lenLabel occupied nodeBoxes prev rest fb fbs
          fbf bno
        = (match ((prev :: rest).zip rest).find? (fun s =>
              segNonOverlapping st text occupied nodeBoxes s
                && decide (lenLabel ≤ calculateLineWidth st s.1 s.2)) with
           | some c => c
           | none =>
             match (((prev :: rest).zip rest).filter
                 (fun s => segNonOverlapping st text occupied nodeBoxes s))
                 |>.foldl
                 (firstMaxStep (fun s => calculateLineWidth st s.1 s.2))
                 bno with
             | some b => b.1
             | none =>
               (((prev :: rest).zip rest).foldl
                 (fbStep lenLabel (fun s => calculateLineWidth st s.1 s.2))
                 (fb, fbs, fbf)).1) := by
  intro rest
  induction rest with
  | nil =>
    intro prev fb fbs fbf bno
    cases bno <;> rfl
  | cons step rest ih =>
    intro prev fb fbs fbf bno
    rw [labelScanLoop_cons, List.zip_cons_cons]
    by_cases hNO : segNonOverlapping st text occupied nodeBoxes
        (prev, step) = true
    · rw [if_pos hNO]
      by_cases hw : lenLabel ≤ calculateLineWidth st prev step
      · rw [if_pos hw]
        rw [List.find?_cons_of_pos _ (by
          simp only [Bool.and_eq_true, decide_eq_true_eq]
          exact ⟨hNO, hw⟩)]
      · rw [if_neg hw, ih]
        rw [List.find?_cons_of_neg _ (by
          simp only [Bool.and_eq_true, decide_eq_true_eq, not_and]
          intro _
          exact hw)]
        rw [List.filter_cons_of_pos hNO, List.foldl_cons, List.foldl_cons]
    · rw [if_neg hNO, ih]
      rw [List.find?_cons_of_neg _ (by
        simp only [Bool.and_eq_true, not_and]
        intro h
        exact absurd h hNO)]
      rw [List.filter_cons_of_neg (by
        revert hNO
        cases segNonOverlapping st text occupied nodeBoxes (prev, step) <;>
          simp)]
      rw [List.foldl_cons]

end BM

set_option maxHeartbeats 1000000 in
/-- Claim C8: for every edge with a non-empty label and a routed path of at
least 2 points, `determineLabelLine` selects the first path segment whose
width (the sum of the spanned column widths) is at least the label's
display width and whose centred label box overlaps no previously placed
label box and no node box; if no segment qualifies it falls back to the
first widest non-overlapping segment, and if none exists to the segment
the original width-only rule would pick (the first wide-enough segment,
else the first segment of positive maximal width, else the initial
segment); it then sets the midpoint column's width to the maximum of its
current value and the label width plus 2 and records the chosen segment
as the edge's label line. -/
theorem C8_label_line_selection (g : BM.LGraph) (st : BM.LayoutState)
    (j : Nat) (e : BM.LEdgeSpec) (p0 p1 : BM.GridCoord)
    (rest : List BM.GridCoord)
    (he : g.edges.get? j = some e) (htext : e.text.length ≠ 0)
    (hpath : st.edgePath j = p0 :: p1 :: rest) :
    ∃ c : BM.GridCoord × BM.GridCoord,
      (let segs := (p0 :: p1 :: rest).zip (p1 :: rest)
       let w : BM.GridCoord × BM.GridCoord → Nat :=
         fun s => BM.calculateLineWidth st s.1 s.2
       let okSeg : BM.GridCoord × BM.GridCoord → Bool :=
         fun s => BM.segNonOverlapping st e.text
           (BM.collectOccupiedLabelBoxes g st)
           (BM.collectOccupiedNodeBoxes g st) s
       let lenLabel := BM.textDisplayWidth e.text
       segs.find? (fun s => okSeg s && decide (lenLabel ≤ w s)) = some c
       ∨ segs.find? (fun s => okSeg s && decide (lenLabel ≤ w s)) = none
         ∧ ((segs.filter okSeg).find? (fun s =>
               decide (w s = ((segs.filter okSeg).map w).foldr max 0))
             = some c
            ∨ segs.filter okSeg = []
              ∧ c = (segs.find? (fun s =>
                      decide (lenLabel ≤ w s))).getD
                    ((segs.find? (fun s => decide (0 < w s)
                      && decide (w s = (segs.map w).foldr max 0))).getD
                      (p0, p1))))
      ∧ BM.determineLabelLine g st j
        = { st with
            columnWidth := Function.update st.columnWidth
              (min c.1.x c.2.x + (max c.1.x c.2.x - min c.1.x c.2.x) / 2)
              (some (max ((st.columnWidth (min c.1.x c.2.x
                  + (max c.1.x c.2.x - min c.1.x c.2.x) / 2)).getD 0)
                (BM.textDisplayWidth e.text + 2))),
            edgeLabelLine := Function.update st.edgeLabelLine j
              [c.1, c.2] } := by
  have hspec := BM.labelScanLoop_spec st e.text (BM.textDisplayWidth e.text)
    (BM.collectOccupiedLabelBoxes g st) (BM.collectOccupiedNodeBoxes g st)
    (p1 :: rest) p0 (p0, p1) 0 false none
  have hd : ∀ cc : BM.GridCoord × BM.GridCoord,
      BM.labelScanLoop st e.text (BM.textDisplayWidth e.text)
          (BM.collectOccupiedLabelBoxes g st)
          (BM.collectOccupiedNodeBoxes g st) p0 (p1 :: rest) (p0, p1) 0
          false none = cc →
      BM.determineLabelLine g st j
        = { st with
            columnWidth := Function.update st.columnWidth
              (min cc.1.x cc.2.x
                + (max cc.1.x cc.2.x - min cc.1.x cc.2.x) / 2)
              (some (max ((st.columnWidth (min cc.1.x cc.2.x
                  + (max cc.1.x cc.2.x - min cc.1.x cc.2.x) / 2)).getD 0)
                (BM.textDisplayWidth e.text + 2))),
            edgeLabelLine := Function.update st.edgeLabelLine j
              [cc.1, cc.2] } := by
    intro cc hcc
    simp only [BM.determineLabelLine, he, Option.getD_some, hpath]
    rw [if_neg htext]
    rw [hcc]
  cases hfind : ((p0 :: p1 :: rest).zip (p1 :: rest)).find? (fun s =>
      BM.segNonOverlapping st e.text (BM.collectOccupiedLabelBoxes g st)
        (BM.collectOccupiedNodeBoxes g st) s
      && decide (BM.textDisplayWidth e.text
          ≤ BM.calculateLineWidth st s.1 s.2)) with
  | some c0 =>
    rw [hfind] at hspec
    exact ⟨c0, Or.inl hfind, hd c0 hspec⟩
  | none =>
    rw [hfind] at hspec
    cases hbno : (((p0 :: p1 :: rest).zip (p1 :: rest)).filter
        (fun s => BM.segNonOverlapping st e.text
          (BM.collectOccupiedLabelBoxes g st)
          (BM.collectOccupiedNodeBoxes g st) s)).foldl
        (BM.firstMaxStep (fun s => BM.calculateLineWidth st s.1 s.2))
        none with
    | some b =>
      rw [hbno] at hspec
      have hchar := BM.foldl_firstMaxStep_none
        (fun s : BM.GridCoord × BM.GridCoord =>
          BM.calculateLineWidth st s.1 s.2)
        (((p0 :: p1 :: rest).zip (p1 :: rest)).filter
          (fun s => BM.segNonOverlapping st e.text
            (BM.collectOccupiedLabelBoxes g st)
            (BM.collectOccupiedNodeBoxes g st) s))
      rw [hbno] at hchar
      cases hfm : ((((p0 :: p1 :: rest).zip (p1 :: rest)).filter
          (fun s => BM.segNonOverlapping st e.text
            (BM.collectOccupiedLabelBoxes g st)
            (BM.collectOccupiedNodeBoxes g st) s)).find?
          (fun s => decide (BM.calculateLineWidth st s.1 s.2
            = ((((p0 :: p1 :: rest).zip (p1 :: rest)).filter
                (fun s => BM.segNonOverlapping st e.text
                  (BM.collectOccupiedLabelBoxes g st)
                  (BM.collectOccupiedNodeBoxes g st) s)).map
                (fun s => BM.calculateLineWidth st s.1 s.2)).foldr max
                0))) with
      | none =>
        rw [hfm] at hchar
        exact absurd hchar (by simp)
      | some y =>
        rw [hfm] at hchar
        have hb : b = (y, BM.calculateLineWidth st y.1 y.2) :=
          Option.some.inj hchar
        have hsp2 : BM.labelScanLoop st e.text
            (BM.textDisplayWidth e.text)
            (BM.collectOccupiedLabelBoxes g st)
            (BM.collectOccupiedNodeBoxes g st) p0 (p1 :: rest) (p0, p1) 0
            false none = b.1 := hspec
        refine ⟨b.1, Or.inr ⟨hfind, Or.inl ?_⟩, hd b.1 hsp2⟩
        rw [hb]
        exact hfm
    | none =>
      rw [hbno] at hspec
      have hchar := BM.foldl_firstMaxStep_none
        (fun s : BM.GridCoord × BM.GridCoord =>
          BM.calculateLineWidth st s.1 s.2)
        (((p0 :: p1 :: rest).zip (p1 :: rest)).filter
          (fun s => BM.segNonOverlapping st e.text
            (BM.collectOccupiedLabelBoxes g st)
            (BM.collectOccupiedNodeBoxes g st) s))
      rw [hbno] at hchar
      have hfe : ((p0 :: p1 :: rest).zip (p1 :: rest)).filter
          (fun s => BM.segNonOverlapping st e.text
            (BM.collectOccupiedLabelBoxes g st)
            (BM.collectOccupiedNodeBoxes g st) s) = [] := by
        by_contra hne
        obtain ⟨y, hy, hmax⟩ := BM.maxW_attained
          (fun s : BM.GridCoord × BM.GridCoord =>
            BM.calculateLineWidth st s.1 s.2)
          (((p0 :: p1 :: rest).zip (p1 :: rest)).filter
            (fun s => BM.segNonOverlapping st e.text
              (BM.collectOccupiedLabelBoxes g st)
              (BM.collectOccupiedNodeBoxes g st) s)) hne
        cases hfm : ((((p0 :: p1 :: rest).zip (p1 :: rest)).filter
            (fun s => BM.segNonOverlapping st e.text
              (BM.collectOccupiedLabelBoxes g st)
              (BM.collectOccupiedNodeBoxes g st) s)).find?
            (fun s => decide (BM.calculateLineWidth st s.1 s.2
              = ((((p0 :: p1 :: rest).zip (p1 :: rest)).filter
                  (fun s => BM.segNonOverlapping st e.text
                    (BM.collectOccupiedLabelBoxes g st)
                    (BM.collectOccupiedNodeBoxes g st) s)).map
                  (fun s => BM.calculateLineWidth st s.1 s.2)).foldr max
                0))) with
        | some z =>
          rw [hfm] at hchar
          exact absurd hchar (by simp)
        | none =>
          have hny := List.find?_eq_none.mp hfm y hy
          simp only [decide_eq_true_eq] at hny
          exact hny hmax
      have hfst := BM.foldl_fbStep_fst_getD (BM.textDisplayWidth e.text)
        (fun s : BM.GridCoord × BM.GridCoord =>
          BM.calculateLineWidth st s.1 s.2) (p0, p1)
        ((p0 :: p1 :: rest).zip (p1 :: rest))
      have hsp2 : BM.labelScanLoop st e.text (BM.textDisplayWidth e.text)
          (BM.collectOccupiedLabelBoxes g st)
          (BM.collectOccupiedNodeBoxes g st) p0 (p1 :: rest) (p0, p1) 0
          false none
          = (((p0 :: p1 :: rest).zip (p1 :: rest)).foldl
              (BM.fbStep (BM.textDisplayWidth e.text)
                (fun s => BM.calculateLineWidth st s.1 s.2))
              ((p0, p1), 0, false)).1 := hspec
      refine ⟨(((p0 :: p1 :: rest).zip (p1 :: rest)).foldl
          (BM.fbStep (BM.textDisplayWidth e.text)
            (fun s => BM.calculateLineWidth st s.1 s.2))
          ((p0, p1), 0, false)).1, ?_, ?_⟩
      · exact Or.inr ⟨hfind, Or.inr ⟨hfe, hfst⟩⟩
      · exact hd _ hsp2

/-- Witness for C8 at a concrete input: on the two-node graph with the
labelled edge and a two-point path over two width-3 columns, the selected
segment satisfies the three-stage rule and the layout state is updated
accordingly. -/
theorem C8_label_line_selection_witness :
    ∃ c : BM.GridCoord × BM.GridCoord,
      (let segs := ((⟨0, 0⟩ : BM.GridCoord) :: (⟨1, 0⟩ : BM.GridCoord)
         :: []).zip ((⟨1, 0⟩ : BM.GridCoord) :: [])
       let w : BM.GridCoord × BM.GridCoord → Nat :=
         fun s => BM.calculateLineWidth BM.c8St s.1 s.2
       let okSeg : BM.GridCoord × BM.GridCoord → Bool :=
         fun s => BM.segNonOverlapping BM.c8St
           (BM.LEdgeSpec.mk 0 1 "x").text
           (BM.collectOccupiedLabelBoxes BM.c8Graph BM.c8St)
           (BM.collectOccupiedNodeBoxes BM.c8Graph BM.c8St) s
       let lenLabel := BM.textDisplayWidth (BM.LEdgeSpec.mk 0 1 "x").text
       segs.find? (fun s => okSeg s && decide (lenLabel ≤ w s)) = some c
       ∨ segs.find? (fun s => okSeg s && decide (lenLabel ≤ w s)) = none
         ∧ ((segs.filter okSeg).find? (fun s =>
               decide (w s = ((segs.filter okSeg).map w).foldr max 0))
             = some c
            ∨ segs.filter okSeg = []
              ∧ c = (segs.find? (fun s =>
                      decide (lenLabel ≤ w s))).getD
                    ((segs.find? (fun s => decide (0 < w s)
                      && decide (w s = (segs.map w).foldr max 0))).getD
                      (⟨0, 0⟩, ⟨1, 0⟩))))
      ∧ BM.determineLabelLine BM.c8Graph BM.c8St 0
        = { BM.c8St with
            columnWidth := Function.update BM.c8St.columnWidth
              (min c.1.x c.2.x + (max c.1.x c.2.x - min c.1.x c.2.x) / 2)
              (some (max ((BM.c8St.columnWidth (min c.1.x c.2.x
                  + (max c.1.x c.2.x - min c.1.x c.2.x) / 2)).getD 0)
                (BM.textDisplayWidth (BM.LEdgeSpec.mk 0 1 "x").text + 2))),
            edgeLabelLine := Function.update BM.c8St.edgeLabelLine 0
              [c.1, c.2] } :=
  C8_label_line_selection BM.c8Graph BM.c8St 0 ⟨0, 1, "x"⟩ ⟨0, 0⟩ ⟨1, 0⟩ []
    rfl (by decide) rfl
